import Mathlib

/-!
Receiver-side stream players of TeamTalk5 (`StreamPlayers.cpp`)

A shallow embedding of `teamtalk::AudioPlayer` (jitter buffer, fragment store,
push and pull paths) together with the properties proved about it.

Conventions of the embedding:

* `uint16_t` packet numbers are natural numbers kept below `2^16`; every place
  where the C++ code converts to `uint16_t` or `int16_t` is an explicit
  `% 65536` (`toUInt16`, `toInt16`).
* `int` values (milliseconds) are unbounded integers; the products computed by
  `GetBufferedAudioMSec` are assumed not to overflow a 32-bit `int`.
* `std::map` containers are association lists kept in the order of their
  comparator; `begin()` is the head and `rbegin()` the last element. The
  wrap-aware comparator is a strict total order on any set of keys that lies
  within a half window of the 16-bit circle, which is the case for the jitter
  buffer of every reachable state (`Inv.keys`); on such keys the list and the
  tree behave alike.
* The loops are bounded by a fuel argument; `AddPacket_evict_exit` and
  `PlayBuffer_catchup_exit` show that the fuel supplied never runs out.
* The decoders, the resampler and the PCM samples are external; of the muxer
  only the queued messages are recorded.
-/

namespace teamtalk

/-! ## Machine integers and wrap-aware comparison -/

/-- Conversion to `int16_t`: two's complement value of the low 16 bits. -/
def toInt16 (x : Int) : Int :=
  if x % 65536 < 32768 then x % 65536 else x % 65536 - 65536

/-- Conversion to `uint16_t`: the low 16 bits. -/
def toUInt16 (x : Int) : Nat := (x % 65536).toNat

/-- Modelled from the spec: the macro `W16_LT` is declared outside
`StreamPlayers.cpp`; spec section 6 gives it as
`a < b` iff `(int16_t)(a - b) < 0`. -/
def W16_LT (a b : Nat) : Bool := decide (toInt16 ((a : Int) - (b : Int)) < 0)

/-- Modelled from the spec: the macro `W16_GEQ` (also used under the name
`PACKETNO_GEQ`), the wrap-aware `a >= b`, i.e. `(int16_t)(a - b) >= 0`. -/
def W16_GEQ (a b : Nat) : Bool := decide (0 ≤ toInt16 ((a : Int) - (b : Int)))

/-! ## Data model -/

/-- Modelled from the spec: the codec record (`AudioCodec`, declared in
`CodecCommon.h`) and the values its accessor functions return (spec section 3,
AudioCodecParams). The callback duration is a duration, hence a natural
number. -/
structure AudioCodec where
  /-- Value of `GetAudioCodecCbMillis`: duration of one callback. -/
  cb_msec : Nat
  /-- Value of `GetAudioCodecFramesPerPacket`. -/
  frames_per_packet : Nat
  /-- Value of `GetAudioCodecEncFrameSize`. -/
  enc_frame_size : Nat
  /-- Value of `GetAudioCodecCbSamples`. -/
  cb_samples : Nat
  /-- Value of `GetAudioCodecSimulateStereo`. -/
  simulate_stereo : Bool
deriving DecidableEq, Repr

/-- The callback duration as the `int` the C++ code computes with. -/
def GetAudioCodecCbMillis (c : AudioCodec) : Int := (c.cb_msec : Int)

/-- Modelled from the spec: an already parsed audio packet (`AudioPacket`,
declared in `PacketLayout.h`; spec section 3). The payload length is a
`uint16_t` in the source, so payloads are shorter than `2^16` bytes. -/
structure AudioPacket where
  packet_no : Nat
  stream_id : Nat
  time : Nat
  /-- Result of `HasFragments()`. -/
  has_fragments : Bool
  /-- Fragment number; `none` stands for `INVALID_FRAGMENT_NO`. -/
  fragno : Option Nat
  frag_cnt : Nat
  /-- Encoded audio; `none` stands for a null data pointer. -/
  enc : Option (List Nat)
  /-- Per-frame sizes; `none` when `HasFrameSizes()` is false. -/
  frame_sizes : Option (List Nat)
deriving DecidableEq, Repr

/-- Packet number accessor, a `uint16_t`. -/
def AudioPacket.GetPacketNumber (p : AudioPacket) : Nat := p.packet_no % 65536

/-- Stream id accessor. -/
def AudioPacket.GetStreamID (p : AudioPacket) : Nat := p.stream_id

/-- Timestamp accessor, a `uint32_t`. -/
def AudioPacket.GetTime (p : AudioPacket) : Nat := p.time % 4294967296

/-- Modelled from the spec: a slot of the jitter buffer (`encframe`, declared
in `StreamPlayers.h`): encoded bytes, per-frame sizes, timestamp, stream id. -/
structure encframe where
  enc_frames : List Nat
  enc_frame_sizes : List Nat
  stream_id : Nat
  timestamp : Nat
deriving DecidableEq, Repr

/-- The default-constructed slot that `operator[]` inserts. -/
def encframe.empty : encframe := ⟨[], [], 0, 0⟩

/-- Stream types an audio player distinguishes in `PlayBuffer`. -/
inductive StreamType where
  | STREAMTYPE_VOICE
  | STREAMTYPE_MEDIAFILE_AUDIO
  | STREAMTYPE_OTHER
deriving DecidableEq, Repr

/-- Output lanes selected for a stereo stream. -/
inductive StereoMask where
  | STEREO_BOTH
  | STEREO_LEFT
  | STEREO_RIGHT
  | STEREO_NONE
deriving DecidableEq, Repr

/-- One call of `AudioMuxer::QueueUserAudio`, as recorded by the embedding. -/
structure MuxMsg where
  userid : Int
  /-- False when the PCM pointer passed is `NULL`. -/
  has_pcm : Bool
  samples_played : Nat
  final : Bool
deriving DecidableEq, Repr

/-- Modelled from the spec: the container type of `m_buffer` is declared in
`StreamPlayers.h`; spec section 3 gives the jitter store as a mapping from
packet number to slot that is iterated in wrap-aware sequence order. -/
abbrev JitterBuffer := List (Nat × encframe)

/-- Modelled from the spec: the container type of `m_audfragments` is declared
in `StreamPlayers.h`; spec section 3 gives the fragment store as a mapping
from packet number to (fragment number to packet). -/
abbrev FragmentStore := List (Nat × List (Nat × AudioPacket))

/-- The members of `AudioPlayer` as the constructor initialises them (lines
41-59) and the member functions use them; the class itself is declared in
`StreamPlayers.h`. The counters are `int`s that only count up from 0. -/
structure AudioPlayer where
  m_sndgrpid : Int
  m_userid : Int
  m_streamtype : StreamType
  m_talking : Bool
  m_codec : AudioCodec
  m_last_playback : Nat
  m_play_stopped_delay : Nat
  m_played_packet_time : Nat
  m_samples_played : Nat
  m_current_samples_played : Nat
  m_stereo : StereoMask
  m_no_recording : Bool
  m_stream_id : Nat
  m_new_audio_blocks : Nat
  m_audiopackets_recv : Nat
  m_audiopacket_lost : Nat
  m_buffer_msec : Int
  m_play_pkt_no : Nat
  m_buffer : JitterBuffer
  m_audfragments : FragmentStore
  /-- Messages queued to `m_audiomuxer`, oldest first. -/
  m_audiomuxer : List MuxMsg
deriving DecidableEq, Repr

/-! ## The ordered map operations used on the two stores -/

/-- Keys of a map, in iteration order. -/
def mapKeys {β : Type} (b : List (Nat × β)) : List Nat := b.map Prod.fst

/-- Lookup `find(k)`. -/
def mapFind {β : Type} (k : Nat) : List (Nat × β) → Option β
  | [] => none
  | (k1, v) :: t => if k1 = k then some v else mapFind k t

/-- Insertion of a key that is not present, at its place in the wrap-aware
order of the comparator `W16_LT`: before the first key that is greater. -/
def mapInsert {β : Type} (k : Nat) (v : β) : List (Nat × β) → List (Nat × β)
  | [] => [(k, v)]
  | (k1, v1) :: t =>
    if W16_LT k k1 then (k, v) :: (k1, v1) :: t else (k1, v1) :: mapInsert k v t

/-- The effect of `operator[]` on the container: a default value is inserted
when the key is absent. -/
def mapIndex {β : Type} (dflt : β) (k : Nat) (b : List (Nat × β)) : List (Nat × β) :=
  match mapFind k b with
  | some _ => b
  | none => mapInsert k dflt b

/-- In-place change of the value stored at `k`. -/
def mapModify {β : Type} (k : Nat) (f : β → β) (b : List (Nat × β)) : List (Nat × β) :=
  b.map (fun e => if e.1 = k then (e.1, f e.2) else e)

/-- Assignment through `operator[]`: `m[k].field = ...`. -/
def mapUpdate {β : Type} (dflt : β) (k : Nat) (f : β → β) (b : List (Nat × β)) :
    List (Nat × β) :=
  mapModify k f (mapIndex dflt k b)

/-- Removal `erase(k)`. -/
def mapErase {β : Type} (k : Nat) (b : List (Nat × β)) : List (Nat × β) :=
  b.filter (fun e => decide (e.1 ≠ k))

/-- Key of `begin()`, when the map is not empty. -/
def mapBegin {β : Type} (b : List (Nat × β)) : Option Nat := (b.head?).map Prod.fst

/-- Key of `rbegin()`, when the map is not empty. -/
def mapRBegin {β : Type} (b : List (Nat × β)) : Option Nat := (b.getLast?).map Prod.fst

/-! ## Fragment reassembly (`QueuePacket`, `CleanUpAudioFragments`) -/

/-- Assignment `frags[fragno] = pkt` on the inner map of one packet, which is
ordered by fragment number. -/
def fragSet (fragno : Nat) (pkt : AudioPacket) :
    List (Nat × AudioPacket) → List (Nat × AudioPacket)
  | [] => [(fragno, pkt)]
  | (n, q) :: t =>
    if n = fragno then (fragno, pkt) :: t
    else if fragno < n then (fragno, pkt) :: (n, q) :: t
    else (n, q) :: fragSet fragno pkt t

/-- Modelled from the spec: `ReassembleAudioPacket` lives in `PacketHelper`,
outside `StreamPlayers.cpp`. Spec section 4.1, push step 3: when the set of
fragments stored for the packet number equals `fragment_count`, the payloads
are concatenated in fragment-number order into a single packet without
fragments; otherwise there is nothing to admit. The header fields of the
result are those of fragment 0. -/
def ReassembleAudioPacket (frags : List (Nat × AudioPacket)) (_codec : AudioCodec) :
    Option AudioPacket :=
  match frags with
  | [] => none
  | (_, first) :: _ =>
    if first.frag_cnt ≠ 0 ∧ frags.map Prod.fst = List.range first.frag_cnt then
      some { first with
        has_fragments := false
        fragno := none
        frag_cnt := 0
        enc := some ((frags.map (fun e => e.2.enc.getD [])).flatten) }
    else none

/-- `AudioPlayer::CleanUpAudioFragments`, lines 143-159: every fragment entry
whose key is wrap-aware at or below `too_old_packet_no` is erased. -/
def CleanUpAudioFragments (s : AudioPlayer) (too_old_packet_no : Nat) : AudioPlayer :=
  { s with m_audfragments :=
      s.m_audfragments.filter (fun e => !(W16_GEQ too_old_packet_no e.1)) }

/-! ## `AudioPlayer` operations -/

/-- `AudioPlayer::Reset`, lines 161-172. -/
def Reset (s : AudioPlayer) : AudioPlayer :=
  { s with m_audfragments := [], m_buffer := [], m_play_pkt_no := 0, m_stream_id := 0 }

/-- `AudioPlayer::SetAudioBufferSize`, lines 301-304. -/
def SetAudioBufferSize (s : AudioPlayer) (msec : Int) : AudioPlayer :=
  { s with m_buffer_msec := max msec (GetAudioCodecCbMillis s.m_codec) }

/-- `AudioPlayer::GetBufferedAudioMSec`, lines 306-317. The pre-increment of
the `int16_t` counter wraps modulo `2^16`. -/
def GetBufferedAudioMSec (s : AudioPlayer) : Int :=
  let codec_msec := GetAudioCodecCbMillis s.m_codec
  if s.m_stream_id ≠ 0 ∧ s.m_buffer.length ≠ 0 ∧ codec_msec ≠ 0 then
    let n_packets := toInt16 (((mapRBegin s.m_buffer).getD 0 : Nat) - (s.m_play_pkt_no : Int))
    codec_msec * toInt16 (n_packets + 1)
  else (s.m_buffer.length : Int) * codec_msec

/-- Sum of the per-frame sizes (`SumFrameSizes`). -/
def SumFrameSizes (sizes : List Nat) : Nat := sizes.sum

/-- Lines 349-375 of `AudioPlayer::AddPacket`: the slot of `pkt_no` is written
field by field through `m_buffer[pkt_no]`. The flag is false when the supplied
frame sizes do not sum to the payload length, in which case the slot has been
erased and `AddPacket` returns. -/
def AddPacket_store (c : AudioCodec) (p : AudioPacket) (enc : List Nat) (b : JitterBuffer) :
    Bool × JitterBuffer :=
  let pkt_no := p.GetPacketNumber
  let upd := fun (f : encframe → encframe) (m : JitterBuffer) =>
    mapUpdate encframe.empty pkt_no f m
  let r : Bool × JitterBuffer :=
    match p.frame_sizes with
    | some sizes =>
      let b1 := upd (fun f => { f with enc_frame_sizes := sizes }) b
      if SumFrameSizes sizes = enc.length then
        (true, upd (fun f => { f with enc_frames := enc }) b1)
      else
        (false, mapErase pkt_no b1)
    | none =>
      let b1 := upd (fun f => { f with enc_frames := enc }) b
      if c.frames_per_packet > 1 then
        (true, upd (fun f => { f with
          enc_frame_sizes := List.replicate c.frames_per_packet c.enc_frame_size }) b1)
      else
        (true, upd (fun f => { f with enc_frame_sizes := f.enc_frame_sizes ++ [enc.length] }) b1)
  if r.1 then
    let b3 := upd (fun f => { f with timestamp := p.GetTime }) r.2
    (true, upd (fun f => { f with stream_id := p.GetStreamID }) b3)
  else r

/-- One iteration of the loop at lines 378-387: the smallest-key slot is
erased and, when slots remain, `m_play_pkt_no` moves to the new smallest key. -/
def eraseBegin (s : AudioPlayer) : AudioPlayer :=
  match s.m_buffer.tail with
  | [] => { s with m_buffer := [] }
  | (k, f) :: t => { s with m_buffer := (k, f) :: t, m_play_pkt_no := k }

/-- The loop at lines 378-387 of `AudioPlayer::AddPacket`, with the number of
iterations bounded by `fuel` (the buffer size is always enough). -/
def AddPacket_evict : Nat → AudioPlayer → AudioPlayer
  | 0, s => s
  | fuel + 1, s =>
    if GetBufferedAudioMSec s > s.m_buffer_msec ∧ s.m_buffer.length ≠ 0 then
      AddPacket_evict fuel (eraseBegin s)
    else s

/-- `AudioPlayer::AddPacket`, lines 319-400. -/
def AddPacket (s : AudioPlayer) (p : AudioPacket) : AudioPlayer :=
  match p.enc with
  | none => s
  | some enc =>
    if enc.length = 0 then s
    else
      let s1 := { s with m_audiopackets_recv := s.m_audiopackets_recv + 1 }
      let pkt_no := p.GetPacketNumber
      if p.GetStreamID = 0 then s1
      else if s1.m_stream_id ≠ 0 ∧ W16_LT pkt_no s1.m_play_pkt_no = true then s1
      else
        let r := AddPacket_store s1.m_codec p enc s1.m_buffer
        if r.1 then
          let s2 := AddPacket_evict r.2.length { s1 with m_buffer := r.2 }
          if s2.m_stream_id = 0 then
            { s2 with m_play_pkt_no := pkt_no, m_stream_id := p.GetStreamID }
          else s2
        else { s1 with m_buffer := r.2 }

/-- `AudioPlayer::QueuePacket`, lines 83-141. The first component is the
returned pointer: the reassembled packet, or `none` for a null pointer.
`GetPlayedPacketNo()` is the inline accessor of `m_play_pkt_no`. -/
def QueuePacket (s : AudioPlayer) (new_audpkt : AudioPacket) :
    Option AudioPacket × AudioPlayer :=
  if new_audpkt.has_fragments = false then (none, AddPacket s new_audpkt)
  else
    match new_audpkt.fragno with
    | none => (none, s)
    | some fragno =>
      let packetno := new_audpkt.GetPacketNumber
      let old_packet_no :=
        if s.m_audfragments.length ≥ 10 then toUInt16 ((packetno : Int) - 10)
        else s.m_play_pkt_no
      let s1 := if old_packet_no ≠ 0 then CleanUpAudioFragments s old_packet_no else s
      let frags := mapUpdate [] packetno (fragSet fragno new_audpkt) s1.m_audfragments
      match ReassembleAudioPacket ((mapFind packetno frags).getD []) s1.m_codec with
      | none => (none, { s1 with m_audfragments := frags })
      | some q => (some q, AddPacket { s1 with m_audfragments := mapErase packetno frags } q)

/-- `DecodeFrame` of `SpeexPlayer` (lines 520-539) and `OpusPlayer`
(lines 570-588): true when the slot holds encoded audio, false when the
decoder ran its concealment path. -/
def DecodeFrame (f : encframe) : Bool := decide (f.enc_frames.length ≠ 0)

/-- The pull-side limit computed at lines 412-420 of `PlayBuffer`. -/
def maxbuf_msec (s : AudioPlayer) : Int :=
  match s.m_streamtype with
  | StreamType.STREAMTYPE_VOICE => Int.tdiv s.m_buffer_msec 2
  | _ => s.m_buffer_msec

/-- The catch-up loop at lines 422-435 of `PlayBuffer`, with the number of
iterations bounded by `fuel`. The source does not test `m_buffer.size()`
here; with a non-negative limit the condition is false on an empty buffer
(`PlayBuffer_catchup_cond_nonempty`), so `erase(begin())` is never reached
with an empty map in a reachable state. -/
def PlayBuffer_catchup (maxbuf : Int) : Nat → AudioPlayer → AudioPlayer
  | 0, s => s
  | fuel + 1, s =>
    if s.m_stream_id ≠ 0 ∧ GetBufferedAudioMSec s > maxbuf then
      PlayBuffer_catchup maxbuf fuel (eraseBegin s)
    else s

/-- The assertion at line 410 of `PlayBuffer`. -/
def PlayBuffer_assert (s : AudioPlayer) : Bool :=
  match mapBegin s.m_buffer with
  | some k => W16_GEQ k s.m_play_pkt_no
  | none => true

/-- Lines 442-459 of `PlayBuffer`: the slot at `m_play_pkt_no` is handed to
the decoder, erased, and the play cursor advances by one (16-bit). -/
def PlayBuffer_decode (s : AudioPlayer) : AudioPlayer :=
  let b := mapIndex encframe.empty s.m_play_pkt_no s.m_buffer
  let slot := (mapFind s.m_play_pkt_no b).getD encframe.empty
  let s1 : AudioPlayer :=
    if DecodeFrame slot = true then
      { s with m_buffer := b, m_played_packet_time := slot.timestamp,
               m_stream_id := slot.stream_id }
    else
      { s with m_buffer := b, m_audiopacket_lost := s.m_audiopacket_lost + 1 }
  { s1 with m_buffer := mapErase s1.m_play_pkt_no s1.m_buffer,
            m_play_pkt_no := (s1.m_play_pkt_no + 1) % 65536 }

/-- Lines 468-473 of `PlayBuffer`: the callback is queued to the muxer unless
recording is disabled and something was played; the PCM pointer is `NULL`
when nothing was played. -/
def PlayBuffer_mux (played : Bool) (s : AudioPlayer) : AudioPlayer :=
  if s.m_no_recording = false ∨ played = false then
    { s with m_audiomuxer := s.m_audiomuxer ++
        [{ userid := s.m_userid, has_pcm := played,
           samples_played := s.m_samples_played, final := false }] }
  else s

/-- `AudioPlayer::PlayBuffer`, lines 402-487: the returned flag `played` and
the state after the call. The PCM written to the output buffer is the
decoder's and is not part of the state. -/
def PlayBuffer (s : AudioPlayer) : Bool × AudioPlayer :=
  if s.m_buffer.length ≠ 0 then
    (true, PlayBuffer_mux true
      (PlayBuffer_decode (PlayBuffer_catchup (maxbuf_msec s) s.m_buffer.length s)))
  else (false, PlayBuffer_mux false s)

/-- The constructor of `AudioPlayer`, lines 38-73. The constants
`STOPPED_TALKING_DELAY` and `STEREO_BOTH` come from headers; the former is a
parameter here. -/
def AudioPlayer.new (sndgrpid userid : Int) (stream_type : StreamType) (codec : AudioCodec)
    (stopped_talking_delay : Nat) : AudioPlayer :=
  SetAudioBufferSize (Reset
    { m_sndgrpid := sndgrpid, m_userid := userid, m_streamtype := stream_type,
      m_talking := false, m_codec := codec, m_last_playback := 0,
      m_play_stopped_delay := stopped_talking_delay, m_played_packet_time := 0,
      m_samples_played := 0, m_current_samples_played := 0,
      m_stereo := StereoMask.STEREO_BOTH, m_no_recording := false, m_stream_id := 0,
      m_new_audio_blocks := 0, m_audiopackets_recv := 0, m_audiopacket_lost := 0,
      m_buffer_msec := 1000, m_play_pkt_no := 0, m_buffer := [], m_audfragments := [],
      m_audiomuxer := [] }) 1000

/-! ## Call sequences -/

/-- The calls a client makes on a player. -/
inductive Call where
  | setAudioBufferSize (msec : Int)
  | queuePacket (p : AudioPacket)
  | addPacket (p : AudioPacket)
  | playBuffer
  | reset
deriving DecidableEq, Repr

/-- The state after one call. -/
def Call.apply (s : AudioPlayer) : Call → AudioPlayer
  | Call.setAudioBufferSize msec => SetAudioBufferSize s msec
  | Call.queuePacket p => (QueuePacket s p).2
  | Call.addPacket p => AddPacket s p
  | Call.playBuffer => (PlayBuffer s).2
  | Call.reset => Reset s

/-- The state after a sequence of calls. -/
def runCalls (s : AudioPlayer) (calls : List Call) : AudioPlayer :=
  calls.foldl Call.apply s

/-- States reachable from a freshly constructed player by a sequence of
`SetAudioBufferSize`, `QueuePacket`, `AddPacket`, `PlayBuffer` and `Reset`
calls. -/
def Reachable (s : AudioPlayer) : Prop :=
  ∃ (sndgrpid userid : Int) (st : StreamType) (c : AudioCodec) (d : Nat) (calls : List Call),
    s = runCalls (AudioPlayer.new sndgrpid userid st c d) calls

/-! ## Invariants of reachable states -/

/-- Number of 16-bit sequence steps from `p` forward to `k`. -/
def seqOff (p k : Nat) : Nat := (k + 65536 - p % 65536) % 65536

/-- The keys of a map lie in the half window that starts at the cursor `p`
and are listed in strictly increasing distance from it. -/
def KeysOK {β : Type} (p : Nat) (b : List (Nat × β)) : Prop :=
  (∀ k ∈ mapKeys b, k < 65536 ∧ seqOff p k < 32768) ∧
  (mapKeys b).Pairwise (fun k1 k2 => seqOff p k1 < seqOff p k2)

/-- Every slot holds encoded audio and a nonzero stream id. -/
def SlotsOK (b : JitterBuffer) : Prop :=
  ∀ e ∈ b, e.2.stream_id ≠ 0 ∧ e.2.enc_frames ≠ []

/-- The invariant kept by every call on an `AudioPlayer`. -/
structure Inv (s : AudioPlayer) : Prop where
  play_lt : s.m_play_pkt_no < 65536
  keys : KeysOK s.m_play_pkt_no s.m_buffer
  slots : SlotsOK s.m_buffer
  idle : s.m_stream_id = 0 → s.m_buffer = []
  budget : GetAudioCodecCbMillis s.m_codec ≤ s.m_buffer_msec

/-- True when the per-frame sizes supplied with the packet, if any, sum to
the payload length (the test at line 356 of `AddPacket`). -/
def sizesOK (p : AudioPacket) (enc : List Nat) : Bool :=
  match p.frame_sizes with
  | some sizes => decide (SumFrameSizes sizes = enc.length)
  | none => true

/-- The slot that lines 349-375 of `AddPacket` leave at the packet number,
as a function of the slot `old` that `m_buffer[pkt_no]` referred to before. -/
def storedSlot (c : AudioCodec) (p : AudioPacket) (enc : List Nat) (old : encframe) : encframe :=
  { enc_frames := enc
    enc_frame_sizes :=
      match p.frame_sizes with
      | some sizes => sizes
      | none =>
        if c.frames_per_packet > 1 then List.replicate c.frames_per_packet c.enc_frame_size
        else old.enc_frame_sizes ++ [enc.length]
    stream_id := p.GetStreamID
    timestamp := p.GetTime }

/-- The state in which `AddPacket` reaches its eviction loop at line 378,
for a packet with payload `enc` that passed the early returns: the received
counter is incremented and the slot is stored. -/
def AddPacket_stored (s : AudioPlayer) (p : AudioPacket) (enc : List Nat) : AudioPlayer :=
  { s with
      m_audiopackets_recv := s.m_audiopackets_recv + 1
      m_buffer :=
        mapUpdate encframe.empty p.GetPacketNumber (storedSlot s.m_codec p enc) s.m_buffer }

/-- The packet passes every early return of `AddPacket` in state `s`:
non-empty payload, nonzero stream id, not late, consistent frame sizes. -/
def Admitted (s : AudioPlayer) (p : AudioPacket) (enc : List Nat) : Prop :=
  p.enc = some enc ∧ enc.length ≠ 0 ∧ p.GetStreamID ≠ 0 ∧
  ¬ (s.m_stream_id ≠ 0 ∧ W16_LT p.GetPacketNumber s.m_play_pkt_no = true) ∧
  sizesOK p enc = true

/-- The value `DecodeFrame` returns at line 442 of `PlayBuffer` in a call made
in state `s`: true when a real buffered packet was decoded in the call, false
when the decoder concealed a missing packet or the call emitted silence. -/
def PlayBuffer_decoded (s : AudioPlayer) : Bool :=
  if s.m_buffer.length ≠ 0 then
    let t := PlayBuffer_catchup (maxbuf_msec s) s.m_buffer.length s
    DecodeFrame ((mapFind t.m_play_pkt_no
      (mapIndex encframe.empty t.m_play_pkt_no t.m_buffer)).getD encframe.empty)
  else false

/-! ## Concrete players and packets used in examples -/

/-- A mono codec with a 20 ms callback and one frame per packet. -/
def exCodec : AudioCodec :=
  { cb_msec := 20, frames_per_packet := 1, enc_frame_size := 0, cb_samples := 960,
    simulate_stereo := false }

/-- An unfragmented packet with a three-byte payload and no frame sizes. -/
def exPacket (no sid : Nat) : AudioPacket :=
  { packet_no := no, stream_id := sid, time := 1000 + no, has_fragments := false,
    fragno := none, frag_cnt := 0, enc := some [1, 2, 3], frame_sizes := none }

/-- A freshly constructed voice player for `exCodec`. -/
def exPlayer : AudioPlayer :=
  AudioPlayer.new 0 1 StreamType.STREAMTYPE_VOICE exCodec 500

/-- Calls pushing the packets numbered `nos` of stream 7 through `AddPacket`. -/
def exPushes (nos : List Nat) : List Call := nos.map (fun n => Call.addPacket (exPacket n 7))

/-- Packets 1, 2, 3 are buffered, then the budget is lowered to 20 ms. -/
def exShrunk : AudioPlayer :=
  runCalls exPlayer (exPushes [1, 2, 3] ++ [Call.setAudioBufferSize 20])

/-- The budget is set to 200 ms and packets 1..10 are buffered, which fills
the budget exactly. -/
def exFull : AudioPlayer :=
  runCalls exPlayer
    (Call.setAudioBufferSize 200 :: exPushes [1, 2, 3, 4, 5, 6, 7, 8, 9, 10])

instance instDecidableAdmitted (s : AudioPlayer) (p : AudioPacket) (enc : List Nat) :
    Decidable (Admitted s p enc) := by
  unfold Admitted; infer_instance

/-- Packets 100 and 102 were pushed and packet 100 has been played; packet
101 is missing. -/
def exGap : AudioPlayer :=
  runCalls exPlayer (exPushes [100, 102] ++ [Call.playBuffer])

/-- Packets 65530..65535 and 0..4 of one stream are buffered: a run across
the 16-bit boundary. -/
def exWrap : AudioPlayer :=
  runCalls exPlayer (exPushes [65530, 65531, 65532, 65533, 65534, 65535, 0, 1, 2, 3, 4])

/-- Packet 5 has been played and packet 40 arrived afterwards: 700 ms are
buffered, more than the pull-side limit of 500 ms. -/
def exJump : AudioPlayer :=
  runCalls exPlayer (exPushes [5] ++ [Call.playBuffer] ++ exPushes [30, 40])

/-- A voice player whose budget was lowered to one callback (20 ms), so that
the pull-side limit is 10 ms. -/
def exTight : AudioPlayer := runCalls exPlayer [Call.setAudioBufferSize 20]

/-- The scenario E4: budget 200 ms, packets 1..20 pushed without pulling. -/
def exOverflow : AudioPlayer :=
  runCalls exPlayer
    (Call.setAudioBufferSize 200 ::
      exPushes [1, 2, 3, 4, 5, 6, 7, 8, 9, 10, 11, 12, 13, 14, 15, 16, 17, 18, 19, 20])

/-! ## Runs of consecutively numbered packets -/

/-- Pushing a list of packets through `AddPacket`, first to last. -/
def pushAll (s : AudioPlayer) (ps : List AudioPacket) : AudioPlayer := ps.foldl AddPacket s

/-- The packets of a run `pk 0, ..., pk (n-1)` that are pushed, in ascending
order: those whose index is kept (not omitted). -/
def runPushes (pk : Nat → AudioPacket) (keep : Nat → Bool) (n : Nat) : List AudioPacket :=
  ((List.range n).filter keep).map pk

/-- The flags returned by `n` consecutive `PlayBuffer` calls, and the state
after them. -/
def playN : Nat → AudioPlayer → List Bool × AudioPlayer
  | 0, s => ([], s)
  | n + 1, s => ((PlayBuffer s).1 :: (playN n (PlayBuffer s).2).1, (playN n (PlayBuffer s).2).2)

/-- Packet `i` of a run that starts at number `a` in stream `sid`: its number
is `a + i` modulo `2^16`, and it passes the payload checks of `AddPacket`. -/
def RunPacket (a sid : Nat) (pk : Nat → AudioPacket) (i : Nat) : Prop :=
  (pk i).GetPacketNumber = (a + i) % 65536 ∧ (pk i).GetStreamID = sid ∧
  ∃ enc, (pk i).enc = some enc ∧ enc ≠ [] ∧ sizesOK (pk i) enc = true

/-- The slots a codec stores for the kept packets with indices `lo` to
`lo + len - 1` of a run, in ascending index order. -/
def runEntries (c : AudioCodec) (pk : Nat → AudioPacket) (keep : Nat → Bool) (lo len : Nat) :
    JitterBuffer :=
  ((List.range' lo len).filter keep).map
    (fun i => ((pk i).GetPacketNumber,
      storedSlot c (pk i) ((pk i).enc.getD []) encframe.empty))

/-- The player holds exactly the kept packets `lo .. lo + len - 1` of the run
and its cursor is on number `a + lo`. -/
structure RunState (s0 : AudioPlayer) (a sid : Nat) (pk : Nat → AudioPacket)
    (keep : Nat → Bool) (lo len : Nat) (t : AudioPlayer) : Prop where
  buf : t.m_buffer = runEntries s0.m_codec pk keep lo len
  play : t.m_play_pkt_no = (a + lo) % 65536
  stream : t.m_stream_id = sid
  codec : t.m_codec = s0.m_codec
  budget : t.m_buffer_msec = s0.m_buffer_msec
  stype : t.m_streamtype = s0.m_streamtype

/-- The assumptions on a run of `n` packets starting at number `a` that is
pushed into a player in state `s0`: every packet is a valid packet of stream
`sid`, the run has at most `2^15` packets, and `n` callbacks fit the pull-side
limit of `PlayBuffer`. -/
structure RunSetup (s0 : AudioPlayer) (a sid : Nat) (pk : Nat → AudioPacket) (n : Nat) :
    Prop where
  pkts : ∀ i, i < n → RunPacket a sid pk i
  n_le : n ≤ 32768
  sid_ne : sid ≠ 0
  fits : (n : Int) * GetAudioCodecCbMillis s0.m_codec ≤ maxbuf_msec s0
  budget_ok : GetAudioCodecCbMillis s0.m_codec ≤ s0.m_buffer_msec

/-- The scenario E1: packets 100..109 of stream 7 pushed into a fresh player. -/
def exE1 : AudioPlayer :=
  pushAll exPlayer (runPushes (fun i => exPacket (100 + i) 7) (fun _ => true) 10)

/-- The scenario E2: as E1, with packet 104 omitted. -/
def exE2 : AudioPlayer :=
  pushAll exPlayer (runPushes (fun i => exPacket (100 + i) 7) (fun i => decide (i ≠ 4)) 10)

/-- A voice player with a budget of 2000 seconds, so that the pull-side limit
(1000 seconds) admits runs of more than 32768 packets of 20 ms. -/
def exHuge : AudioPlayer := runCalls exPlayer [Call.setAudioBufferSize 2000000]

/-! ## Concrete states for the frame-size examples -/

/-- Packet 100 of stream 7 pushed twice into a fresh player: the second push
is a duplicate of a buffered packet. -/
def exDuplicate : AudioPlayer := runCalls exPlayer (exPushes [100, 100])

/-- Packet 100 of stream 7 pushed once into a fresh player. -/
def exSingle : AudioPlayer := runCalls exPlayer (exPushes [100])

/-- A codec with two frames of 10 bytes per packet and a 40 ms callback. -/
def exCodecTwoFrames : AudioCodec :=
  { cb_msec := 40, frames_per_packet := 2, enc_frame_size := 10, cb_samples := 640,
    simulate_stereo := false }

/-- A fresh voice player for `exCodecTwoFrames`. -/
def exPlayerTwoFrames : AudioPlayer :=
  AudioPlayer.new 0 1 StreamType.STREAMTYPE_VOICE exCodecTwoFrames 500

/-! ## Fragment pushes -/

/-- The expiry threshold `old_packet_no` computed at lines 103-107 of
`QueuePacket` for a fragment `f` pushed in state `s`. -/
def QueuePacket_old_packet_no (s : AudioPlayer) (f : AudioPacket) : Nat :=
  if s.m_audfragments.length ≥ 10 then toUInt16 ((f.GetPacketNumber : Int) - 10)
  else s.m_play_pkt_no

/-- The fragment store after lines 109-119 of `QueuePacket`: expired entries
are cleaned up and fragment `f`, with fragment number `fragno`, is stored. -/
def QueuePacket_frags (s : AudioPlayer) (f : AudioPacket) (fragno : Nat) : FragmentStore :=
  mapUpdate [] f.GetPacketNumber (fragSet fragno f)
    (if QueuePacket_old_packet_no s f ≠ 0 then
      (CleanUpAudioFragments s (QueuePacket_old_packet_no s f)).m_audfragments
    else s.m_audfragments)

/-- The pointers returned by consecutive `QueuePacket` calls, first to last,
and the state after them. A returned packet means that `AddPacket` was invoked
with a reassembled packet. -/
def queueAll : AudioPlayer → List AudioPacket → List (Option AudioPacket) × AudioPlayer
  | s, [] => ([], s)
  | s, f :: rest =>
    ((QueuePacket s f).1 :: (queueAll (QueuePacket s f).2 rest).1,
      (queueAll (QueuePacket s f).2 rest).2)

/-- A well-formed fragment of packet number `k` that was split into `N`
fragments: its fragment number is valid and below `N`. -/
def IsFragment (k N : Nat) (f : AudioPacket) : Prop :=
  f.has_fragments = true ∧ f.GetPacketNumber = k ∧ f.frag_cnt = N ∧
  ∃ i, f.fragno = some i ∧ i < N

/-- Fragment `fragno` of `cnt` of packet `no` in stream 7, with a two-byte
payload. -/
def exFragment (no fragno cnt : Nat) : AudioPacket :=
  { packet_no := no, stream_id := 7, time := 1000 + no, has_fragments := true,
    fragno := some fragno, frag_cnt := cnt, enc := some [fragno, fragno],
    frame_sizes := none }

/-- The first fragment of each of the packets 1..9 has arrived, so nine
packets are pending reassembly. -/
def exNinePending : AudioPlayer :=
  runCalls exPlayer
    ([1, 2, 3, 4, 5, 6, 7, 8, 9].map (fun n => Call.queuePacket (exFragment n 0 2)))

/-- No stored fragment of packet `k` has fragment number `m`, and every
stored fragment of packet `k` announces `N` fragments. -/
def FragsAvoid (k N m : Nat) (store : FragmentStore) : Prop :=
  ∀ e ∈ store, e.1 = k → ∀ x ∈ e.2, x.1 ≠ m ∧ x.2.frag_cnt = N

/-! ## The sound-system callback (`StreamPlayerCb`) and the PCM loops -/

/-- Conversion to `int32_t`: two's complement value of the low 32 bits. -/
def toInt32 (x : Int) : Int :=
  if x % 4294967296 < 2147483648 then x % 4294967296 else x % 4294967296 - 4294967296

/-- Modelled from the spec: the macro `W32_LT` is declared outside
`StreamPlayers.cpp`; spec section 6 gives the 32-bit comparators as the 16-bit
ones with `int32_t`: `a < b` iff `(int32_t)(a - b) < 0`. -/
def W32_LT (a b : Nat) : Bool := decide (toInt32 ((a : Int) - (b : Int)) < 0)

/-- Modelled from the spec: the macro `W32_LEQ`, `(int32_t)(a - b) <= 0`. -/
def W32_LEQ (a b : Nat) : Bool := decide (toInt32 ((a : Int) - (b : Int)) ≤ 0)

/-- Modelled from the spec: the macro `W32_GT`, `(int32_t)(a - b) > 0`. -/
def W32_GT (a b : Nat) : Bool := decide (0 < toInt32 ((a : Int) - (b : Int)))

/-- Modelled from the spec: the macro `W32_GEQ`, `(int32_t)(a - b) >= 0`. -/
def W32_GEQ (a b : Nat) : Bool := decide (0 ≤ toInt32 ((a : Int) - (b : Int)))

/-- A buffer of 16-bit PCM samples, addressed by index. Writes are modelled
as function updates, so a write outside the intended range is visible. -/
abbrev PcmBuffer := Nat → Int

/-- The loop of the `STEREO_LEFT` case, lines 207-208 of `StreamPlayerCb`:
`for(i = 2*input_samples - 2; i >= 0; i -= 2) buf[i+1] = 0`. The first
argument is the number of iterations left; the next iteration has
`i = 2 * k`. -/
def maskLeftLoop : Nat → PcmBuffer → PcmBuffer
  | 0, buf => buf
  | k + 1, buf => maskLeftLoop k (Function.update buf (2 * k + 1) 0)

/-- The loop of the `STEREO_RIGHT` case, lines 211-212: `buf[i] = 0`. -/
def maskRightLoop : Nat → PcmBuffer → PcmBuffer
  | 0, buf => buf
  | k + 1, buf => maskRightLoop k (Function.update buf (2 * k) 0)

/-- The loop of the `STEREO_NONE` case, lines 215-219: `buf[i] = 0;
buf[i+1] = 0`. -/
def maskNoneLoop : Nat → PcmBuffer → PcmBuffer
  | 0, buf => buf
  | k + 1, buf =>
    maskNoneLoop k (Function.update (Function.update buf (2 * k) 0) (2 * k + 1) 0)

/-- The `switch(m_stereo)` at lines 202-221 of `StreamPlayerCb`. -/
def StreamPlayerCb_mask (m : StereoMask) (input_samples : Nat) (buf : PcmBuffer) : PcmBuffer :=
  match m with
  | StereoMask.STEREO_BOTH => buf
  | StereoMask.STEREO_LEFT => maskLeftLoop input_samples buf
  | StereoMask.STEREO_RIGHT => maskRightLoop input_samples buf
  | StereoMask.STEREO_NONE => maskNoneLoop input_samples buf

/-- The buffer after the first `j` iterations of the loop at lines 479-483 of
`PlayBuffer`, `for(i = 2*n_samples - 2; i >= 0; i -= 2)` with body
`buf[i] = buf[i/2]; buf[i+1] = buf[i/2]`: iteration number `j + 1` has
`i = 2 * (n - 1 - j)`. -/
def simulateStereoSteps (n : Nat) : Nat → PcmBuffer → PcmBuffer
  | 0, buf => buf
  | j + 1, buf =>
    let b := simulateStereoSteps n j buf
    let i := 2 * (n - 1 - j)
    let b1 := Function.update b i (b (i / 2))
    Function.update b1 (i + 1) (b1 (i / 2))

/-- Lines 474-484 of `PlayBuffer`: the stereo simulation, applied to the
output buffer when the codec asks for it. -/
def PlayBuffer_simulate_stereo (c : AudioCodec) (n_samples : Nat) (buf : PcmBuffer) :
    PcmBuffer :=
  if c.simulate_stereo = true then simulateStereoSteps n_samples n_samples buf else buf

/-- `AudioPlayer::StreamPlayerCb`, lines 175-265: the returned flag, the
working buffer after the stereo mask (before resampling) and the state after
the call. Parameters that stand for what lies outside the file: `now` is the
value of `GETTIMESTAMP()`, `codec_channels` the value of
`GetAudioCodecChannels`, `container_accepts` the result of
`AUDIOCONTAINER::instance()->AddAudio`, and `pcm` the content that
`PlayBuffer` left in the working buffer. The resampler only writes the
caller's buffer. -/
def StreamPlayerCb (s : AudioPlayer) (now : Nat) (codec_channels : Nat)
    (container_accepts : Bool) (pcm : PcmBuffer) : Bool × PcmBuffer × AudioPlayer :=
  let input_channels := if s.m_codec.simulate_stereo = true then 2 else codec_channels
  let input_samples := s.m_codec.cb_samples
  let r := PlayBuffer s
  let s1 := { r.2 with m_samples_played := r.2.m_samples_played + input_samples }
  let r2 : PcmBuffer × AudioPlayer :=
    if r.1 = true then
      (if input_channels = 2 then StreamPlayerCb_mask s1.m_stereo input_samples pcm else pcm,
        { s1 with m_last_playback := now, m_talking := true })
    else if s1.m_talking = true ∧
        W32_GEQ now ((s1.m_last_playback + s1.m_play_stopped_delay) % 4294967296) = true then
      (pcm, Reset { s1 with
        m_talking := false
        m_audiomuxer := s1.m_audiomuxer ++
          [{ userid := s1.m_userid, has_pcm := false,
             samples_played := s1.m_samples_played, final := false }] })
    else (pcm, s1)
  let s2 := r2.2
  let s3 : AudioPlayer :=
    if s2.m_talking = true then
      let s4 : AudioPlayer :=
        if s2.m_no_recording = false ∧ container_accepts = true then
          { s2 with m_new_audio_blocks := s2.m_new_audio_blocks + 1 }
        else s2
      { s4 with m_current_samples_played := s4.m_current_samples_played + input_samples }
    else { s2 with m_current_samples_played := 0 }
  (true, r2.1, s3)

/-- `AudioPlayer::StreamPlayerCbEnded`, lines 267-274. -/
def StreamPlayerCbEnded (s : AudioPlayer) : AudioPlayer :=
  { s with m_audiomuxer := s.m_audiomuxer ++
      [{ userid := s.m_userid, has_pcm := false,
         samples_played := s.m_samples_played, final := true }] }

/-- Packet 100 was pushed and played by a callback at time 1000: the player
is talking, its buffer is empty again, and `m_last_playback` is 1000. -/
def exTalking : AudioPlayer :=
  (StreamPlayerCb (runCalls exPlayer (exPushes [100])) 1000 1 true (fun _ => 0)).2.2

/-- A buffer whose sample at index `i` is `i + 1`. -/
def exRamp : PcmBuffer := fun i => (i : Int) + 1

/-! ## The video player (`WebMPlayer`) -/

/-- Conversion to `uint32_t`: the low 32 bits. -/
def toUInt32 (x : Int) : Nat := (x % 4294967296).toNat

/-- The constant `VPX_MAX_FRAG_PACKETS`, line 593. -/
def VPX_MAX_FRAG_PACKETS : Nat := 3000

/-- The constant `VPX_MAX_PACKETS`, line 594. -/
def VPX_MAX_PACKETS : Nat := 3000

/-- Modelled from the spec: an already parsed video packet (`VideoPacket`,
declared in `PacketLayout.h`; spec section 3): 32-bit packet number, stream
id, presentation time, optional fragment number and fragment count, encoded
bytes, and the width and height that the first packet of a stream carries. -/
structure VideoPacket where
  packet_no : Nat
  stream_id : Nat
  time : Nat
  /-- Fragment number; `none` stands for `INVALID_FRAGMENT_NO`. -/
  fragno : Option Nat
  frag_cnt : Nat
  /-- Encoded data; `none` stands for a null data pointer. -/
  data : Option (List Nat)
  width : Nat
  height : Nat
deriving DecidableEq, Repr

/-- Packet number accessor, a `uint32_t`. -/
def VideoPacket.GetPacketNo (p : VideoPacket) : Nat := p.packet_no % 4294967296

/-- Presentation time accessor, a `uint32_t`. -/
def VideoPacket.GetTime (p : VideoPacket) : Nat := p.time % 4294967296

/-- Stream id accessor; 0 when the packet has no stream field. -/
def VideoPacket.GetStreamID (p : VideoPacket) : Nat := p.stream_id

/-- Fragment number accessor. -/
def VideoPacket.GetFragmentNo (p : VideoPacket) : Option Nat := p.fragno

/-- Modelled from the spec: a slot of the video frame store (`enc_frame`,
declared in `StreamPlayers.h`): encoded bytes and packet number. -/
structure enc_frame where
  enc_data : List Nat
  packet_no : Nat
deriving DecidableEq, Repr

/-- The result of `m_decoder.PushDecoder`, as far as `GetNextFrame`
distinguishes it. -/
inductive DecoderResult where
  | VPX_CODEC_OK
  | VPX_CODEC_UNSUP_BITSTREAM
  | VPX_CODEC_OTHER_ERROR
deriving DecidableEq, Repr

/-- The members of `WebMPlayer` as the constructor initialises them (lines
596-606) and the member functions use them, and the width and height of the
decoder configuration. Modelled from the spec: the two containers are declared
in `StreamPlayers.h`; spec section 3 gives the frame store as a mapping from
presentation time to frame that is iterated in 32-bit wrap-aware order, and
the fragment store as a mapping from packet number to fragments. -/
structure WebMPlayer where
  m_userid : Int
  m_video_pkts_recv : Nat
  m_videoframes_recv : Nat
  m_videoframes_lost : Nat
  m_videoframes_dropped : Nat
  m_videostream_id : Nat
  m_packet_no : Nat
  m_local_timestamp : Nat
  m_decoder_ready : Bool
  m_video_frames : List (Nat × enc_frame)
  m_video_fragments : List (Nat × List (Nat × VideoPacket))
  decoder_w : Nat
  decoder_h : Nat
deriving DecidableEq, Repr

/-- The decoded frame that `GetNextFrame` returns, without its pixels. -/
structure VideoFrameOut where
  width : Nat
  height : Nat
  /-- Size of the RGB32 buffer, `RGB32_BYTES(w, h)`. -/
  frame_length : Nat
  stream_id : Nat
deriving DecidableEq, Repr

/-- Insertion of a key that is not present, at its place in the 32-bit
wrap-aware order of the comparator `W32_LT`. -/
def mapInsert32 {β : Type} (k : Nat) (v : β) : List (Nat × β) → List (Nat × β)
  | [] => [(k, v)]
  | (k1, v1) :: t =>
    if W32_LT k k1 then (k, v) :: (k1, v1) :: t else (k1, v1) :: mapInsert32 k v t

/-- The effect of `operator[]` on a map ordered by `W32_LT`. -/
def mapIndex32 {β : Type} (dflt : β) (k : Nat) (b : List (Nat × β)) : List (Nat × β) :=
  match mapFind k b with
  | some _ => b
  | none => mapInsert32 k dflt b

/-- Assignment through `operator[]` on a map ordered by `W32_LT`. -/
def mapUpdate32 {β : Type} (dflt : β) (k : Nat) (f : β → β) (b : List (Nat × β)) :
    List (Nat × β) :=
  mapModify k f (mapIndex32 dflt k b)

/-- Assignment `frags[fragno] = packet` on the inner map of one video packet,
which is ordered by fragment number. -/
def vfragSet (fragno : Nat) (pkt : VideoPacket) :
    List (Nat × VideoPacket) → List (Nat × VideoPacket)
  | [] => [(fragno, pkt)]
  | (n, q) :: t =>
    if n = fragno then (fragno, pkt) :: t
    else if fragno < n then (fragno, pkt) :: (n, q) :: t
    else (n, q) :: vfragSet fragno pkt t

/-- Modelled from the spec: `ReassembleVideoPackets` lives in `PacketHelper`,
outside `StreamPlayers.cpp`. Spec section 4.2, push step 3: when the stored
fragments together with the incoming one complete the set announced by the
fragment count, their bytes are concatenated in fragment-number order;
otherwise there is no frame. -/
def ReassembleVideoPackets (frags : List (Nat × VideoPacket)) (packet : VideoPacket) :
    Option (List Nat) :=
  match packet.fragno with
  | none => none
  | some fragno =>
    if packet.frag_cnt ≠ 0 ∧
        (vfragSet fragno packet frags).map Prod.fst = List.range packet.frag_cnt then
      some (((vfragSet fragno packet frags).map (fun e => e.2.data.getD [])).flatten)
    else none

/-- The constructor of `WebMPlayer`, lines 596-608; `now` is the value of
`GETTIMESTAMP()`. -/
def WebMPlayer.new (userid : Int) (stream_id now : Nat) : WebMPlayer :=
  { m_userid := userid, m_video_pkts_recv := 0, m_videoframes_recv := 0,
    m_videoframes_lost := 0, m_videoframes_dropped := 0, m_videostream_id := stream_id,
    m_packet_no := 0, m_local_timestamp := now, m_decoder_ready := false,
    m_video_frames := [], m_video_fragments := [], decoder_w := 0, decoder_h := 0 }

/-- The first loop of `WebMPlayer::RemoveObsoletePackets`, lines 841-851:
while the smallest fragment key is wrap-aware at or below `m_packet_no`, its
entry is erased and the distance is added to the lost counter. The number of
iterations is bounded by `fuel`. -/
def RemoveObsoletePackets_fragments : Nat → WebMPlayer → WebMPlayer
  | 0, s => s
  | fuel + 1, s =>
    match s.m_video_fragments with
    | [] => s
    | (packet_no, _) :: _ =>
      if W32_LEQ packet_no s.m_packet_no = true then
        RemoveObsoletePackets_fragments fuel
          { s with
              m_videoframes_lost :=
                s.m_videoframes_lost + toUInt32 ((s.m_packet_no : Int) - (packet_no : Int))
              m_video_fragments := mapErase packet_no s.m_video_fragments }
      else s

/-- The second loop of `WebMPlayer::RemoveObsoletePackets`, lines 853-858:
while the first frame has a packet number wrap-aware below `m_packet_no`, it
is erased. The number of iterations is bounded by `fuel`. -/
def RemoveObsoletePackets_frames : Nat → WebMPlayer → WebMPlayer
  | 0, s => s
  | fuel + 1, s =>
    match s.m_video_frames with
    | [] => s
    | (_, f) :: rest =>
      if W32_LT f.packet_no s.m_packet_no = true then
        RemoveObsoletePackets_frames fuel { s with m_video_frames := rest }
      else s

/-- `WebMPlayer::RemoveObsoletePackets`, lines 838-859. -/
def RemoveObsoletePackets (s : WebMPlayer) : WebMPlayer :=
  let s1 := RemoveObsoletePackets_fragments s.m_video_fragments.length s
  RemoveObsoletePackets_frames s1.m_video_frames.length s1

/-- The loop at lines 720-731 of `ProcessVideoPacket` over the frames before
the last one, in ascending order: while a frame is more than 5000 ms older
than the last frame, `m_packet_no` moves to its packet number; the loop stops
at the first frame that is not. The result is the new `m_packet_no`. -/
def ageEvict (last_time : Nat) : List (Nat × enc_frame) → Nat → Nat
  | [], packet_no => packet_no
  | (t, f) :: rest, packet_no =>
    if W32_LT ((t + 5000) % 4294967296) last_time = true then
      ageEvict last_time rest f.packet_no
    else packet_no

/-- Lines 661-705 of `ProcessVideoPacket`: the packet is stored as a frame or
as a fragment. The result is `none` when the function returns at line 668
(an unfragmented packet without data). -/
def ProcessVideoPacket_store (s : WebMPlayer) (packet : VideoPacket) : Option WebMPlayer :=
  let packet_no := packet.GetPacketNo
  match packet.GetFragmentNo with
  | none =>
    match packet.data with
    | none => none
    | some data =>
      some { s with
        m_video_frames := mapUpdate32 ⟨[], 0⟩ packet.GetTime
          (fun _ => { enc_data := data, packet_no := packet_no }) s.m_video_frames
        m_videoframes_recv := s.m_videoframes_recv + 1 }
  | some fragno =>
    let r : Bool × WebMPlayer :=
      match mapFind packet_no s.m_video_fragments with
      | some frags =>
        match ReassembleVideoPackets frags packet with
        | some data =>
          (false, { s with
            m_video_frames := mapUpdate32 ⟨[], 0⟩ packet.GetTime
              (fun _ => { enc_data := data, packet_no := packet_no }) s.m_video_frames
            m_videoframes_recv := s.m_videoframes_recv + 1
            m_video_fragments := mapErase packet_no s.m_video_fragments })
        | none => (true, s)
      | none => (true, s)
    let s1 : WebMPlayer :=
      if r.1 = true then
        { r.2 with m_video_fragments :=
            mapUpdate32 [] packet_no (vfragSet fragno packet) r.2.m_video_fragments }
      else r.2
    if s1.m_video_fragments.length > VPX_MAX_FRAG_PACKETS then
      some { s1 with m_video_fragments := s1.m_video_fragments.tail }
    else some s1

/-- Lines 713-732 of `ProcessVideoPacket`: the age rule, applied when more
than two frames are buffered. -/
def ProcessVideoPacket_age (s : WebMPlayer) : WebMPlayer :=
  if s.m_video_frames.length > 2 then
    { s with m_packet_no :=
        (ageEvict ((mapRBegin s.m_video_frames).getD 0) s.m_video_frames.dropLast
          s.m_packet_no) }
  else s

/-- `WebMPlayer::ProcessVideoPacket`, lines 649-735. -/
def ProcessVideoPacket (s : WebMPlayer) (packet : VideoPacket) : WebMPlayer :=
  if W32_LT packet.GetPacketNo s.m_packet_no = true then s
  else
    match ProcessVideoPacket_store s packet with
    | none => s
    | some s1 =>
      let s2 : WebMPlayer :=
        if s1.m_video_frames.length > VPX_MAX_PACKETS then
          { s1 with m_video_frames := s1.m_video_frames.tail }
        else s1
      RemoveObsoletePackets (ProcessVideoPacket_age s2)

/-- Lines 640-646 of `WebMPlayer::AddPacket`: the packet is processed and the
returned flag tells whether the frame store holds a frame at the time of the
packet. -/
def WebMPlayer.AddPacket_process (s : WebMPlayer) (packet : VideoPacket) :
    Bool × WebMPlayer :=
  let s1 := ProcessVideoPacket s packet
  ((mapFind packet.GetTime s1.m_video_frames).isSome, s1)

/-- `WebMPlayer::AddPacket`, lines 617-647: the returned flag and the state
after the call. `now` is the value of `GETTIMESTAMP()` and `open_ok` the result
of `m_decoder.Open`, should it be called. `GetStreamID` with out-parameters
returns 0 and writes nothing for a packet without the stream field, and
otherwise writes the packet number to `m_packet_no` and the frame size to `w`
and `h`. The `assert` at line 625 is compiled out. -/
def WebMPlayer.AddPacket (s : WebMPlayer) (packet : VideoPacket) (now : Nat) (open_ok : Bool) :
    Bool × WebMPlayer :=
  let s0 := { s with m_local_timestamp := now, m_video_pkts_recv := s.m_video_pkts_recv + 1 }
  if s0.m_decoder_ready = false then
    if packet.GetStreamID = 0 then (false, s0)
    else
      let s1 := { s0 with m_packet_no := packet.GetPacketNo }
      if open_ok = false then (false, s1)
      else
        WebMPlayer.AddPacket_process
          { s1 with m_decoder_ready := true, decoder_w := packet.width,
                    decoder_h := packet.height } packet
  else WebMPlayer.AddPacket_process s0 packet

/-- `WebMPlayer::GetNextFrame`, lines 737-794: the returned frame (`none` for
a null pointer) and the state after the call. `timestamp` is the optional
horizon and `ret` the result of `m_decoder.PushDecoder`, should it be
called. -/
def GetNextFrame (s : WebMPlayer) (timestamp : Option Nat) (ret : DecoderResult) :
    Option VideoFrameOut × WebMPlayer :=
  match s.m_video_frames with
  | [] => (none, s)
  | (t, f) :: rest =>
    if (!s.m_decoder_ready ||
        (match timestamp with
          | some ts => W32_GT t ts
          | none => false)) = true then (none, s)
    else
      match ret with
      | DecoderResult.VPX_CODEC_OK =>
        let s1 := RemoveObsoletePackets
          { s with m_packet_no := f.packet_no, m_video_frames := rest }
        (some { width := s1.decoder_w, height := s1.decoder_h,
                frame_length := s1.decoder_w * s1.decoder_h * 4,
                stream_id := s1.m_videostream_id }, s1)
      | _ => (none, { s with m_packet_no := f.packet_no, m_video_frames := rest })

/-- The calls a client makes on a video player. -/
inductive VideoCall where
  | addPacket (p : VideoPacket) (now : Nat) (open_ok : Bool)
  | getNextFrame (timestamp : Option Nat) (ret : DecoderResult)
deriving DecidableEq, Repr

/-- The state after one call. -/
def VideoCall.apply (s : WebMPlayer) : VideoCall → WebMPlayer
  | VideoCall.addPacket p now open_ok => (WebMPlayer.AddPacket s p now open_ok).2
  | VideoCall.getNextFrame timestamp ret => (GetNextFrame s timestamp ret).2

/-- The state after a sequence of calls. -/
def runVideoCalls (s : WebMPlayer) (calls : List VideoCall) : WebMPlayer :=
  calls.foldl VideoCall.apply s

/-- States reachable from a new `WebMPlayer` by `AddPacket` and
`GetNextFrame` calls. -/
def VideoReachable (s : WebMPlayer) : Prop :=
  ∃ (userid : Int) (stream_id now : Nat) (calls : List VideoCall),
    s = runVideoCalls (WebMPlayer.new userid stream_id now) calls

/-- True when the pushed packet itself results in a completed frame that
`ProcessVideoPacket` enqueues: it is not rejected as late and it is either an
unfragmented packet with data or the fragment that completes the stored
fragments of its packet. -/
def ProcessVideoPacket_completes (s : WebMPlayer) (packet : VideoPacket) : Bool :=
  if W32_LT packet.GetPacketNo s.m_packet_no = true then false
  else
    match packet.GetFragmentNo with
    | none => packet.data.isSome
    | some _ =>
      match mapFind packet.GetPacketNo s.m_video_fragments with
      | some frags => (ReassembleVideoPackets frags packet).isSome
      | none => false

/-- Both stores of the video player respect their caps. -/
def VideoCaps (s : WebMPlayer) : Prop :=
  s.m_video_fragments.length ≤ VPX_MAX_FRAG_PACKETS ∧
  s.m_video_frames.length ≤ VPX_MAX_PACKETS

/-- An unfragmented video packet of stream 3 with a two-byte payload. -/
def exVideoPacket (no time : Nat) : VideoPacket :=
  { packet_no := no, stream_id := 3, time := time, fragno := none, frag_cnt := 0,
    data := some [no, no], width := 320, height := 240 }

/-- Fragment `fragno` of `cnt` of video packet `no` of stream 3. -/
def exVideoFragment (no time fragno cnt : Nat) : VideoPacket :=
  { packet_no := no, stream_id := 3, time := time, fragno := some fragno, frag_cnt := cnt,
    data := some [fragno], width := 320, height := 240 }

/-- The unfragmented video packet 11, presented at time 460, and then both
fragments of video packet 12, presented at time 500, have been pushed into a
new player: the decoder is open, the cursor `m_packet_no` is 11 and both
frames are enqueued. -/
def exVideoDone : WebMPlayer :=
  runVideoCalls (WebMPlayer.new 1 3 0)
    [VideoCall.addPacket (exVideoPacket 11 460) 5 true,
     VideoCall.addPacket (exVideoFragment 12 500 0 2) 10 true,
     VideoCall.addPacket (exVideoFragment 12 500 1 2) 20 true]

/-- Unfragmented packets 12 and 13 have been pushed and packet 12 has been
pulled, so the cursor `m_packet_no` is 12 and the frame of packet 13, at time
540, is buffered. -/
def exVideoPulled : WebMPlayer :=
  runVideoCalls (WebMPlayer.new 1 3 0)
    [VideoCall.addPacket (exVideoPacket 12 500) 10 true,
     VideoCall.addPacket (exVideoPacket 13 540) 20 true,
     VideoCall.getNextFrame none DecoderResult.VPX_CODEC_OK]

/-- Packet `no` of stream 7 with the payload of `exPacket` and its frame size
supplied. -/
def exPacketSized (no : Nat) : AudioPacket :=
  { exPacket no 7 with frame_sizes := some [3] }

/-- Packets 1, 2, 3 are buffered under the default budget. -/
def exThree : AudioPlayer := runCalls exPlayer (exPushes [1, 2, 3])

/-- The fragment store after lines 102-110 of `QueuePacket`, before the
incoming fragment is stored: `CleanUpAudioFragments` runs when the threshold
`old_packet_no` is not 0. -/
def QueuePacket_cleaned (s : AudioPlayer) (f : AudioPacket) : FragmentStore :=
  if QueuePacket_old_packet_no s f ≠ 0 then
    (CleanUpAudioFragments s (QueuePacket_old_packet_no s f)).m_audfragments
  else s.m_audfragments

/-- Fragment 0 of 2 of packet 0 is pending reassembly in a new player. -/
def exZeroPending : AudioPlayer :=
  runCalls exPlayer [Call.queuePacket (exFragment 0 0 2)]

/-- Packet 100 of stream 7 with the payload of `exPacket` and a supplied frame
size that does not sum to the payload length. -/
def exMismatch : AudioPacket :=
  { exPacket 100 7 with frame_sizes := some [2] }

/-- Packets 0 and 32767 of one stream are buffered: the highest key is 32767
sequence steps ahead of the cursor. -/
def exEdge : AudioPlayer := runCalls exPlayer (exPushes [0, 32767])

/-- The keys of the fragment sets that the first loop of
`WebMPlayer::RemoveObsoletePackets` (lines 841-851) erases, in the order of
their eviction; the recursion is the one of `RemoveObsoletePackets_fragments`. -/
def RemoveObsoletePackets_evicted : Nat → WebMPlayer → List Nat
  | 0, _ => []
  | fuel + 1, s =>
    match s.m_video_fragments with
    | [] => []
    | (packet_no, _) :: _ =>
      if W32_LEQ packet_no s.m_packet_no = true then
        packet_no :: RemoveObsoletePackets_evicted fuel
          { s with
              m_videoframes_lost :=
                s.m_videoframes_lost + toUInt32 ((s.m_packet_no : Int) - (packet_no : Int))
              m_video_fragments := mapErase packet_no s.m_video_fragments }
      else []

/-- Unfragmented packet 3, presented at time 600, and then packet 5, presented
at time 500, have been pushed into a new player: the frame of packet 5 is the
first of the frame store and the cursor `m_packet_no` is 3. -/
def exVideoSwapped : WebMPlayer :=
  runVideoCalls (WebMPlayer.new 1 3 0)
    [VideoCall.addPacket (exVideoPacket 3 600) 10 true,
     VideoCall.addPacket (exVideoPacket 5 500) 20 true]

/-- Unfragmented packets 3, 5 and 9, presented at times 600, 500 and 550, have
been pushed and the first frame (packet 5) has been pulled: the cursor is 5,
and the frames of packets 9 and 3 are buffered in this order. -/
def exVideoBehind : WebMPlayer :=
  runVideoCalls (WebMPlayer.new 1 3 0)
    [VideoCall.addPacket (exVideoPacket 3 600) 10 true,
     VideoCall.addPacket (exVideoPacket 5 500) 20 true,
     VideoCall.addPacket (exVideoPacket 9 550) 30 true,
     VideoCall.getNextFrame none DecoderResult.VPX_CODEC_OK]

/-- Packet 11, fragment 0 of 2 of packet 12 and packet 13 have been pushed;
packet 11 has been pulled, and the pull of packet 13 met a decoder error, which
moves the cursor to 13 and erases the frame without the remove-obsolete pass:
the fragment set of packet 12 is still pending. -/
def exVideoStale : WebMPlayer :=
  runVideoCalls (WebMPlayer.new 1 3 0)
    [VideoCall.addPacket (exVideoPacket 11 460) 10 true,
     VideoCall.addPacket (exVideoFragment 12 500 0 2) 20 true,
     VideoCall.addPacket (exVideoPacket 13 540) 30 true,
     VideoCall.getNextFrame none DecoderResult.VPX_CODEC_OK,
     VideoCall.getNextFrame none DecoderResult.VPX_CODEC_OTHER_ERROR]

/-- The first three pushes of scenario E6: unfragmented packets `n`, `n + 1`,
`n + 2` at the presentation times `t`, `t + 1000`, `t + 6000`. -/
def e6Pushes (n t : Nat) : List VideoCall :=
  [VideoCall.addPacket (exVideoPacket n t) 10 true,
   VideoCall.addPacket (exVideoPacket (n + 1) (t + 1000)) 20 true,
   VideoCall.addPacket (exVideoPacket (n + 2) (t + 6000)) 30 true]

/-- The state after the first three pushes of scenario E6 into a new
player. -/
def exE6 (n t : Nat) : WebMPlayer := runVideoCalls (WebMPlayer.new 1 3 0) (e6Pushes n t)

/-- The frame that the unfragmented packet `exVideoPacket no time` leaves in
the frame store, with its key. -/
def e6Frame (no time : Nat) : Nat × enc_frame :=
  (time % 4294967296, { enc_data := [no, no], packet_no := no % 4294967296 })

/-- The player of scenario E6 after `recv` pushes, the last at the local time
`now`, with the cursor `cursor` and the buffered frames `frames`. -/
def e6State (recv now cursor : Nat) (frames : List (Nat × enc_frame)) : WebMPlayer :=
  { m_userid := 1, m_video_pkts_recv := recv, m_videoframes_recv := recv,
    m_videoframes_lost := 0, m_videoframes_dropped := 0, m_videostream_id := 3,
    m_packet_no := cursor, m_local_timestamp := now, m_decoder_ready := true,
    m_video_frames := frames, m_video_fragments := [], decoder_w := 320, decoder_h := 240 }

/-- The content of `output_buffer` in `AudioPlayer::PlayBuffer` before the
stereo simulation (lines 406-466). `buf` is the buffer as the caller passed
it, `decoded` the content that `DecodeFrame` (line 442, the decoder is outside
the file) leaves in it, and `cb_bytes` the value of `GetAudioCodecCbBytes`; a
sample is two bytes, so the `memset` of line 464 zeroes the first
`cb_bytes / 2` samples when the jitter buffer is empty. -/
def PlayBuffer_fill (s : AudioPlayer) (cb_bytes : Nat) (decoded buf : PcmBuffer) : PcmBuffer :=
  if s.m_buffer.length ≠ 0 then decoded
  else fun i => if i < cb_bytes / 2 then 0 else buf i

/-- The content of `output_buffer` when `AudioPlayer::PlayBuffer` returns
(lines 402-487): the buffer that the decoder or the `memset` filled, after the
stereo simulation of lines 474-484 over `n_samples` samples. -/
def PlayBuffer_pcm (s : AudioPlayer) (n_samples cb_bytes : Nat) (decoded buf : PcmBuffer) :
    PcmBuffer :=
  PlayBuffer_simulate_stereo s.m_codec n_samples (PlayBuffer_fill s cb_bytes decoded buf)

/-- Packet 100 is buffered in a player whose stereo mask is `STEREO_LEFT` (the
setter of `m_stereo` is inline in the header). -/
def exLeftMasked : AudioPlayer :=
  { exSingle with m_stereo := StereoMask.STEREO_LEFT }

/-- A mono codec with a callback of three samples that asks for simulated
stereo. -/
def exCodecSim : AudioCodec :=
  { cb_msec := 20, frames_per_packet := 1, enc_frame_size := 0, cb_samples := 3,
    simulate_stereo := true }

/-- Packet 100 is buffered in a new voice player for `exCodecSim`. -/
def exPlayerSim : AudioPlayer :=
  runCalls (AudioPlayer.new 0 1 StreamType.STREAMTYPE_VOICE exCodecSim 500) (exPushes [100])

/-! ## Arithmetic of the wrap-aware order -/

set_option maxRecDepth 100000

theorem toInt16_sub (p k : Nat) (hp : p < 65536) (hk : k < 65536) :
    toInt16 ((k : Int) - (p : Int)) =
      if seqOff p k < 32768 then (seqOff p k : Int) else (seqOff p k : Int) - 65536 := by
  unfold toInt16 seqOff
  split_ifs <;> omega

theorem W16_LT_iff (p k k1 : Nat) (hk : k < 65536) (hk1 : k1 < 65536)
    (ho : seqOff p k < 32768) (ho1 : seqOff p k1 < 32768) :
    W16_LT k k1 = true ↔ seqOff p k < seqOff p k1 := by
  unfold W16_LT toInt16
  rw [decide_eq_true_iff]
  unfold seqOff at *
  split_ifs <;> omega

theorem seqOff_inj (p k k1 : Nat) (hk : k < 65536) (hk1 : k1 < 65536)
    (h : seqOff p k = seqOff p k1) : k = k1 := by
  unfold seqOff at h
  omega

theorem seqOff_rebase (p q k : Nat) (hq : q < 65536) (hk : k < 65536)
    (h : seqOff p q ≤ seqOff p k) : seqOff q k = seqOff p k - seqOff p q := by
  unfold seqOff at *
  omega

theorem mapKeys_cons {β : Type} (e : Nat × β) (b : List (Nat × β)) :
    mapKeys (e :: b) = e.1 :: mapKeys b := rfl

theorem mapKeys_mapModify {β : Type} (k : Nat) (f : β → β) (b : List (Nat × β)) :
    mapKeys (mapModify k f b) = mapKeys b := by
  induction b with
  | nil => rfl
  | cons e t ih =>
    simp only [mapModify, mapKeys, List.map_cons, List.map_map] at *
    rw [ih]
    congr 1
    split_ifs <;> rfl

theorem mapFind_none_iff {β : Type} (k : Nat) (b : List (Nat × β)) :
    mapFind k b = none ↔ k ∉ mapKeys b := by
  induction b with
  | nil => simp [mapFind, mapKeys]
  | cons e t ih =>
    obtain ⟨k1, v⟩ := e
    simp only [mapFind, mapKeys_cons, List.mem_cons, not_or]
    split_ifs with h
    · simp [h]
    · rw [ih]; constructor
      · intro h1; exact ⟨fun h2 => h h2.symm, h1⟩
      · intro h1; exact h1.2

theorem mapKeys_mapInsert {β : Type} (k : Nat) (v : β) (b : List (Nat × β)) :
    ∀ x, x ∈ mapKeys (mapInsert k v b) ↔ x = k ∨ x ∈ mapKeys b := by
  induction b with
  | nil => intro x; simp [mapInsert, mapKeys]
  | cons e t ih =>
    intro x
    obtain ⟨k1, v1⟩ := e
    simp only [mapInsert]
    split_ifs with h
    · simp [mapKeys]
    · simp only [mapKeys_cons, List.mem_cons, ih x]
      tauto

theorem KeysOK_mapInsert {β : Type} (p k : Nat) (v : β) (b : List (Nat × β))
    (hb : KeysOK p b) (hk : k < 65536) (ho : seqOff p k < 32768) (hn : k ∉ mapKeys b) :
    KeysOK p (mapInsert k v b) := by
  refine ⟨?_, ?_⟩
  · intro x hx
    rcases (mapKeys_mapInsert k v b x).1 hx with rfl | hx
    · exact ⟨hk, ho⟩
    · exact hb.1 x hx
  · induction b with
    | nil => simp [mapInsert, mapKeys]
    | cons e t ih =>
      obtain ⟨k1, v1⟩ := e
      have hk1 := hb.1 k1 (by simp [mapKeys])
      have hbt : KeysOK p t := by
        refine ⟨fun x hx => hb.1 x (by simp [mapKeys_cons, hx]), ?_⟩
        have := hb.2
        rw [mapKeys_cons, List.pairwise_cons] at this
        exact this.2
      have hp := hb.2
      rw [mapKeys_cons, List.pairwise_cons] at hp
      have hne : k ≠ k1 := by
        intro h; apply hn; simp [mapKeys_cons, h]
      have hnt : k ∉ mapKeys t := by
        intro h; apply hn; simp [mapKeys_cons, h]
      simp only [mapInsert]
      split_ifs with h
      · rw [mapKeys_cons, List.pairwise_cons]
        refine ⟨?_, hb.2⟩
        have hlt := (W16_LT_iff p k k1 hk hk1.1 ho hk1.2).1 h
        intro x hx
        rw [mapKeys_cons, List.mem_cons] at hx
        rcases hx with rfl | hx
        · exact hlt
        · exact lt_trans hlt (hp.1 x hx)
      · rw [mapKeys_cons, List.pairwise_cons]
        refine ⟨?_, ih hbt hnt⟩
        intro x hx
        rcases (mapKeys_mapInsert k v t x).1 hx with rfl | hx
        · have hge : ¬ seqOff p x < seqOff p k1 := fun hh =>
            h ((W16_LT_iff p x k1 hk hk1.1 ho hk1.2).2 hh)
          have : seqOff p x ≠ seqOff p k1 := fun hh => hne (seqOff_inj p x k1 hk hk1.1 hh)
          show seqOff p k1 < seqOff p x
          omega
        · exact hp.1 x hx


theorem mapKeys_mapErase {β : Type} (k : Nat) (b : List (Nat × β)) :
    mapKeys (mapErase k b) = (mapKeys b).filter (fun x => decide (x ≠ k)) := by
  induction b with
  | nil => rfl
  | cons e t ih =>
    simp only [mapErase, mapKeys, List.filter_cons, List.map_cons] at *
    split_ifs <;> simp_all

theorem KeysOK_of_sublist {β γ : Type} (p : Nat) (b : List (Nat × β)) (b1 : List (Nat × γ))
    (hb : KeysOK p b) (hs : (mapKeys b1).Sublist (mapKeys b)) : KeysOK p b1 :=
  ⟨fun k hk => hb.1 k (hs.subset hk), hb.2.sublist hs⟩

theorem KeysOK_mapErase {β : Type} (p k : Nat) (b : List (Nat × β)) (hb : KeysOK p b) :
    KeysOK p (mapErase k b) :=
  KeysOK_of_sublist p b _ hb (by rw [mapKeys_mapErase]; exact List.filter_sublist _)

theorem KeysOK_tail {β : Type} (p : Nat) (b : List (Nat × β)) (hb : KeysOK p b) :
    KeysOK p b.tail :=
  KeysOK_of_sublist p b _ hb (by
    cases b with
    | nil => exact List.Sublist.refl _
    | cons e t => exact List.sublist_cons_self _ _)

theorem KeysOK_mapModify {β : Type} (p k : Nat) (f : β → β) (b : List (Nat × β))
    (hb : KeysOK p b) : KeysOK p (mapModify k f b) :=
  KeysOK_of_sublist p b _ hb (by rw [mapKeys_mapModify])

theorem KeysOK_nil {β : Type} (p : Nat) : KeysOK p ([] : List (Nat × β)) :=
  ⟨fun k hk => by simp [mapKeys] at hk, by simp [mapKeys]⟩

theorem mapErase_of_not_mem {β : Type} (k : Nat) (b : List (Nat × β))
    (hn : k ∉ mapKeys b) : mapErase k b = b := by
  unfold mapErase
  rw [List.filter_eq_self]
  intro a ha
  have hak : a.1 ∈ mapKeys b := List.mem_map_of_mem Prod.fst ha
  simp only [decide_eq_true_eq]
  intro h; exact hn (h ▸ hak)

theorem mapErase_mapInsert {β : Type} (k : Nat) (v : β) (b : List (Nat × β))
    (hn : k ∉ mapKeys b) : mapErase k (mapInsert k v b) = b := by
  induction b with
  | nil => simp [mapInsert, mapErase]
  | cons e t ih =>
    obtain ⟨k1, v1⟩ := e
    have hne : k1 ≠ k := by
      intro h; apply hn; simp [mapKeys_cons, h]
    have hnt : k ∉ mapKeys t := by
      intro h; apply hn; simp [mapKeys_cons, h]
    have hte : mapErase k t = t := mapErase_of_not_mem k t hnt
    simp only [mapInsert]
    split_ifs with h
    · show List.filter _ _ = _
      simp only [List.filter_cons, ne_eq, not_true_eq_false, decide_False, hne,
        not_false_eq_true, decide_True, if_true, if_false, Bool.false_eq_true]
      congr 1
    · show List.filter _ _ = _
      simp only [List.filter_cons, ne_eq, hne, not_false_eq_true, decide_True, if_true]
      congr 1
      exact ih hnt

theorem mapErase_mapModify {β : Type} (k : Nat) (f : β → β) (b : List (Nat × β)) :
    mapErase k (mapModify k f b) = mapErase k b := by
  induction b with
  | nil => rfl
  | cons e t ih =>
    unfold mapErase mapModify at *
    simp only [List.map_cons, List.filter_cons, ne_eq, decide_not] at ih ⊢
    by_cases h : e.1 = k
    · simp [h, ih]
    · simp [h, ih]

theorem mapErase_mapIndex {β : Type} (d : β) (k : Nat) (b : List (Nat × β)) :
    mapErase k (mapIndex d k b) = mapErase k b := by
  unfold mapIndex
  cases h : mapFind k b with
  | some v => rfl
  | none =>
    have hn := (mapFind_none_iff k b).1 h
    simp only
    rw [mapErase_mapInsert k d b hn, mapErase_of_not_mem k b hn]

theorem mapErase_mapUpdate {β : Type} (d : β) (k : Nat) (f : β → β) (b : List (Nat × β)) :
    mapErase k (mapUpdate d k f b) = mapErase k b := by
  unfold mapUpdate
  rw [mapErase_mapModify, mapErase_mapIndex]

theorem mem_mapInsert {β : Type} (k : Nat) (v : β) (b : List (Nat × β)) (e : Nat × β) :
    e ∈ mapInsert k v b ↔ e = (k, v) ∨ e ∈ b := by
  induction b with
  | nil => simp [mapInsert]
  | cons e1 t ih =>
    obtain ⟨k1, v1⟩ := e1
    simp only [mapInsert]
    split_ifs with h
    · simp
    · simp only [List.mem_cons, ih]
      tauto

theorem mem_mapIndex {β : Type} (d : β) (k : Nat) (b : List (Nat × β)) (e : Nat × β)
    (he : e ∈ mapIndex d k b) : e = (k, d) ∨ e ∈ b := by
  unfold mapIndex at he
  cases h : mapFind k b with
  | some v => rw [h] at he; exact Or.inr he
  | none => rw [h] at he; exact (mem_mapInsert k d b e).1 he

theorem mem_mapModify {β : Type} (k : Nat) (f : β → β) (b : List (Nat × β)) (e : Nat × β)
    (he : e ∈ mapModify k f b) :
    (∃ v, (k, v) ∈ b ∧ e = (k, f v)) ∨ (e ∈ b ∧ e.1 ≠ k) := by
  unfold mapModify at he
  rw [List.mem_map] at he
  obtain ⟨a, ha, rfl⟩ := he
  by_cases h : a.1 = k
  · left
    refine ⟨a.2, ?_, ?_⟩
    · rw [← h]; exact ha
    · simp [h]
  · right
    simp [h, ha]

theorem mem_mapUpdate {β : Type} (d : β) (k : Nat) (f : β → β) (b : List (Nat × β))
    (e : Nat × β) (he : e ∈ mapUpdate d k f b) :
    (∃ v, e = (k, f v)) ∨ (e ∈ b ∧ e.1 ≠ k) := by
  rcases mem_mapModify k f _ e he with ⟨v, _, hv⟩ | ⟨h1, h2⟩
  · exact Or.inl ⟨v, hv⟩
  · rcases mem_mapIndex d k b e h1 with h | h
    · exact absurd (by rw [h]) h2
    · exact Or.inr ⟨h, h2⟩

theorem mapFind_mapModify {β : Type} (k : Nat) (f : β → β) (b : List (Nat × β)) :
    mapFind k (mapModify k f b) = (mapFind k b).map f := by
  induction b with
  | nil => rfl
  | cons e t ih =>
    obtain ⟨k1, v1⟩ := e
    show mapFind k ((if k1 = k then (k1, f v1) else (k1, v1)) :: mapModify k f t) = _
    by_cases h : k1 = k
    · rw [if_pos h]; simp [h, mapFind]
    · rw [if_neg h]; simp [h, mapFind, ih]

theorem mapFind_mapInsert_self {β : Type} (k : Nat) (v : β) (b : List (Nat × β))
    (hn : k ∉ mapKeys b) : mapFind k (mapInsert k v b) = some v := by
  induction b with
  | nil => simp [mapInsert, mapFind]
  | cons e t ih =>
    obtain ⟨k1, v1⟩ := e
    have hne : k1 ≠ k := by
      intro h; apply hn; simp [mapKeys_cons, h]
    have hnt : k ∉ mapKeys t := by
      intro h; apply hn; simp [mapKeys_cons, h]
    simp only [mapInsert]
    split_ifs with h
    · simp [mapFind]
    · simp [mapFind, hne, ih hnt]

theorem mapFind_mapIndex {β : Type} (d : β) (k : Nat) (b : List (Nat × β)) :
    mapFind k (mapIndex d k b) = some ((mapFind k b).getD d) := by
  unfold mapIndex
  cases h : mapFind k b with
  | some v => simp [h]
  | none =>
    simp only [Option.getD_none]
    exact mapFind_mapInsert_self k d b ((mapFind_none_iff k b).1 h)

theorem mapFind_mapUpdate {β : Type} (d : β) (k : Nat) (f : β → β) (b : List (Nat × β)) :
    mapFind k (mapUpdate d k f b) = some (f ((mapFind k b).getD d)) := by
  unfold mapUpdate
  rw [mapFind_mapModify, mapFind_mapIndex]
  rfl

theorem mapModify_mapModify {β : Type} (k : Nat) (f g : β → β) (b : List (Nat × β)) :
    mapModify k g (mapModify k f b) = mapModify k (g ∘ f) b := by
  unfold mapModify
  rw [List.map_map]
  apply List.map_congr_left
  intro a _
  by_cases h : a.1 = k <;> simp [h]

theorem mapUpdate_mapUpdate {β : Type} (d : β) (k : Nat) (f g : β → β) (b : List (Nat × β)) :
    mapUpdate d k g (mapUpdate d k f b) = mapUpdate d k (g ∘ f) b := by
  have h : mapIndex d k (mapUpdate d k f b) = mapUpdate d k f b := by
    unfold mapIndex
    rw [mapFind_mapUpdate]
  show mapModify k g (mapIndex d k (mapUpdate d k f b)) = _
  rw [h]
  unfold mapUpdate
  rw [mapModify_mapModify]

theorem mapUpdate_nil {β : Type} (d : β) (k : Nat) (f : β → β) :
    mapUpdate d k f ([] : List (Nat × β)) = [(k, f d)] := by
  simp [mapUpdate, mapIndex, mapFind, mapInsert, mapModify]

theorem KeysOK_mapIndex {β : Type} (p k : Nat) (d : β) (b : List (Nat × β))
    (hb : KeysOK p b) (hk : k < 65536) (ho : seqOff p k < 32768) :
    KeysOK p (mapIndex d k b) := by
  unfold mapIndex
  cases h : mapFind k b with
  | some v => exact hb
  | none => exact KeysOK_mapInsert p k d b hb hk ho ((mapFind_none_iff k b).1 h)

theorem KeysOK_mapUpdate {β : Type} (p k : Nat) (d : β) (f : β → β) (b : List (Nat × β))
    (hb : KeysOK p b) (hk : k < 65536) (ho : seqOff p k < 32768) :
    KeysOK p (mapUpdate d k f b) :=
  KeysOK_mapModify p k f _ (KeysOK_mapIndex p k d b hb hk ho)

theorem KeysOK_rebase {β : Type} (p q : Nat) (b : List (Nat × β)) (hb : KeysOK p b)
    (hq : q < 65536) (h : ∀ k ∈ mapKeys b, seqOff p q ≤ seqOff p k) : KeysOK q b := by
  refine ⟨?_, ?_⟩
  · intro k hk
    have h1 := hb.1 k hk
    have h2 := seqOff_rebase p q k hq h1.1 (h k hk)
    exact ⟨h1.1, by omega⟩
  · refine hb.2.imp_of_mem ?_
    intro k1 k2 hk1 hk2 hlt
    have h1 := seqOff_rebase p q k1 hq (hb.1 k1 hk1).1 (h k1 hk1)
    have h2 := seqOff_rebase p q k2 hq (hb.1 k2 hk2).1 (h k2 hk2)
    have := h k1 hk1
    omega

theorem KeysOK_head_le {β : Type} (p : Nat) (e : Nat × β) (t : List (Nat × β))
    (hb : KeysOK p (e :: t)) : ∀ k ∈ mapKeys (e :: t), seqOff p e.1 ≤ seqOff p k := by
  intro k hk
  have h2 := hb.2
  rw [mapKeys_cons, List.pairwise_cons] at h2
  rw [mapKeys_cons, List.mem_cons] at hk
  rcases hk with rfl | hk
  · exact le_refl _
  · exact le_of_lt (h2.1 k hk)

theorem KeysOK_last_ge {β : Type} (p : Nat) (b : List (Nat × β)) (hb : KeysOK p b)
    (l : Nat) (hl : mapRBegin b = some l) : ∀ k ∈ mapKeys b, seqOff p k ≤ seqOff p l := by
  induction b with
  | nil => intro k hk; simp [mapKeys] at hk
  | cons e t ih =>
    intro k hk
    have h2 := hb.2
    rw [mapKeys_cons, List.pairwise_cons] at h2
    cases t with
    | nil =>
      simp [mapRBegin] at hl
      simp [mapKeys] at hk
      subst hl; subst hk; exact le_refl _
    | cons e2 t2 =>
      have hl2 : mapRBegin (e2 :: t2) = some l := by
        simpa [mapRBegin, List.getLast?_cons_cons] using hl
      have hbt : KeysOK p (e2 :: t2) := KeysOK_tail p (e :: e2 :: t2) hb
      have hlm : l ∈ mapKeys (e2 :: t2) := by
        unfold mapRBegin at hl2
        rw [Option.map_eq_some'] at hl2
        obtain ⟨a, ha, rfl⟩ := hl2
        exact List.mem_map_of_mem Prod.fst (List.mem_of_getLast?_eq_some ha)
      rw [mapKeys_cons, List.mem_cons] at hk
      rcases hk with rfl | hk
      · exact le_of_lt (h2.1 l hlm)
      · exact ih hbt hl2 k hk

theorem mapFind_some_mem {β : Type} (k : Nat) (v : β) (b : List (Nat × β))
    (h : mapFind k b = some v) : (k, v) ∈ b := by
  induction b with
  | nil => simp [mapFind] at h
  | cons e t ih =>
    obtain ⟨k1, v1⟩ := e
    simp only [mapFind] at h
    split_ifs at h with hk
    · simp only [Option.some.injEq] at h
      subst h; subst hk
      exact List.mem_cons_self _ _
    · exact List.mem_cons_of_mem _ (ih h)

theorem AddPacket_store_eq (c : AudioCodec) (p : AudioPacket) (enc : List Nat)
    (b : JitterBuffer) :
    AddPacket_store c p enc b =
      if sizesOK p enc = true then
        (true, mapUpdate encframe.empty p.GetPacketNumber (storedSlot c p enc) b)
      else (false, mapErase p.GetPacketNumber b) := by
  unfold AddPacket_store sizesOK
  cases hfs : p.frame_sizes with
  | some sizes =>
    simp only
    by_cases h : SumFrameSizes sizes = enc.length
    · simp only [h, if_true, decide_True, mapUpdate_mapUpdate]
      congr 2
      funext f
      simp [storedSlot, hfs]
    · simp only [h, if_false, decide_False, Bool.false_eq_true, mapErase_mapUpdate]
  | none =>
    simp only
    by_cases h : c.frames_per_packet > 1
    · simp only [h, if_true, mapUpdate_mapUpdate]
      congr 2
      funext f
      simp [storedSlot, hfs, h]
    · simp only [h, if_false, if_true, mapUpdate_mapUpdate]
      congr 2
      funext f
      simp [storedSlot, hfs, h]

theorem eraseBegin_eq (s : AudioPlayer) :
    eraseBegin s =
      { s with m_buffer := s.m_buffer.tail,
               m_play_pkt_no := (mapBegin s.m_buffer.tail).getD s.m_play_pkt_no } := by
  unfold eraseBegin
  cases h : s.m_buffer.tail with
  | nil => simp [mapBegin]
  | cons e t => simp [mapBegin]

theorem AddPacket_evict_frame (n : Nat) (s : AudioPlayer) :
    ∃ b p, AddPacket_evict n s = { s with m_buffer := b, m_play_pkt_no := p } := by
  induction n generalizing s with
  | zero => exact ⟨s.m_buffer, s.m_play_pkt_no, rfl⟩
  | succ n ih =>
    simp only [AddPacket_evict]
    split_ifs with h
    · obtain ⟨b, p, hbp⟩ := ih (eraseBegin s)
      rw [hbp, eraseBegin_eq]
      exact ⟨b, p, rfl⟩
    · exact ⟨s.m_buffer, s.m_play_pkt_no, rfl⟩

theorem PlayBuffer_catchup_frame (m : Int) (n : Nat) (s : AudioPlayer) :
    ∃ b p, PlayBuffer_catchup m n s = { s with m_buffer := b, m_play_pkt_no := p } := by
  induction n generalizing s with
  | zero => exact ⟨s.m_buffer, s.m_play_pkt_no, rfl⟩
  | succ n ih =>
    simp only [PlayBuffer_catchup]
    split_ifs with h
    · obtain ⟨b, p, hbp⟩ := ih (eraseBegin s)
      rw [hbp, eraseBegin_eq]
      exact ⟨b, p, rfl⟩
    · exact ⟨s.m_buffer, s.m_play_pkt_no, rfl⟩

theorem SlotsOK_of_subset (b b1 : JitterBuffer) (hb : SlotsOK b) (hs : ∀ e ∈ b1, e ∈ b) :
    SlotsOK b1 := fun e he => hb e (hs e he)

theorem Inv_of_eq (s t : AudioPlayer) (hs : Inv s) (h1 : t.m_play_pkt_no = s.m_play_pkt_no)
    (h2 : t.m_buffer = s.m_buffer) (h3 : t.m_stream_id = s.m_stream_id)
    (h4 : t.m_codec = s.m_codec) (h5 : t.m_buffer_msec = s.m_buffer_msec) : Inv t := by
  refine ⟨?_, ?_, ?_, ?_, ?_⟩
  · rw [h1]; exact hs.play_lt
  · rw [h1, h2]; exact hs.keys
  · rw [h2]; exact hs.slots
  · rw [h2, h3]; exact hs.idle
  · rw [h4, h5]; exact hs.budget

theorem Inv_eraseBegin (s : AudioPlayer) (hs : Inv s) : Inv (eraseBegin s) := by
  rw [eraseBegin_eq]
  cases hb : s.m_buffer with
  | nil =>
    refine Inv_of_eq s _ hs ?_ ?_ rfl rfl rfl
    · simp [mapBegin]
    · simp [hb]
  | cons e t =>
    have hk := hs.keys
    rw [hb] at hk
    have hsl := hs.slots
    rw [hb] at hsl
    cases ht : t with
    | nil =>
      refine ⟨?_, ?_, ?_, ?_, ?_⟩
      · simpa [mapBegin] using hs.play_lt
      · simpa using KeysOK_nil _
      · intro e he; simp at he
      · intro _; rfl
      · exact hs.budget
    | cons e2 t2 =>
      have hkt : KeysOK s.m_play_pkt_no (e2 :: t2) := by
        have := KeysOK_tail _ _ hk
        rw [ht] at this; exact this
      have he2 : e2.1 < 65536 := (hkt.1 e2.1 (by simp [mapKeys])).1
      refine ⟨?_, ?_, ?_, ?_, ?_⟩
      · simpa [mapBegin] using he2
      · simp only [List.tail_cons, mapBegin, List.head?_cons, Option.map_some', Option.getD_some]
        exact KeysOK_rebase _ _ _ hkt he2 (KeysOK_head_le _ _ _ hkt)
      · simp only [List.tail_cons]
        exact SlotsOK_of_subset _ _ hsl (fun e he => by rw [ht]; exact List.mem_cons_of_mem _ he)
      · intro h0
        have := hs.idle h0
        rw [hb] at this
        exact absurd this (List.cons_ne_nil _ _)
      · exact hs.budget

theorem Inv_AddPacket_evict (n : Nat) (s : AudioPlayer) (hs : Inv s) :
    Inv (AddPacket_evict n s) := by
  induction n generalizing s with
  | zero => exact hs
  | succ n ih =>
    simp only [AddPacket_evict]
    split_ifs with h
    · exact ih _ (Inv_eraseBegin s hs)
    · exact hs

theorem Inv_PlayBuffer_catchup (m : Int) (n : Nat) (s : AudioPlayer) (hs : Inv s) :
    Inv (PlayBuffer_catchup m n s) := by
  induction n generalizing s with
  | zero => exact hs
  | succ n ih =>
    simp only [PlayBuffer_catchup]
    split_ifs with h
    · exact ih _ (Inv_eraseBegin s hs)
    · exact hs

theorem AddPacket_null (s : AudioPlayer) (p : AudioPacket) (h : p.enc = none) :
    AddPacket s p = s := by
  unfold AddPacket; rw [h]

theorem AddPacket_empty (s : AudioPlayer) (p : AudioPacket) (enc : List Nat)
    (h : p.enc = some enc) (h0 : enc.length = 0) : AddPacket s p = s := by
  unfold AddPacket; rw [h]; simp [h0]

theorem AddPacket_zero_stream (s : AudioPlayer) (p : AudioPacket) (enc : List Nat)
    (h : p.enc = some enc) (h0 : enc.length ≠ 0) (hz : p.GetStreamID = 0) :
    AddPacket s p = { s with m_audiopackets_recv := s.m_audiopackets_recv + 1 } := by
  unfold AddPacket; rw [h]; simp [h0, hz]

theorem AddPacket_late (s : AudioPlayer) (p : AudioPacket) (enc : List Nat)
    (h : p.enc = some enc) (h0 : enc.length ≠ 0)
    (ha : s.m_stream_id ≠ 0) (hl : W16_LT p.GetPacketNumber s.m_play_pkt_no = true) :
    AddPacket s p = { s with m_audiopackets_recv := s.m_audiopackets_recv + 1 } := by
  unfold AddPacket; rw [h]; simp [h0, ha, hl]

theorem AddPacket_mismatch (s : AudioPlayer) (p : AudioPacket) (enc : List Nat)
    (h : p.enc = some enc) (h0 : enc.length ≠ 0) (hz : p.GetStreamID ≠ 0)
    (hl : ¬ (s.m_stream_id ≠ 0 ∧ W16_LT p.GetPacketNumber s.m_play_pkt_no = true))
    (hm : sizesOK p enc = false) :
    AddPacket s p =
      { s with m_audiopackets_recv := s.m_audiopackets_recv + 1,
               m_buffer := mapErase p.GetPacketNumber s.m_buffer } := by
  unfold AddPacket; rw [h]
  simp only [h0, hz, if_false, AddPacket_store_eq, hm, Bool.false_eq_true]
  rw [if_neg hl]

theorem AddPacket_admitted (s : AudioPlayer) (p : AudioPacket) (enc : List Nat)
    (ha : Admitted s p enc) :
    AddPacket s p =
      (if (AddPacket_evict (AddPacket_stored s p enc).m_buffer.length
            (AddPacket_stored s p enc)).m_stream_id = 0 then
        { AddPacket_evict (AddPacket_stored s p enc).m_buffer.length
            (AddPacket_stored s p enc) with
          m_play_pkt_no := p.GetPacketNumber, m_stream_id := p.GetStreamID }
      else
        AddPacket_evict (AddPacket_stored s p enc).m_buffer.length
          (AddPacket_stored s p enc)) := by
  obtain ⟨h, h0, hz, hl, hm⟩ := ha
  unfold AddPacket AddPacket_stored; rw [h]
  simp only [h0, hz, if_false, AddPacket_store_eq, hm, if_true]
  rw [if_neg hl]

theorem AddPacket_evict_stop (n : Nat) (s : AudioPlayer)
    (h : ¬ (GetBufferedAudioMSec s > s.m_buffer_msec ∧ s.m_buffer.length ≠ 0)) :
    AddPacket_evict n s = s := by
  cases n with
  | zero => rfl
  | succ n => simp only [AddPacket_evict]; rw [if_neg h]

theorem AddPacket_evict_stream (n : Nat) (s : AudioPlayer) :
    (AddPacket_evict n s).m_stream_id = s.m_stream_id := by
  obtain ⟨b, p, h⟩ := AddPacket_evict_frame n s
  rw [h]

theorem PlayBuffer_catchup_stream (m : Int) (n : Nat) (s : AudioPlayer) :
    (PlayBuffer_catchup m n s).m_stream_id = s.m_stream_id := by
  obtain ⟨b, p, h⟩ := PlayBuffer_catchup_frame m n s
  rw [h]

theorem seqOff_of_not_late (p k : Nat) (hp : p < 65536)
    (h : ¬ W16_LT k p = true) : seqOff p k < 32768 := by
  unfold W16_LT toInt16 at h
  rw [decide_eq_true_iff] at h
  unfold seqOff
  split_ifs at h <;> omega

theorem seqOff_self (p : Nat) : seqOff p p = 0 := by
  unfold seqOff; omega

theorem GetPacketNumber_lt (p : AudioPacket) : p.GetPacketNumber < 65536 := by
  unfold AudioPacket.GetPacketNumber; omega

theorem storedSlot_ok (c : AudioCodec) (p : AudioPacket) (enc : List Nat) (v : encframe)
    (h0 : enc.length ≠ 0) (hz : p.GetStreamID ≠ 0) :
    (storedSlot c p enc v).stream_id ≠ 0 ∧ (storedSlot c p enc v).enc_frames ≠ [] := by
  refine ⟨hz, ?_⟩
  intro h
  apply h0
  simp only [storedSlot] at h
  rw [h]; rfl

theorem GetBufferedAudioMSec_idle (s : AudioPlayer) (h : s.m_stream_id = 0) :
    GetBufferedAudioMSec s = (s.m_buffer.length : Int) * GetAudioCodecCbMillis s.m_codec := by
  unfold GetBufferedAudioMSec
  simp [h]

theorem cb_nonneg (c : AudioCodec) : 0 ≤ GetAudioCodecCbMillis c := by
  unfold GetAudioCodecCbMillis; omega

/-- The first packet of a talkspurt: in an idle state with an empty buffer and
a budget of at least one callback the packet is stored, nothing is evicted,
and the cursor and stream id are adopted from the packet. -/
theorem AddPacket_idle (s : AudioPlayer) (p : AudioPacket) (enc : List Nat)
    (ha : Admitted s p enc) (hi : s.m_stream_id = 0) (hb : s.m_buffer = [])
    (hbud : GetAudioCodecCbMillis s.m_codec ≤ s.m_buffer_msec) :
    AddPacket s p =
      { s with
          m_audiopackets_recv := s.m_audiopackets_recv + 1
          m_buffer := [(p.GetPacketNumber, storedSlot s.m_codec p enc encframe.empty)]
          m_play_pkt_no := p.GetPacketNumber
          m_stream_id := p.GetStreamID } := by
  have hst : AddPacket_stored s p enc =
      { s with
          m_audiopackets_recv := s.m_audiopackets_recv + 1
          m_buffer := [(p.GetPacketNumber, storedSlot s.m_codec p enc encframe.empty)] } := by
    unfold AddPacket_stored
    rw [hb, mapUpdate_nil]
  have hstop : AddPacket_evict (AddPacket_stored s p enc).m_buffer.length
      (AddPacket_stored s p enc) = AddPacket_stored s p enc := by
    apply AddPacket_evict_stop
    intro hc
    have h1 : (AddPacket_stored s p enc).m_stream_id = 0 := by rw [hst]; exact hi
    rw [GetBufferedAudioMSec_idle _ h1, hst] at hc
    simp only [List.length_singleton, Nat.cast_one, one_mul] at hc
    exact absurd hbud (not_le.2 hc.1)
  rw [AddPacket_admitted s p enc ha, hstop, hst]
  simp [hi]

theorem Inv_AddPacket (s : AudioPlayer) (p : AudioPacket) (hs : Inv s) :
    Inv (AddPacket s p) := by
  cases henc : p.enc with
  | none => rw [AddPacket_null s p henc]; exact hs
  | some enc =>
    by_cases h0 : enc.length = 0
    · rw [AddPacket_empty s p enc henc h0]; exact hs
    by_cases hz : p.GetStreamID = 0
    · rw [AddPacket_zero_stream s p enc henc h0 hz]
      exact Inv_of_eq s _ hs rfl rfl rfl rfl rfl
    by_cases hl : s.m_stream_id ≠ 0 ∧ W16_LT p.GetPacketNumber s.m_play_pkt_no = true
    · rw [AddPacket_late s p enc henc h0 hl.1 hl.2]
      exact Inv_of_eq s _ hs rfl rfl rfl rfl rfl
    cases hm : sizesOK p enc with
    | false =>
      rw [AddPacket_mismatch s p enc henc h0 hz hl hm]
      exact ⟨hs.play_lt, KeysOK_mapErase _ _ _ hs.keys,
        SlotsOK_of_subset _ _ hs.slots (fun e he => List.mem_of_mem_filter he),
        fun h => by
          show mapErase _ s.m_buffer = []
          rw [hs.idle h]; rfl,
        hs.budget⟩
    | true =>
      have ha : Admitted s p enc := ⟨henc, h0, hz, hl, hm⟩
      by_cases hi : s.m_stream_id = 0
      · rw [AddPacket_idle s p enc ha hi (hs.idle hi) hs.budget]
        refine ⟨GetPacketNumber_lt p, ?_, ?_, ?_, hs.budget⟩
        · refine ⟨?_, ?_⟩
          · intro k hk
            simp only [mapKeys, List.map_cons, List.map_nil, List.mem_singleton] at hk
            subst hk
            exact ⟨GetPacketNumber_lt p, by
              rw [seqOff_self _]; omega⟩
          · simp [mapKeys]
        · intro e he
          simp only [List.mem_singleton] at he
          subst he
          exact storedSlot_ok _ _ _ _ h0 hz
        · intro h; exact absurd h hz
      · have hnl : ¬ W16_LT p.GetPacketNumber s.m_play_pkt_no = true := fun h => hl ⟨hi, h⟩
        have hst : Inv (AddPacket_stored s p enc) := by
          refine ⟨hs.play_lt, ?_, ?_, fun h => absurd h hi, hs.budget⟩
          · exact KeysOK_mapUpdate _ _ _ _ _ hs.keys (GetPacketNumber_lt p)
              (seqOff_of_not_late _ _ hs.play_lt hnl)
          · intro e he
            rcases mem_mapUpdate _ _ _ _ e he with ⟨v, hv⟩ | ⟨h1, _⟩
            · rw [hv]; exact storedSlot_ok _ _ _ _ h0 hz
            · exact hs.slots e h1
        rw [AddPacket_admitted s p enc ha]
        have hne : (AddPacket_evict (AddPacket_stored s p enc).m_buffer.length
            (AddPacket_stored s p enc)).m_stream_id ≠ 0 := by
          rw [AddPacket_evict_stream]; exact hi
        rw [if_neg hne]
        exact Inv_AddPacket_evict _ _ hst

theorem DecodeFrame_empty : DecodeFrame encframe.empty = false := rfl

/-- Closed form of `PlayBuffer_decode`: the temporary default slot that
`operator[]` creates for a missing packet is erased again. -/
theorem PlayBuffer_decode_eq (s : AudioPlayer) :
    PlayBuffer_decode s =
      if DecodeFrame ((mapFind s.m_play_pkt_no s.m_buffer).getD encframe.empty) = true then
        { s with
            m_buffer := mapErase s.m_play_pkt_no s.m_buffer
            m_play_pkt_no := (s.m_play_pkt_no + 1) % 65536
            m_played_packet_time :=
              ((mapFind s.m_play_pkt_no s.m_buffer).getD encframe.empty).timestamp
            m_stream_id :=
              ((mapFind s.m_play_pkt_no s.m_buffer).getD encframe.empty).stream_id }
      else
        { s with
            m_buffer := mapErase s.m_play_pkt_no s.m_buffer
            m_play_pkt_no := (s.m_play_pkt_no + 1) % 65536
            m_audiopacket_lost := s.m_audiopacket_lost + 1 } := by
  unfold PlayBuffer_decode
  simp only [mapFind_mapIndex, Option.getD_some]
  split_ifs <;> simp only [mapErase_mapIndex]

theorem PlayBuffer_decode_buffer (s : AudioPlayer) :
    (PlayBuffer_decode s).m_buffer = mapErase s.m_play_pkt_no s.m_buffer := by
  rw [PlayBuffer_decode_eq]; split_ifs <;> rfl

theorem PlayBuffer_decode_play (s : AudioPlayer) :
    (PlayBuffer_decode s).m_play_pkt_no = (s.m_play_pkt_no + 1) % 65536 := by
  rw [PlayBuffer_decode_eq]; split_ifs <;> rfl

theorem Inv_PlayBuffer_decode (s : AudioPlayer) (hs : Inv s) : Inv (PlayBuffer_decode s) := by
  have hp := hs.play_lt
  refine ⟨?_, ?_, ?_, ?_, ?_⟩
  · rw [PlayBuffer_decode_play]; omega
  · rw [PlayBuffer_decode_play, PlayBuffer_decode_buffer]
    refine KeysOK_rebase s.m_play_pkt_no _ _ (KeysOK_mapErase _ _ _ hs.keys) (by omega) ?_
    intro k hk
    rw [mapKeys_mapErase, List.mem_filter] at hk
    have hne : k ≠ s.m_play_pkt_no := by simpa using hk.2
    have hk1 := (hs.keys.1 k hk.1).1
    unfold seqOff
    omega
  · rw [PlayBuffer_decode_buffer]
    exact SlotsOK_of_subset _ _ hs.slots (fun e he => List.mem_of_mem_filter he)
  · intro h0
    rw [PlayBuffer_decode_buffer]
    rw [PlayBuffer_decode_eq] at h0
    split_ifs at h0 with hd
    · exfalso
      cases hf : mapFind s.m_play_pkt_no s.m_buffer with
      | none => rw [hf] at hd; simp [DecodeFrame_empty] at hd
      | some v =>
        have hm := mapFind_some_mem _ _ _ hf
        have hv := (hs.slots _ hm).1
        apply hv
        rw [hf] at h0
        exact h0
    · have h1 : s.m_stream_id = 0 := h0
      rw [hs.idle h1]; rfl
  · have : (PlayBuffer_decode s).m_codec = s.m_codec ∧
        (PlayBuffer_decode s).m_buffer_msec = s.m_buffer_msec := by
      rw [PlayBuffer_decode_eq]
      split_ifs <;> exact ⟨rfl, rfl⟩
    rw [this.1, this.2]; exact hs.budget

theorem PlayBuffer_mux_frame (played : Bool) (s : AudioPlayer) :
    ∃ m, PlayBuffer_mux played s = { s with m_audiomuxer := m } := by
  unfold PlayBuffer_mux
  split_ifs
  · exact ⟨_, rfl⟩
  · exact ⟨s.m_audiomuxer, rfl⟩

theorem PlayBuffer_nonempty (s : AudioPlayer) (h : s.m_buffer ≠ []) :
    PlayBuffer s = (true, PlayBuffer_mux true
      (PlayBuffer_decode (PlayBuffer_catchup (maxbuf_msec s) s.m_buffer.length s))) := by
  unfold PlayBuffer
  rw [if_pos (by simpa using h)]

theorem PlayBuffer_of_empty (s : AudioPlayer) (h : s.m_buffer = []) :
    PlayBuffer s = (false, PlayBuffer_mux false s) := by
  unfold PlayBuffer
  rw [if_neg (by simp [h])]

theorem Inv_PlayBuffer_mux (played : Bool) (s : AudioPlayer) (hs : Inv s) :
    Inv (PlayBuffer_mux played s) := by
  obtain ⟨m, h⟩ := PlayBuffer_mux_frame played s
  rw [h]; exact Inv_of_eq _ _ hs rfl rfl rfl rfl rfl

theorem Inv_PlayBuffer (s : AudioPlayer) (hs : Inv s) : Inv (PlayBuffer s).2 := by
  by_cases hb : s.m_buffer = []
  · rw [PlayBuffer_of_empty s hb]
    exact Inv_PlayBuffer_mux _ _ hs
  · rw [PlayBuffer_nonempty s hb]
    exact Inv_PlayBuffer_mux _ _ (Inv_PlayBuffer_decode _
      (Inv_PlayBuffer_catchup (maxbuf_msec s) s.m_buffer.length s hs))

theorem Inv_Reset (s : AudioPlayer) (hs : Inv s) : Inv (Reset s) :=
  ⟨by show 0 < 65536; omega, KeysOK_nil _, fun e he => by simp [Reset] at he,
    fun _ => rfl, hs.budget⟩

theorem Inv_SetAudioBufferSize (s : AudioPlayer) (msec : Int) (hs : Inv s) :
    Inv (SetAudioBufferSize s msec) :=
  ⟨hs.play_lt, hs.keys, hs.slots, hs.idle, le_max_right _ _⟩

theorem Inv_new (sndgrpid userid : Int) (st : StreamType) (c : AudioCodec) (d : Nat) :
    Inv (AudioPlayer.new sndgrpid userid st c d) :=
  ⟨by show 0 < 65536; omega, KeysOK_nil _, fun e he => by simp [AudioPlayer.new, SetAudioBufferSize, Reset] at he,
    fun _ => rfl, le_max_right _ _⟩

/-- The jitter-buffer effect of `QueuePacket` is that of at most one
`AddPacket`, on a state that differs only in the fragment store. -/
theorem QueuePacket_cases (s : AudioPlayer) (p : AudioPacket) :
    (∃ fr, (QueuePacket s p).2 = { s with m_audfragments := fr }) ∨
    (∃ fr q, (QueuePacket s p).2 = AddPacket { s with m_audfragments := fr } q) := by
  have key : ∀ old : Nat, ∃ fr,
      (if old ≠ 0 then CleanUpAudioFragments s old else s) =
        { s with m_audfragments := fr } := by
    intro old
    split_ifs
    · exact ⟨_, rfl⟩
    · exact ⟨s.m_audfragments, rfl⟩
  unfold QueuePacket
  by_cases hf : p.has_fragments = false
  · rw [if_pos hf]
    exact Or.inr ⟨s.m_audfragments, p, rfl⟩
  · rw [if_neg hf]
    cases hfn : p.fragno with
    | none => exact Or.inl ⟨s.m_audfragments, rfl⟩
    | some fragno =>
      simp only
      obtain ⟨fr, hfr⟩ := key (if s.m_audfragments.length ≥ 10
        then toUInt16 ((p.GetPacketNumber : Int) - 10) else s.m_play_pkt_no)
      rw [hfr]
      split
      · exact Or.inl ⟨_, rfl⟩
      · exact Or.inr ⟨_, _, rfl⟩

theorem Inv_QueuePacket (s : AudioPlayer) (p : AudioPacket) (hs : Inv s) :
    Inv (QueuePacket s p).2 := by
  rcases QueuePacket_cases s p with ⟨fr, h⟩ | ⟨fr, q, h⟩
  · rw [h]; exact Inv_of_eq _ _ hs rfl rfl rfl rfl rfl
  · rw [h]; exact Inv_AddPacket _ _ (Inv_of_eq _ _ hs rfl rfl rfl rfl rfl)

theorem Inv_apply (s : AudioPlayer) (c : Call) (hs : Inv s) : Inv (Call.apply s c) := by
  cases c with
  | setAudioBufferSize msec => exact Inv_SetAudioBufferSize s msec hs
  | queuePacket p => exact Inv_QueuePacket s p hs
  | addPacket p => exact Inv_AddPacket s p hs
  | playBuffer => exact Inv_PlayBuffer s hs
  | reset => exact Inv_Reset s hs

theorem Inv_runCalls (calls : List Call) (s : AudioPlayer) (hs : Inv s) :
    Inv (runCalls s calls) := by
  induction calls generalizing s with
  | nil => exact hs
  | cons c t ih => exact ih _ (Inv_apply s c hs)

theorem Inv_of_Reachable (s : AudioPlayer) (h : Reachable s) : Inv s := by
  obtain ⟨a, b, st, c, d, calls, rfl⟩ := h
  exact Inv_runCalls calls _ (Inv_new a b st c d)

theorem Reachable_apply (s : AudioPlayer) (c : Call) (h : Reachable s) :
    Reachable (Call.apply s c) := by
  obtain ⟨a, b, st, cd, d, calls, rfl⟩ := h
  refine ⟨a, b, st, cd, d, calls ++ [c], ?_⟩
  simp [runCalls, List.foldl_append]

theorem eraseBegin_length (s : AudioPlayer) :
    (eraseBegin s).m_buffer.length = s.m_buffer.length - 1 := by
  rw [eraseBegin_eq]; simp

/-- With fuel at least the buffer size, the loop of `AddPacket` stops because
its condition is false, not because the fuel ran out. -/
theorem AddPacket_evict_exit (n : Nat) (s : AudioPlayer) (hn : s.m_buffer.length ≤ n) :
    ¬ (GetBufferedAudioMSec (AddPacket_evict n s) > (AddPacket_evict n s).m_buffer_msec ∧
        (AddPacket_evict n s).m_buffer.length ≠ 0) := by
  induction n generalizing s with
  | zero =>
    intro h
    apply h.2
    show s.m_buffer.length = 0
    omega
  | succ n ih =>
    simp only [AddPacket_evict]
    split_ifs with h
    · apply ih
      rw [eraseBegin_length]; omega
    · exact h

theorem GetBufferedAudioMSec_nil (s : AudioPlayer) (h : s.m_buffer = []) :
    GetBufferedAudioMSec s = 0 := by
  unfold GetBufferedAudioMSec
  simp [h]

theorem budget_nonneg (s : AudioPlayer) (hs : Inv s) : 0 ≤ s.m_buffer_msec :=
  le_trans (cb_nonneg _) hs.budget

/-- With a non-negative limit the catch-up loop of `PlayBuffer` only erases
from a non-empty buffer: its condition is false on an empty one. -/
theorem PlayBuffer_catchup_cond_nonempty (m : Int) (hm : 0 ≤ m) (s : AudioPlayer)
    (h : s.m_stream_id ≠ 0 ∧ GetBufferedAudioMSec s > m) : s.m_buffer ≠ [] := by
  intro hb
  rw [GetBufferedAudioMSec_nil s hb] at h
  exact absurd hm (not_le.2 h.2)

/-- With fuel at least the buffer size and a non-negative limit, the catch-up
loop of `PlayBuffer` stops because its condition is false, not because the
fuel ran out. -/
theorem PlayBuffer_catchup_exit (m : Int) (hm : 0 ≤ m) (n : Nat) (s : AudioPlayer)
    (hn : s.m_buffer.length ≤ n) :
    ¬ ((PlayBuffer_catchup m n s).m_stream_id ≠ 0 ∧
        GetBufferedAudioMSec (PlayBuffer_catchup m n s) > m) := by
  induction n generalizing s with
  | zero =>
    intro h
    have hb : s.m_buffer = [] := List.length_eq_zero.1 (by omega)
    exact PlayBuffer_catchup_cond_nonempty m hm s h hb
  | succ n ih =>
    simp only [PlayBuffer_catchup]
    split_ifs with h
    · apply ih
      rw [eraseBegin_length]; omega
    · exact h

/-- C1 (as stated) fails: after packets 1, 2, 3 are buffered and the budget is
lowered to 20 ms, an `AddPacket` of a packet with stream id 0 returns early and
leaves 60 ms buffered. -/
theorem C1_counterexample :
    Reachable exShrunk ∧
    (AddPacket exShrunk (exPacket 4 0)).m_buffer_msec = 20 ∧
    GetBufferedAudioMSec (AddPacket exShrunk (exPacket 4 0)) = 60 :=
  ⟨⟨0, 1, StreamType.STREAMTYPE_VOICE, exCodec, 500, _, rfl⟩, by decide, by decide⟩

/-- C1 (amended): in every reachable state, after every `AddPacket` call that
admits its packet (non-empty payload, nonzero stream id, not late, consistent
frame sizes) `GetBufferedAudioMSec()` is at most `m_buffer_msec`, hence also at
most `m_buffer_msec` plus one callback. -/
theorem C1_budget_after_admitting_push (s : AudioPlayer) (hs : Reachable s)
    (p : AudioPacket) (enc : List Nat) (ha : Admitted s p enc) :
    GetBufferedAudioMSec (AddPacket s p) ≤ (AddPacket s p).m_buffer_msec ∧
    GetBufferedAudioMSec (AddPacket s p) ≤
      (AddPacket s p).m_buffer_msec + GetAudioCodecCbMillis (AddPacket s p).m_codec := by
  have hinv := Inv_of_Reachable s hs
  have hinv2 := Inv_AddPacket s p hinv
  have key : GetBufferedAudioMSec (AddPacket s p) ≤ (AddPacket s p).m_buffer_msec := by
    by_cases hi : s.m_stream_id = 0
    · rw [AddPacket_idle s p enc ha hi (hinv.idle hi) hinv.budget]
      have hb := hinv.budget
      have hk := GetPacketNumber_lt p
      unfold GetBufferedAudioMSec toInt16 mapRBegin
      simp only [List.length_singleton, List.getLast?_singleton, Option.map_some',
        Option.getD_some, sub_self]
      split_ifs <;> simp_all
    · rw [AddPacket_admitted s p enc ha]
      have hne : (AddPacket_evict (AddPacket_stored s p enc).m_buffer.length
          (AddPacket_stored s p enc)).m_stream_id ≠ 0 := by
        rw [AddPacket_evict_stream]; exact hi
      rw [if_neg hne]
      have hex := AddPacket_evict_exit (AddPacket_stored s p enc).m_buffer.length
        (AddPacket_stored s p enc) (le_refl _)
      rw [AddPacket_admitted s p enc ha, if_neg hne] at hinv2
      by_cases hl : (AddPacket_evict (AddPacket_stored s p enc).m_buffer.length
          (AddPacket_stored s p enc)).m_buffer.length = 0
      · rw [GetBufferedAudioMSec_nil _ (List.length_eq_zero.1 hl)]
        exact budget_nonneg _ hinv2
      · by_contra hc
        exact hex ⟨not_le.1 hc, hl⟩
  exact ⟨key, le_trans key (le_add_of_nonneg_right (cb_nonneg _))⟩

/-- C1 (amended), instance: with a 200 ms budget and packets 1..10 buffered,
pushing packet 11 evicts and leaves at most 200 ms buffered. -/
theorem C1_budget_after_admitting_push_witness :
    Admitted exFull (exPacket 11 7) [1, 2, 3] ∧
    GetBufferedAudioMSec (AddPacket exFull (exPacket 11 7)) ≤
      (AddPacket exFull (exPacket 11 7)).m_buffer_msec :=
  ⟨by decide,
    (C1_budget_after_admitting_push exFull
      ⟨0, 1, StreamType.STREAMTYPE_VOICE, exCodec, 500, _, rfl⟩ (exPacket 11 7) [1, 2, 3]
      (by decide)).1⟩

/-- C3 (as stated) fails: with packet 102 buffered and packet 101 missing,
`PlayBuffer` runs the concealment path, no real packet is decoded, and the
call still returns true. -/
theorem C3_counterexample :
    Reachable exGap ∧ (PlayBuffer exGap).1 = true ∧ PlayBuffer_decoded exGap = false :=
  ⟨⟨0, 1, StreamType.STREAMTYPE_VOICE, exCodec, 500, _, rfl⟩, by decide, by decide⟩

/-- C3 (amended): `PlayBuffer` returns true if and only if the jitter buffer
was non-empty on entry, that is when a buffered packet was decoded or a missing
one was concealed; it returns false exactly when silence is emitted on an empty
buffer. Whenever a real packet was decoded it returns true. -/
theorem C3_played_iff_buffer_nonempty (s : AudioPlayer) :
    ((PlayBuffer s).1 = true ↔ s.m_buffer ≠ []) ∧
    ((PlayBuffer s).1 = false ↔ s.m_buffer = []) ∧
    (PlayBuffer_decoded s = true → (PlayBuffer s).1 = true) := by
  by_cases hb : s.m_buffer = []
  · rw [PlayBuffer_of_empty s hb]
    refine ⟨by simp [hb], by simp [hb], ?_⟩
    intro h
    unfold PlayBuffer_decoded at h
    simp [hb] at h
  · rw [PlayBuffer_nonempty s hb]
    exact ⟨by simp [hb], by simp [hb], fun _ => rfl⟩

theorem AddPacket_lost (s : AudioPlayer) (p : AudioPacket) :
    (AddPacket s p).m_audiopacket_lost = s.m_audiopacket_lost := by
  cases henc : p.enc with
  | none => rw [AddPacket_null s p henc]
  | some enc =>
    by_cases h0 : enc.length = 0
    · rw [AddPacket_empty s p enc henc h0]
    by_cases hz : p.GetStreamID = 0
    · rw [AddPacket_zero_stream s p enc henc h0 hz]
    by_cases hl : s.m_stream_id ≠ 0 ∧ W16_LT p.GetPacketNumber s.m_play_pkt_no = true
    · rw [AddPacket_late s p enc henc h0 hl.1 hl.2]
    cases hm : sizesOK p enc with
    | false => rw [AddPacket_mismatch s p enc henc h0 hz hl hm]
    | true =>
      rw [AddPacket_admitted s p enc ⟨henc, h0, hz, hl, hm⟩]
      obtain ⟨b, q, h⟩ := AddPacket_evict_frame (AddPacket_stored s p enc).m_buffer.length
        (AddPacket_stored s p enc)
      rw [h]
      split_ifs <;> rfl

theorem QueuePacket_lost (s : AudioPlayer) (p : AudioPacket) :
    (QueuePacket s p).2.m_audiopacket_lost = s.m_audiopacket_lost := by
  rcases QueuePacket_cases s p with ⟨fr, h⟩ | ⟨fr, q, h⟩
  · rw [h]
  · rw [h, AddPacket_lost]

theorem PlayBuffer_decoded_nonempty (s : AudioPlayer) (hb : s.m_buffer ≠ []) :
    PlayBuffer_decoded s =
      DecodeFrame ((mapFind (PlayBuffer_catchup (maxbuf_msec s) s.m_buffer.length s).m_play_pkt_no
        (PlayBuffer_catchup (maxbuf_msec s) s.m_buffer.length s).m_buffer).getD
          encframe.empty) := by
  unfold PlayBuffer_decoded
  rw [if_pos (by simpa using hb)]
  simp only [mapFind_mapIndex, Option.getD_some]

theorem mapFind_mapErase_self {β : Type} (k : Nat) (b : List (Nat × β)) :
    mapFind k (mapErase k b) = none := by
  rw [mapFind_none_iff, mapKeys_mapErase, List.mem_filter]
  simp

/-- C4: in every reachable state a `PlayBuffer` call adds exactly 1 to the
lost counter when it takes the concealment path (buffer non-empty on entry and,
after the catch-up eviction, no buffered packet at `m_play_pkt_no`), and leaves
the counter unchanged when it decodes the buffered packet at `m_play_pkt_no` or
emits silence on an empty buffer; `AddPacket`, `QueuePacket` and `Reset` never
change the counter. The packet number handled by a call is either decoded or
concealed, never both, and it is not handled again: its slot is erased and the
cursor moves to the next number. -/
theorem C4_lost_counter_accounting (s : AudioPlayer) (hs : Reachable s) :
    (s.m_buffer ≠ [] →
      mapFind (PlayBuffer_catchup (maxbuf_msec s) s.m_buffer.length s).m_play_pkt_no
        (PlayBuffer_catchup (maxbuf_msec s) s.m_buffer.length s).m_buffer = none →
      PlayBuffer_decoded s = false ∧
      (PlayBuffer s).2.m_audiopacket_lost = s.m_audiopacket_lost + 1) ∧
    (s.m_buffer ≠ [] →
      mapFind (PlayBuffer_catchup (maxbuf_msec s) s.m_buffer.length s).m_play_pkt_no
        (PlayBuffer_catchup (maxbuf_msec s) s.m_buffer.length s).m_buffer ≠ none →
      PlayBuffer_decoded s = true ∧
      (PlayBuffer s).2.m_audiopacket_lost = s.m_audiopacket_lost) ∧
    (s.m_buffer = [] →
      PlayBuffer_decoded s = false ∧
      (PlayBuffer s).2.m_audiopacket_lost = s.m_audiopacket_lost) ∧
    (∀ p, (AddPacket s p).m_audiopacket_lost = s.m_audiopacket_lost) ∧
    (∀ p, (QueuePacket s p).2.m_audiopacket_lost = s.m_audiopacket_lost) ∧
    (Reset s).m_audiopacket_lost = s.m_audiopacket_lost ∧
    (s.m_buffer ≠ [] →
      mapFind (PlayBuffer_catchup (maxbuf_msec s) s.m_buffer.length s).m_play_pkt_no
        (PlayBuffer s).2.m_buffer = none ∧
      (PlayBuffer s).2.m_play_pkt_no =
        ((PlayBuffer_catchup (maxbuf_msec s) s.m_buffer.length s).m_play_pkt_no + 1) % 65536) := by
  have hinv := Inv_of_Reachable s hs
  have hinvt := Inv_PlayBuffer_catchup (maxbuf_msec s) s.m_buffer.length s hinv
  obtain ⟨b, q, hfr⟩ := PlayBuffer_catchup_frame (maxbuf_msec s) s.m_buffer.length s
  have hlost : (PlayBuffer_catchup (maxbuf_msec s) s.m_buffer.length s).m_audiopacket_lost =
      s.m_audiopacket_lost := by rw [hfr]
  refine ⟨?_, ?_, ?_, AddPacket_lost s, QueuePacket_lost s, rfl, ?_⟩
  · intro hb hnone
    rw [PlayBuffer_decoded_nonempty s hb, PlayBuffer_nonempty s hb]
    obtain ⟨m, hm⟩ := PlayBuffer_mux_frame true
      (PlayBuffer_decode (PlayBuffer_catchup (maxbuf_msec s) s.m_buffer.length s))
    rw [hm, PlayBuffer_decode_eq, hnone]
    simp only [Option.getD_none, DecodeFrame_empty, Bool.false_eq_true, if_false, hlost,
      and_self]
  · intro hb hsome
    rw [PlayBuffer_decoded_nonempty s hb, PlayBuffer_nonempty s hb]
    obtain ⟨m, hm⟩ := PlayBuffer_mux_frame true
      (PlayBuffer_decode (PlayBuffer_catchup (maxbuf_msec s) s.m_buffer.length s))
    rw [hm, PlayBuffer_decode_eq]
    cases hf : mapFind (PlayBuffer_catchup (maxbuf_msec s) s.m_buffer.length s).m_play_pkt_no
        (PlayBuffer_catchup (maxbuf_msec s) s.m_buffer.length s).m_buffer with
    | none => exact absurd hf hsome
    | some v =>
      have hv := (hinvt.slots _ (mapFind_some_mem _ _ _ hf)).2
      have hd : DecodeFrame v = true := by
        unfold DecodeFrame
        simpa using hv
      simp only [Option.getD_some, hd, if_true, hlost, and_self]
  · intro hb
    rw [PlayBuffer_of_empty s hb]
    obtain ⟨m, hm⟩ := PlayBuffer_mux_frame false s
    rw [hm]
    refine ⟨?_, rfl⟩
    unfold PlayBuffer_decoded
    simp [hb]
  · intro hb
    rw [PlayBuffer_nonempty s hb]
    obtain ⟨m, hm⟩ := PlayBuffer_mux_frame true
      (PlayBuffer_decode (PlayBuffer_catchup (maxbuf_msec s) s.m_buffer.length s))
    rw [hm]
    show mapFind _ (PlayBuffer_decode _).m_buffer = none ∧ (PlayBuffer_decode _).m_play_pkt_no = _
    rw [PlayBuffer_decode_buffer, PlayBuffer_decode_play]
    exact ⟨mapFind_mapErase_self _ _, rfl⟩

/-- C4, instance: in the state with packet 101 missing the call conceals and
the lost counter goes from 0 to 1. -/
theorem C4_lost_counter_accounting_witness :
    Reachable exGap ∧ exGap.m_audiopacket_lost = 0 ∧
    (PlayBuffer exGap).2.m_audiopacket_lost = 0 + 1 :=
  ⟨⟨0, 1, StreamType.STREAMTYPE_VOICE, exCodec, 500, _, rfl⟩, by decide,
    ((C4_lost_counter_accounting exGap
      ⟨0, 1, StreamType.STREAMTYPE_VOICE, exCodec, 500, _, rfl⟩).1 (by decide) (by decide)).2⟩

/-- C5: in every reachable state every key of the jitter buffer is wrap-aware
not older than `m_play_pkt_no`, i.e. `(int16_t)(k - m_play_pkt_no) >= 0`, and
the assertion at the top of `PlayBuffer` holds. -/
theorem C5_no_stale_packet (s : AudioPlayer) (hs : Reachable s) :
    (∀ k ∈ mapKeys s.m_buffer, 0 ≤ toInt16 ((k : Int) - (s.m_play_pkt_no : Int))) ∧
    PlayBuffer_assert s = true := by
  have hinv := Inv_of_Reachable s hs
  have key : ∀ k ∈ mapKeys s.m_buffer, 0 ≤ toInt16 ((k : Int) - (s.m_play_pkt_no : Int)) := by
    intro k hk
    have h := hinv.keys.1 k hk
    rw [toInt16_sub _ _ hinv.play_lt h.1, if_pos h.2]
    omega
  refine ⟨key, ?_⟩
  unfold PlayBuffer_assert mapBegin
  cases hb : s.m_buffer with
  | nil => rfl
  | cons e t =>
    simp only [List.head?_cons, Option.map_some']
    unfold W16_GEQ
    rw [decide_eq_true_iff]
    exact key e.1 (by rw [hb]; simp [mapKeys])

/-- C5, instance: the run buffered across the 16-bit boundary, with cursor
65530 and keys up to 4. -/
theorem C5_no_stale_packet_witness :
    exWrap.m_play_pkt_no = 65530 ∧ mapKeys exWrap.m_buffer =
      [65530, 65531, 65532, 65533, 65534, 65535, 0, 1, 2, 3, 4] ∧
    (∀ k ∈ mapKeys exWrap.m_buffer, 0 ≤ toInt16 ((k : Int) - (exWrap.m_play_pkt_no : Int))) ∧
    PlayBuffer_assert exWrap = true :=
  ⟨by decide, by decide,
    C5_no_stale_packet exWrap ⟨0, 1, StreamType.STREAMTYPE_VOICE, exCodec, 500, _, rfl⟩⟩

theorem maxbuf_nonneg (s : AudioPlayer) (hs : Inv s) : 0 ≤ maxbuf_msec s := by
  have h := budget_nonneg s hs
  unfold maxbuf_msec
  cases s.m_streamtype with
  | STREAMTYPE_VOICE => exact Int.tdiv_nonneg h (by omega)
  | STREAMTYPE_MEDIAFILE_AUDIO => exact h
  | STREAMTYPE_OTHER => exact h

/-- When the estimate of `GetBufferedAudioMSec` is positive in an active
stream, the highest key is at most 32766 steps ahead of the cursor. -/
theorem last_off_of_buffered_pos (s : AudioPlayer) (hs : Inv s) (ha : s.m_stream_id ≠ 0)
    (hpos : 0 < GetBufferedAudioMSec s) :
    ∃ l, mapRBegin s.m_buffer = some l ∧ seqOff s.m_play_pkt_no l ≤ 32766 := by
  unfold GetBufferedAudioMSec at hpos
  by_cases hc : s.m_stream_id ≠ 0 ∧ s.m_buffer.length ≠ 0 ∧ GetAudioCodecCbMillis s.m_codec ≠ 0
  · rw [if_pos hc] at hpos
    simp only at hpos
    have hne : s.m_buffer ≠ [] := by
      intro h; apply hc.2.1; rw [h]; rfl
    cases hl : mapRBegin s.m_buffer with
    | none =>
      unfold mapRBegin at hl
      simp only [Option.map_eq_none', List.getLast?_eq_none_iff] at hl
      exact absurd hl hne
    | some l =>
      refine ⟨l, rfl, ?_⟩
      rw [hl] at hpos
      simp only [Option.getD_some] at hpos
      have hlm : l ∈ mapKeys s.m_buffer := by
        unfold mapRBegin at hl
        rw [Option.map_eq_some'] at hl
        obtain ⟨a, ha1, rfl⟩ := hl
        exact List.mem_map_of_mem Prod.fst (List.mem_of_getLast?_eq_some ha1)
      have hk := hs.keys.1 l hlm
      rw [toInt16_sub _ _ hs.play_lt hk.1, if_pos hk.2] at hpos
      have hcb := cb_nonneg s.m_codec
      have h2 : 0 < toInt16 ((seqOff s.m_play_pkt_no l : Int) + 1) := by
        by_contra hcon
        have : GetAudioCodecCbMillis s.m_codec *
            toInt16 ((seqOff s.m_play_pkt_no l : Int) + 1) ≤ 0 :=
          Int.mul_nonpos_of_nonneg_of_nonpos hcb (not_lt.1 hcon)
        omega
      unfold toInt16 at h2
      split_ifs at h2 <;> omega
  · rw [if_neg hc] at hpos
    exfalso
    have hcb := cb_nonneg s.m_codec
    rcases not_and_or.1 hc with h | h
    · exact h ha
    · rcases not_and_or.1 h with h | h
      · simp only [ne_eq, not_not] at h
        rw [h] at hpos; simp at hpos
      · simp only [ne_eq, not_not] at h
        rw [h] at hpos; simp at hpos

theorem mapKeys_tail_subset {β : Type} (b : List (Nat × β)) :
    ∀ k ∈ mapKeys b.tail, k ∈ mapKeys b := by
  intro k hk
  cases b with
  | nil => exact hk
  | cons e t => exact List.mem_cons_of_mem _ hk

/-- The cursor after the catch-up loop of `PlayBuffer` is the cursor before
it or one of the buffered keys, and in the latter case the highest key was at
most 32766 steps ahead. -/
theorem PlayBuffer_catchup_play (m : Int) (hm : 0 ≤ m) (n : Nat) (s : AudioPlayer)
    (hs : Inv s) :
    (PlayBuffer_catchup m n s).m_play_pkt_no = s.m_play_pkt_no ∨
    ((PlayBuffer_catchup m n s).m_play_pkt_no ∈ mapKeys s.m_buffer ∧
      ∃ l, mapRBegin s.m_buffer = some l ∧ seqOff s.m_play_pkt_no l ≤ 32766) := by
  induction n generalizing s with
  | zero => exact Or.inl rfl
  | succ n ih =>
    simp only [PlayBuffer_catchup]
    split_ifs with h
    · have hl := last_off_of_buffered_pos s hs h.1 (lt_of_le_of_lt hm h.2)
      have hsub : ∀ k ∈ mapKeys (eraseBegin s).m_buffer, k ∈ mapKeys s.m_buffer := by
        rw [eraseBegin_eq]; exact mapKeys_tail_subset _
      have hplay : (eraseBegin s).m_play_pkt_no = s.m_play_pkt_no ∨
          (eraseBegin s).m_play_pkt_no ∈ mapKeys s.m_buffer := by
        rw [eraseBegin_eq]
        show (mapBegin s.m_buffer.tail).getD s.m_play_pkt_no = _ ∨ (mapBegin s.m_buffer.tail).getD s.m_play_pkt_no ∈ _
        cases ht : s.m_buffer.tail with
        | nil => left; rfl
        | cons e t =>
          right
          apply mapKeys_tail_subset
          rw [ht]
          simp [mapBegin, mapKeys]
      rcases ih (eraseBegin s) (Inv_eraseBegin s hs) with h1 | ⟨h1, _⟩
      · rw [h1]
        rcases hplay with h2 | h2
        · exact Or.inl h2
        · exact Or.inr ⟨h2, hl⟩
      · exact Or.inr ⟨hsub _ h1, hl⟩
    · exact Or.inl rfl

/-- C6: in every reachable state with a non-empty jitter buffer `PlayBuffer`
leaves `m_play_pkt_no` strictly greater than before in wrap-aware 16-bit order,
`(int16_t)(new - old) > 0`, also when the catch-up eviction skips packets; with
an empty buffer it leaves `m_play_pkt_no` unchanged. -/
theorem C6_pull_side_monotone (s : AudioPlayer) (hs : Reachable s) :
    (s.m_buffer ≠ [] →
      0 < toInt16 (((PlayBuffer s).2.m_play_pkt_no : Int) - (s.m_play_pkt_no : Int))) ∧
    (s.m_buffer = [] → (PlayBuffer s).2.m_play_pkt_no = s.m_play_pkt_no) := by
  have hinv := Inv_of_Reachable s hs
  have hp := hinv.play_lt
  constructor
  · intro hb
    rw [PlayBuffer_nonempty s hb]
    obtain ⟨m, hm⟩ := PlayBuffer_mux_frame true
      (PlayBuffer_decode (PlayBuffer_catchup (maxbuf_msec s) s.m_buffer.length s))
    rw [hm]
    show 0 < toInt16 (((PlayBuffer_decode _).m_play_pkt_no : Int) - _)
    rw [PlayBuffer_decode_play]
    have hq : (PlayBuffer_catchup (maxbuf_msec s) s.m_buffer.length s).m_play_pkt_no < 65536 :=
      (Inv_PlayBuffer_catchup _ _ s hinv).play_lt
    have hoff : seqOff s.m_play_pkt_no
        (PlayBuffer_catchup (maxbuf_msec s) s.m_buffer.length s).m_play_pkt_no ≤ 32766 := by
      rcases PlayBuffer_catchup_play (maxbuf_msec s) (maxbuf_nonneg s hinv) s.m_buffer.length s
        hinv with h | ⟨h, l, hl, hl2⟩
      · rw [h, seqOff_self]; omega
      · exact le_trans (KeysOK_last_ge _ _ hinv.keys l hl _ h) hl2
    generalize (PlayBuffer_catchup (maxbuf_msec s) s.m_buffer.length s).m_play_pkt_no = q at *
    unfold seqOff at hoff
    unfold toInt16
    split_ifs <;> omega
  · intro hb
    rw [PlayBuffer_of_empty s hb]
    obtain ⟨m, hm⟩ := PlayBuffer_mux_frame false s
    rw [hm]

/-- C6, instance: the catch-up eviction drops packet 30 and skips the cursor
from 6 to 40, and the call leaves it at 41. -/
theorem C6_pull_side_monotone_witness :
    exJump.m_play_pkt_no = 6 ∧ (PlayBuffer exJump).2.m_play_pkt_no = 41 ∧
    0 < toInt16 (((PlayBuffer exJump).2.m_play_pkt_no : Int) - (exJump.m_play_pkt_no : Int)) :=
  ⟨by decide, by decide,
    (C6_pull_side_monotone exJump
      ⟨0, 1, StreamType.STREAMTYPE_VOICE, exCodec, 500, _, rfl⟩).1 (by decide)⟩

theorem PlayBuffer_catchup_stop (m : Int) (n : Nat) (s : AudioPlayer)
    (h : ¬ (s.m_stream_id ≠ 0 ∧ GetBufferedAudioMSec s > m)) :
    PlayBuffer_catchup m n s = s := by
  cases n with
  | zero => rfl
  | succ n => simp only [PlayBuffer_catchup]; rw [if_neg h]

/-- The estimate for a buffer holding only the packet at the cursor is one
callback. -/
theorem GetBufferedAudioMSec_single (s : AudioPlayer) (f : encframe)
    (hb : s.m_buffer = [(s.m_play_pkt_no, f)]) :
    GetBufferedAudioMSec s = GetAudioCodecCbMillis s.m_codec := by
  unfold GetBufferedAudioMSec toInt16 mapRBegin
  rw [hb]
  simp only [List.length_singleton, List.getLast?_singleton, Option.map_some',
    Option.getD_some, sub_self]
  split_ifs <;> simp_all

/-- C7 (as stated) fails: with the budget lowered to one callback the first
packet after `Reset` is stored, but the next `PlayBuffer` evicts it in the
catch-up loop (20 ms buffered exceeds the 10 ms pull-side limit) and conceals
instead of decoding; `m_played_packet_time` stays 0. -/
theorem C7_counterexample :
    Reachable exTight ∧
    mapKeys (AddPacket (Reset exTight) (exPacket 5 7)).m_buffer = [5] ∧
    PlayBuffer_decoded (AddPacket (Reset exTight) (exPacket 5 7)) = false ∧
    (PlayBuffer (AddPacket (Reset exTight) (exPacket 5 7))).2.m_played_packet_time = 0 ∧
    (exPacket 5 7).GetTime = 1005 :=
  ⟨⟨0, 1, StreamType.STREAMTYPE_VOICE, exCodec, 500, _, rfl⟩,
    by decide, by decide, by decide, by decide⟩

/-- C7 (amended): in every reachable state, after `Reset()` the first
`AddPacket` of a packet with nonzero stream id, non-empty payload and (when
provided) frame sizes summing to the payload length sets `m_play_pkt_no` and
`m_stream_id` from the packet and leaves exactly one slot, keyed by the packet
number, holding the packet's payload, timestamp and stream id. When one
callback fits the pull-side limit (`m_buffer_msec / 2` for voice), the next
`PlayBuffer` decodes that slot and sets `m_played_packet_time` to the packet's
timestamp. -/
theorem C7_stream_restart (s : AudioPlayer) (hs : Reachable s) (p : AudioPacket)
    (enc : List Nat) (henc : p.enc = some enc) (h0 : enc ≠ []) (hz : p.GetStreamID ≠ 0)
    (hm : sizesOK p enc = true) :
    (AddPacket (Reset s) p).m_play_pkt_no = p.GetPacketNumber ∧
    (AddPacket (Reset s) p).m_stream_id = p.GetStreamID ∧
    (∃ slot, (AddPacket (Reset s) p).m_buffer = [(p.GetPacketNumber, slot)] ∧
      slot.enc_frames = enc ∧ slot.timestamp = p.GetTime ∧
      slot.stream_id = p.GetStreamID) ∧
    (GetAudioCodecCbMillis s.m_codec ≤ maxbuf_msec s →
      (PlayBuffer (AddPacket (Reset s) p)).1 = true ∧
      PlayBuffer_decoded (AddPacket (Reset s) p) = true ∧
      (PlayBuffer (AddPacket (Reset s) p)).2.m_played_packet_time = p.GetTime) := by
  have hinv := Inv_Reset s (Inv_of_Reachable s hs)
  have hlen : enc.length ≠ 0 := fun h => h0 (List.length_eq_zero.1 h)
  have ha : Admitted (Reset s) p enc :=
    ⟨henc, hlen, hz, fun h => h.1 rfl, hm⟩
  have heq := AddPacket_idle (Reset s) p enc ha rfl rfl hinv.budget
  generalize AddPacket (Reset s) p = t at *
  have hbuf : t.m_buffer =
      [(t.m_play_pkt_no, storedSlot (Reset s).m_codec p enc encframe.empty)] := by
    rw [heq]
  have hplay : t.m_play_pkt_no = p.GetPacketNumber := by rw [heq]
  have hsid : t.m_stream_id = p.GetStreamID := by rw [heq]
  refine ⟨hplay, hsid, ⟨_, by rw [hbuf, hplay], rfl, rfl, rfl⟩, ?_⟩
  intro hfit
  have hne : t.m_buffer ≠ [] := by rw [hbuf]; exact List.cons_ne_nil _ _
  have hmax : maxbuf_msec t = maxbuf_msec s := by rw [heq]; rfl
  have hcod : t.m_codec = s.m_codec := by rw [heq]; rfl
  have hstop : PlayBuffer_catchup (maxbuf_msec t) t.m_buffer.length t = t := by
    apply PlayBuffer_catchup_stop
    intro hc
    rw [GetBufferedAudioMSec_single t _ hbuf, hmax, hcod] at hc
    exact absurd hfit (not_le.2 hc.2)
  have hfind : mapFind t.m_play_pkt_no t.m_buffer =
      some (storedSlot (Reset s).m_codec p enc encframe.empty) := by
    rw [hbuf]; simp [mapFind]
  have hdec : DecodeFrame (storedSlot (Reset s).m_codec p enc encframe.empty) = true := by
    unfold DecodeFrame storedSlot
    simpa using hlen
  refine ⟨?_, ?_, ?_⟩
  · rw [PlayBuffer_nonempty t hne]
  · rw [PlayBuffer_decoded_nonempty t hne, hstop, hfind]
    exact hdec
  · rw [PlayBuffer_nonempty t hne, hstop]
    obtain ⟨m, hmx⟩ := PlayBuffer_mux_frame true (PlayBuffer_decode t)
    rw [hmx, PlayBuffer_decode_eq, hfind]
    simp only [Option.getD_some, hdec, if_true]
    rfl

/-- C7 (amended), instance: a talkspurt of stream 7 is reset and stream 9
starts at packet 500 with the default 1000 ms budget. -/
theorem C7_stream_restart_witness :
    (AddPacket (Reset exGap) (exPacket 500 9)).m_play_pkt_no = 500 ∧
    (AddPacket (Reset exGap) (exPacket 500 9)).m_stream_id = 9 ∧
    (PlayBuffer (AddPacket (Reset exGap) (exPacket 500 9))).2.m_played_packet_time = 1500 :=
  have h := C7_stream_restart exGap ⟨0, 1, StreamType.STREAMTYPE_VOICE, exCodec, 500, _, rfl⟩
    (exPacket 500 9) [1, 2, 3] rfl (by decide) (by decide) (by decide)
  ⟨h.1, h.2.1, (h.2.2.2 (by decide)).2.2⟩

theorem eraseBegin_begin (s : AudioPlayer) (h : (eraseBegin s).m_buffer ≠ []) :
    mapBegin (eraseBegin s).m_buffer = some (eraseBegin s).m_play_pkt_no := by
  rw [eraseBegin_eq] at h ⊢
  simp only at h ⊢
  cases ht : s.m_buffer.tail with
  | nil => exact absurd ht h
  | cons e t => simp [mapBegin]

theorem AddPacket_evict_begin (n : Nat) (s : AudioPlayer)
    (hs : s.m_buffer ≠ [] → mapBegin s.m_buffer = some s.m_play_pkt_no) :
    (AddPacket_evict n s).m_buffer ≠ [] →
      mapBegin (AddPacket_evict n s).m_buffer = some (AddPacket_evict n s).m_play_pkt_no := by
  induction n generalizing s with
  | zero => exact hs
  | succ n ih =>
    simp only [AddPacket_evict]
    split_ifs with h
    · exact ih _ (eraseBegin_begin s)
    · exact hs

/-- C8: whenever `AddPacket`, in a reachable state, erases at least one
smallest-key slot in its budget loop (the loop condition holds for the state
with the packet stored) and the buffer is non-empty when it returns,
`m_play_pkt_no` equals the key of `begin()`, which is wrap-aware at or below
every surviving key. Scenario E4: with a 200 ms budget and a 20 ms callback,
pushing packets 1..20 without pulling leaves at most 200 ms buffered, smallest
surviving number 11 (at least 10), and the cursor on it. -/
theorem C8_overflow_eviction_on_push :
    (∀ (s : AudioPlayer) (p : AudioPacket) (enc : List Nat),
      Reachable s → Admitted s p enc →
      (GetBufferedAudioMSec (AddPacket_stored s p enc) > (AddPacket_stored s p enc).m_buffer_msec ∧
        (AddPacket_stored s p enc).m_buffer.length ≠ 0) →
      (AddPacket s p).m_buffer ≠ [] →
      mapBegin (AddPacket s p).m_buffer = some (AddPacket s p).m_play_pkt_no ∧
      ∀ k ∈ mapKeys (AddPacket s p).m_buffer,
        W16_GEQ k (AddPacket s p).m_play_pkt_no = true) ∧
    (GetBufferedAudioMSec exOverflow ≤ 200 ∧
      mapBegin exOverflow.m_buffer = some 11 ∧ 10 ≤ 11 ∧
      exOverflow.m_play_pkt_no = 11 ∧
      mapKeys exOverflow.m_buffer = [11, 12, 13, 14, 15, 16, 17, 18, 19, 20]) := by
  refine ⟨?_, by decide, by decide, by decide, by decide, by decide⟩
  intro s p enc hs ha hloop hne
  have hinv := Inv_of_Reachable s hs
  have hinv2 := Inv_AddPacket s p hinv
  refine ⟨?_, ?_⟩
  · by_cases hi : s.m_stream_id = 0
    · exfalso
      have heq := AddPacket_idle s p enc ha hi (hinv.idle hi) hinv.budget
      have h1 : (AddPacket_stored s p enc).m_stream_id = 0 := hi
      have h2 : (AddPacket_stored s p enc).m_buffer.length = 1 := by
        unfold AddPacket_stored
        simp only [hinv.idle hi, mapUpdate_nil, List.length_singleton]
      rw [GetBufferedAudioMSec_idle _ h1, h2] at hloop
      have hb := hinv.budget
      have h3 : (AddPacket_stored s p enc).m_buffer_msec = s.m_buffer_msec := rfl
      have h4 : (AddPacket_stored s p enc).m_codec = s.m_codec := rfl
      rw [h3, h4] at hloop
      simp only [Nat.cast_one, one_mul] at hloop
      exact absurd hb (not_le.2 hloop.1)
    · have hstream : (AddPacket_evict (AddPacket_stored s p enc).m_buffer.length
          (AddPacket_stored s p enc)).m_stream_id ≠ 0 := by
        rw [AddPacket_evict_stream]; exact hi
      rw [AddPacket_admitted s p enc ha, if_neg hstream] at hne ⊢
      obtain ⟨n, hn⟩ : ∃ n, (AddPacket_stored s p enc).m_buffer.length = n + 1 :=
        Nat.exists_eq_succ_of_ne_zero hloop.2
      rw [hn] at hne ⊢
      simp only [AddPacket_evict] at hne ⊢
      rw [if_pos hloop] at hne ⊢
      exact AddPacket_evict_begin n _ (eraseBegin_begin _) hne
  · intro k hk
    have h := hinv2.keys.1 k hk
    unfold W16_GEQ
    rw [decide_eq_true_iff, toInt16_sub _ _ hinv2.play_lt h.1, if_pos h.2]
    omega

/-- C8, instance: packets 1..10 fill the 200 ms budget; pushing packet 11
erases packet 1 and moves the cursor to packet 2. -/
theorem C8_overflow_eviction_on_push_witness :
    Admitted exFull (exPacket 11 7) [1, 2, 3] ∧
    mapBegin (AddPacket exFull (exPacket 11 7)).m_buffer = some 2 ∧
    mapBegin (AddPacket exFull (exPacket 11 7)).m_buffer =
      some (AddPacket exFull (exPacket 11 7)).m_play_pkt_no :=
  ⟨by decide, by decide,
    (C8_overflow_eviction_on_push.1 exFull (exPacket 11 7) [1, 2, 3]
      ⟨0, 1, StreamType.STREAMTYPE_VOICE, exCodec, 500, _, rfl⟩ (by decide) (by decide)
      (by decide)).1⟩

theorem AddPacket_zero_stream_buffer (s : AudioPlayer) (p : AudioPacket)
    (hz : p.GetStreamID = 0) : (AddPacket s p).m_buffer = s.m_buffer := by
  cases henc : p.enc with
  | none => rw [AddPacket_null s p henc]
  | some enc =>
    by_cases h0 : enc.length = 0
    · rw [AddPacket_empty s p enc henc h0]
    · rw [AddPacket_zero_stream s p enc henc h0 hz]

/-- C9: in every reachable state every slot of the jitter buffer has a
nonzero stream id and a non-empty encoded payload; pushing a packet with
stream id 0, through `AddPacket` or as an unfragmented packet through
`QueuePacket`, leaves the jitter buffer as it was. -/
theorem C9_no_zero_stream_slot :
    (∀ s : AudioPlayer, Reachable s →
      ∀ e ∈ s.m_buffer, e.2.stream_id ≠ 0 ∧ e.2.enc_frames ≠ []) ∧
    (∀ (s : AudioPlayer) (p : AudioPacket), p.GetStreamID = 0 →
      (AddPacket s p).m_buffer = s.m_buffer ∧
      (p.has_fragments = false → (QueuePacket s p).2.m_buffer = s.m_buffer)) := by
  refine ⟨fun s hs => (Inv_of_Reachable s hs).slots, ?_⟩
  intro s p hz
  refine ⟨AddPacket_zero_stream_buffer s p hz, ?_⟩
  intro hf
  unfold QueuePacket
  rw [if_pos hf]
  exact AddPacket_zero_stream_buffer s p hz

/-- C9, instance: the slots of the run buffered across the 16-bit boundary,
and a push of a packet with stream id 0 into that state. -/
theorem C9_no_zero_stream_slot_witness :
    (∀ e ∈ exWrap.m_buffer, e.2.stream_id ≠ 0 ∧ e.2.enc_frames ≠ []) ∧
    (AddPacket exWrap (exPacket 5 0)).m_buffer = exWrap.m_buffer :=
  ⟨C9_no_zero_stream_slot.1 exWrap ⟨0, 1, StreamType.STREAMTYPE_VOICE, exCodec, 500, _, rfl⟩,
    (C9_no_zero_stream_slot.2 exWrap (exPacket 5 0) rfl).1⟩

/-- C10 (as stated) fails: in the state whose cursor is 101 the late packet
100 is dropped, but the received counter goes from 2 to 3. -/
theorem C10_counterexample :
    Reachable exGap ∧ exGap.m_stream_id ≠ 0 ∧
    W16_LT (exPacket 100 7).GetPacketNumber exGap.m_play_pkt_no = true ∧
    exGap.m_audiopackets_recv = 2 ∧
    (AddPacket exGap (exPacket 100 7)).m_audiopackets_recv = 3 :=
  ⟨⟨0, 1, StreamType.STREAMTYPE_VOICE, exCodec, 500, _, rfl⟩,
    by decide, by decide, by decide, by decide⟩

/-- C10 (amended): in every active state (`m_stream_id != 0`), `AddPacket` of
a packet whose number is wrap-aware less than `m_play_pkt_no` drops the packet:
the jitter buffer, `m_play_pkt_no` and `m_stream_id` are unchanged and the lost
and audio-block counters are not incremented; the received counter is
incremented by one when the packet carries a non-empty payload, and unchanged
otherwise. -/
theorem C10_late_packet_dropped (s : AudioPlayer) (p : AudioPacket)
    (ha : s.m_stream_id ≠ 0)
    (hl : W16_LT p.GetPacketNumber s.m_play_pkt_no = true) :
    (AddPacket s p).m_buffer = s.m_buffer ∧
    (AddPacket s p).m_play_pkt_no = s.m_play_pkt_no ∧
    (AddPacket s p).m_stream_id = s.m_stream_id ∧
    (AddPacket s p).m_audiopacket_lost = s.m_audiopacket_lost ∧
    (AddPacket s p).m_new_audio_blocks = s.m_new_audio_blocks ∧
    (AddPacket s p).m_audiopackets_recv =
      s.m_audiopackets_recv + (if (p.enc.getD []).length ≠ 0 then 1 else 0) := by
  cases henc : p.enc with
  | none => rw [AddPacket_null s p henc]; simp
  | some enc =>
    by_cases h0 : enc.length = 0
    · rw [AddPacket_empty s p enc henc h0]; simp [h0]
    · rw [AddPacket_late s p enc henc h0 ha hl]; simp [h0]

/-- C10 (amended), instance: the late packet 100 in the state whose cursor is
101. -/
theorem C10_late_packet_dropped_witness :
    (AddPacket exGap (exPacket 100 7)).m_buffer = exGap.m_buffer ∧
    (AddPacket exGap (exPacket 100 7)).m_play_pkt_no = 101 ∧
    (AddPacket exGap (exPacket 100 7)).m_audiopackets_recv = 2 + 1 :=
  have h := C10_late_packet_dropped exGap (exPacket 100 7) (by decide) (by decide)
  ⟨h.1, h.2.1, h.2.2.2.2.2⟩

theorem mapInsert_append_of_max {β : Type} (k : Nat) (v : β) (b : List (Nat × β))
    (h : ∀ k1 ∈ mapKeys b, W16_LT k k1 = false) : mapInsert k v b = b ++ [(k, v)] := by
  induction b with
  | nil => rfl
  | cons e t ih =>
    obtain ⟨k1, v1⟩ := e
    have h1 : W16_LT k k1 = false := h k1 (by simp [mapKeys])
    have h2 : ∀ k2 ∈ mapKeys t, W16_LT k k2 = false :=
      fun k2 hk2 => h k2 (by simp [mapKeys_cons, hk2])
    simp only [mapInsert, h1, Bool.false_eq_true, if_false, ih h2, List.cons_append]

theorem mapModify_of_not_mem {β : Type} (k : Nat) (f : β → β) (b : List (Nat × β))
    (hn : k ∉ mapKeys b) : mapModify k f b = b := by
  unfold mapModify
  conv_rhs => rw [← List.map_id b]
  apply List.map_congr_left
  intro e he
  have : e.1 ≠ k := fun h => hn (h ▸ List.mem_map_of_mem Prod.fst he)
  simp [this]

theorem mapUpdate_append_of_max {β : Type} (d : β) (k : Nat) (f : β → β) (b : List (Nat × β))
    (hn : k ∉ mapKeys b) (h : ∀ k1 ∈ mapKeys b, W16_LT k k1 = false) :
    mapUpdate d k f b = b ++ [(k, f d)] := by
  unfold mapUpdate mapIndex
  rw [(mapFind_none_iff k b).2 hn]
  simp only
  rw [mapInsert_append_of_max k d b h]
  unfold mapModify
  rw [List.map_append]
  congr 1
  · exact mapModify_of_not_mem k f b hn
  · simp

theorem mapRBegin_append {β : Type} (b : List (Nat × β)) (e : Nat × β) :
    mapRBegin (b ++ [e]) = some e.1 := by
  unfold mapRBegin
  simp

theorem runEntries_succ_last (c : AudioCodec) (pk : Nat → AudioPacket) (keep : Nat → Bool)
    (lo len : Nat) :
    runEntries c pk keep lo (len + 1) =
      runEntries c pk keep lo len ++
        (if keep (lo + len) = true then
          [((pk (lo + len)).GetPacketNumber,
            storedSlot c (pk (lo + len)) ((pk (lo + len)).enc.getD []) encframe.empty)]
        else []) := by
  unfold runEntries
  rw [List.range'_concat, List.filter_append, List.map_append]
  congr 1
  by_cases h : keep (lo + len) = true
  · simp [h]
  · simp [h]

theorem runEntries_succ_first (c : AudioCodec) (pk : Nat → AudioPacket) (keep : Nat → Bool)
    (lo len : Nat) :
    runEntries c pk keep lo (len + 1) =
      (if keep lo = true then
          [((pk lo).GetPacketNumber,
            storedSlot c (pk lo) ((pk lo).enc.getD []) encframe.empty)]
        else []) ++ runEntries c pk keep (lo + 1) len := by
  unfold runEntries
  rw [List.range'_succ, List.filter_cons]
  by_cases h : keep lo = true
  · simp [h]
  · simp [h]

theorem mem_keys_runEntries (c : AudioCodec) (pk : Nat → AudioPacket) (keep : Nat → Bool)
    (lo len k : Nat) (hk : k ∈ mapKeys (runEntries c pk keep lo len)) :
    ∃ i, lo ≤ i ∧ i < lo + len ∧ k = (pk i).GetPacketNumber := by
  unfold runEntries mapKeys at hk
  simp only [List.map_map, List.mem_map, List.mem_filter, List.mem_range'_1,
    Function.comp_apply] at hk
  obtain ⟨i, ⟨⟨h1, h2⟩, _⟩, h3⟩ := hk
  exact ⟨i, h1, h2, h3.symm⟩

theorem runEntries_zero (c : AudioCodec) (pk : Nat → AudioPacket) (keep : Nat → Bool)
    (lo : Nat) : runEntries c pk keep lo 0 = [] := rfl

theorem maxbuf_le_budget (s : AudioPlayer) (h : 0 ≤ s.m_buffer_msec) :
    maxbuf_msec s ≤ s.m_buffer_msec := by
  unfold maxbuf_msec
  cases s.m_streamtype with
  | STREAMTYPE_VOICE =>
    show Int.tdiv s.m_buffer_msec 2 ≤ s.m_buffer_msec
    rw [Int.tdiv_eq_ediv h (by omega)]
    exact Int.ediv_le_self 2 h
  | STREAMTYPE_MEDIAFILE_AUDIO => exact le_refl _
  | STREAMTYPE_OTHER => exact le_refl _

/-- In a run state whose highest packet is present, the buffered estimate is
at most one callback per remaining packet of the run. -/
theorem RunState_buffered_le (s0 : AudioPlayer) (a sid : Nat) (pk : Nat → AudioPacket)
    (keep : Nat → Bool) (n lo len : Nat) (t : AudioPlayer)
    (hr : RunSetup s0 a sid pk n) (ht : RunState s0 a sid pk keep lo (len + 1) t)
    (hlast : keep (lo + len) = true) (hle : lo + len + 1 ≤ n) :
    GetBufferedAudioMSec t ≤ ((len + 1 : Nat) : Int) * GetAudioCodecCbMillis s0.m_codec := by
  have hcb := cb_nonneg s0.m_codec
  have hn := hr.n_le
  unfold GetBufferedAudioMSec
  rw [ht.codec]
  simp only
  split_ifs with hc
  · rw [ht.buf, runEntries_succ_last, if_pos hlast, mapRBegin_append, ht.play]
    simp only [Option.getD_some]
    rw [(hr.pkts (lo + len) (by omega)).1]
    have h1 : toInt16 ((((a + (lo + len)) % 65536 : Nat) : Int) - (((a + lo) % 65536 : Nat) : Int))
        = (len : Int) := by
      unfold toInt16
      split_ifs <;> omega
    rw [h1]
    have h2 : toInt16 ((len : Int) + 1) ≤ ((len + 1 : Nat) : Int) := by
      unfold toInt16
      split_ifs <;> omega
    calc GetAudioCodecCbMillis s0.m_codec * toInt16 ((len : Int) + 1)
        ≤ GetAudioCodecCbMillis s0.m_codec * ((len + 1 : Nat) : Int) :=
          mul_le_mul_of_nonneg_left h2 hcb
      _ = ((len + 1 : Nat) : Int) * GetAudioCodecCbMillis s0.m_codec := mul_comm _ _
  · rw [ht.buf]
    have hlen : (runEntries s0.m_codec pk keep lo (len + 1)).length ≤ len + 1 := by
      unfold runEntries
      rw [List.length_map]
      exact le_trans (List.length_filter_le _ _) (by simp)
    exact mul_le_mul_of_nonneg_right (by exact_mod_cast hlen) hcb

theorem RunSetup_le_budget (s0 : AudioPlayer) (a sid : Nat) (pk : Nat → AudioPacket)
    (n m : Nat) (hr : RunSetup s0 a sid pk n) (hm : m ≤ n) :
    (m : Int) * GetAudioCodecCbMillis s0.m_codec ≤ maxbuf_msec s0 ∧
    (m : Int) * GetAudioCodecCbMillis s0.m_codec ≤ s0.m_buffer_msec := by
  have hcb := cb_nonneg s0.m_codec
  have h1 : (m : Int) * GetAudioCodecCbMillis s0.m_codec ≤
      (n : Int) * GetAudioCodecCbMillis s0.m_codec :=
    mul_le_mul_of_nonneg_right (by exact_mod_cast hm) hcb
  have h2 := le_trans h1 hr.fits
  exact ⟨h2, le_trans h2 (maxbuf_le_budget s0 (le_trans hcb hr.budget_ok))⟩

theorem RunPacket_enc (a sid : Nat) (pk : Nat → AudioPacket) (i : Nat)
    (h : RunPacket a sid pk i) :
    (pk i).enc = some ((pk i).enc.getD []) ∧ ((pk i).enc.getD []).length ≠ 0 ∧
    sizesOK (pk i) ((pk i).enc.getD []) = true := by
  obtain ⟨_, _, enc, h1, h2, h3⟩ := h
  rw [h1]
  exact ⟨rfl, fun h => h2 (List.length_eq_zero.1 h), h3⟩

/-- Pushing the next kept packet of the run appends its slot and evicts
nothing. -/
theorem RunState_push (s0 : AudioPlayer) (a sid : Nat) (pk : Nat → AudioPacket)
    (keep : Nat → Bool) (n m : Nat) (t : AudioPlayer)
    (hr : RunSetup s0 a sid pk n) (ht : RunState s0 a sid pk keep 0 m t)
    (hm : m < n) (hk : keep m = true) :
    RunState s0 a sid pk keep 0 (m + 1) (AddPacket t (pk m)) := by
  have hp := hr.pkts m hm
  obtain ⟨henc, hlen, hsz⟩ := RunPacket_enc a sid pk m hp
  have hn := hr.n_le
  have hnl : ¬ (t.m_stream_id ≠ 0 ∧ W16_LT (pk m).GetPacketNumber t.m_play_pkt_no = true) := by
    intro h
    have h2 := h.2
    rw [hp.1, ht.play] at h2
    unfold W16_LT toInt16 at h2
    rw [decide_eq_true_iff] at h2
    split_ifs at h2 <;> omega
  have ha : Admitted t (pk m) ((pk m).enc.getD []) :=
    ⟨henc, hlen, by rw [hp.2.1]; exact hr.sid_ne, hnl, hsz⟩
  have hstored : (AddPacket_stored t (pk m) ((pk m).enc.getD [])).m_buffer =
      runEntries s0.m_codec pk keep 0 (m + 1) := by
    unfold AddPacket_stored
    simp only
    rw [runEntries_succ_last, if_pos (by simpa using hk), ht.buf, ht.codec]
    simp only [Nat.zero_add]
    apply mapUpdate_append_of_max
    · intro hmem
      obtain ⟨i, _, hi2, hi3⟩ := mem_keys_runEntries _ _ _ _ _ _ hmem
      rw [hp.1, (hr.pkts i (by omega)).1] at hi3
      omega
    · intro k1 hmem
      obtain ⟨i, _, hi2, hi3⟩ := mem_keys_runEntries _ _ _ _ _ _ hmem
      rw [(hr.pkts i (by omega)).1] at hi3
      rw [hi3, hp.1]
      unfold W16_LT toInt16
      rw [decide_eq_false_iff_not]
      split_ifs <;> omega
  have hst : RunState s0 a sid pk keep 0 (m + 1)
      (AddPacket_stored t (pk m) ((pk m).enc.getD [])) :=
    ⟨hstored, ht.play, ht.stream, ht.codec, ht.budget, ht.stype⟩
  have hstop : AddPacket_evict (AddPacket_stored t (pk m) ((pk m).enc.getD [])).m_buffer.length
      (AddPacket_stored t (pk m) ((pk m).enc.getD [])) =
      AddPacket_stored t (pk m) ((pk m).enc.getD []) := by
    apply AddPacket_evict_stop
    intro hc
    have h1 := RunState_buffered_le s0 a sid pk keep n 0 m _ hr hst (by simpa using hk)
      (by omega)
    have h2 := (RunSetup_le_budget s0 a sid pk n (m + 1) hr (by omega)).2
    have h3 : (AddPacket_stored t (pk m) ((pk m).enc.getD [])).m_buffer_msec =
        s0.m_buffer_msec := ht.budget
    rw [h3] at hc
    exact absurd (le_trans h1 h2) (not_le.2 hc.1)
  rw [AddPacket_admitted t (pk m) _ ha, hstop]
  have hsne : (AddPacket_stored t (pk m) ((pk m).enc.getD [])).m_stream_id ≠ 0 := by
    show t.m_stream_id ≠ 0
    rw [ht.stream]; exact hr.sid_ne
  rw [if_neg hsne]
  exact hst

theorem mapErase_cons_self {β : Type} (k : Nat) (v : β) (b : List (Nat × β))
    (hn : k ∉ mapKeys b) : mapErase k ((k, v) :: b) = b := by
  have h := mapErase_of_not_mem k b hn
  unfold mapErase at h ⊢
  rw [List.filter_cons]
  simp only [ne_eq, not_true_eq_false, decide_False, Bool.false_eq_true, if_false]
  exact h

/-- One `PlayBuffer` call in a run state whose highest packet is present:
the call returns true, nothing is evicted, the packet at the cursor is decoded
when it was kept and concealed (one more lost packet) when it was omitted. -/
theorem RunState_play (s0 : AudioPlayer) (a sid : Nat) (pk : Nat → AudioPacket)
    (keep : Nat → Bool) (n lo len : Nat) (t : AudioPlayer)
    (hr : RunSetup s0 a sid pk n) (ht : RunState s0 a sid pk keep lo (len + 1) t)
    (hlast : keep (lo + len) = true) (hle : lo + len + 1 ≤ n) :
    (PlayBuffer t).1 = true ∧
    RunState s0 a sid pk keep (lo + 1) len (PlayBuffer t).2 ∧
    (PlayBuffer t).2.m_audiopacket_lost =
      t.m_audiopacket_lost + (if keep lo = true then 0 else 1) ∧
    (PlayBuffer t).2.m_audiopackets_recv = t.m_audiopackets_recv := by
  have hn := hr.n_le
  have hne : t.m_buffer ≠ [] := by
    rw [ht.buf, runEntries_succ_last, if_pos hlast]
    exact List.append_ne_nil_of_right_ne_nil _ (List.cons_ne_nil _ _)
  have hmax : maxbuf_msec t = maxbuf_msec s0 := by
    unfold maxbuf_msec; rw [ht.stype, ht.budget]
  have hstop : PlayBuffer_catchup (maxbuf_msec t) t.m_buffer.length t = t := by
    apply PlayBuffer_catchup_stop
    intro hc
    have h1 := RunState_buffered_le s0 a sid pk keep n lo len t hr ht hlast hle
    have h2 := (RunSetup_le_budget s0 a sid pk n (len + 1) hr (by omega)).1
    rw [hmax] at hc
    exact absurd (le_trans h1 h2) (not_le.2 hc.2)
  have hrest : t.m_play_pkt_no ∉ mapKeys (runEntries s0.m_codec pk keep (lo + 1) len) := by
    intro hmem
    obtain ⟨i, hi1, hi2, hi3⟩ := mem_keys_runEntries _ _ _ _ _ _ hmem
    rw [ht.play, (hr.pkts i (by omega)).1] at hi3
    omega
  have hplay : (t.m_play_pkt_no + 1) % 65536 = (a + (lo + 1)) % 65536 := by
    rw [ht.play]; omega
  have hp := hr.pkts lo (by omega)
  obtain ⟨henc, hlen, _⟩ := RunPacket_enc a sid pk lo hp
  rw [PlayBuffer_nonempty t hne, hstop]
  obtain ⟨m, hm⟩ := PlayBuffer_mux_frame true (PlayBuffer_decode t)
  rw [hm, PlayBuffer_decode_eq]
  by_cases hk : keep lo = true
  · have hbuf : t.m_buffer =
        (t.m_play_pkt_no, storedSlot s0.m_codec (pk lo) ((pk lo).enc.getD []) encframe.empty) ::
          runEntries s0.m_codec pk keep (lo + 1) len := by
      rw [ht.buf, runEntries_succ_first, if_pos hk, ht.play, hp.1]
      rfl
    have hfind : mapFind t.m_play_pkt_no t.m_buffer =
        some (storedSlot s0.m_codec (pk lo) ((pk lo).enc.getD []) encframe.empty) := by
      rw [hbuf]; simp [mapFind]
    have hdec : DecodeFrame
        (storedSlot s0.m_codec (pk lo) ((pk lo).enc.getD []) encframe.empty) = true := by
      unfold DecodeFrame storedSlot
      simpa using hlen
    have herase : mapErase t.m_play_pkt_no t.m_buffer =
        runEntries s0.m_codec pk keep (lo + 1) len := by
      rw [hbuf]; exact mapErase_cons_self _ _ _ hrest
    rw [hfind]
    simp only [Option.getD_some]
    rw [if_pos hdec, if_pos hk]
    refine ⟨trivial, ⟨herase, hplay, ?_, ht.codec, ht.budget, ht.stype⟩, rfl, rfl⟩
    show (pk lo).GetStreamID = sid
    exact hp.2.1
  · have hbuf : t.m_buffer = runEntries s0.m_codec pk keep (lo + 1) len := by
      rw [ht.buf, runEntries_succ_first, if_neg hk]
      rfl
    have hfind : mapFind t.m_play_pkt_no t.m_buffer = none := by
      rw [mapFind_none_iff, hbuf]; exact hrest
    have herase : mapErase t.m_play_pkt_no t.m_buffer =
        runEntries s0.m_codec pk keep (lo + 1) len := by
      rw [hbuf]; exact mapErase_of_not_mem _ _ hrest
    rw [hfind]
    simp only [Option.getD_none]
    rw [if_neg (by simp [DecodeFrame_empty]), if_neg hk]
    exact ⟨trivial, ⟨herase, hplay, ht.stream, ht.codec, ht.budget, ht.stype⟩, rfl, rfl⟩

theorem playN_zero (t : AudioPlayer) : playN 0 t = ([], t) := rfl

theorem playN_succ (k : Nat) (t : AudioPlayer) :
    playN (k + 1) t =
      ((PlayBuffer t).1 :: (playN k (PlayBuffer t).2).1, (playN k (PlayBuffer t).2).2) := rfl

/-- The number of omitted packets among the indices `lo .. lo + k - 1`. -/
theorem omitted_succ (keep : Nat → Bool) (lo k : Nat) :
    ((List.range' lo (k + 1)).filter (fun i => !keep i)).length =
      (if keep lo = true then 0 else 1) +
        ((List.range' (lo + 1) k).filter (fun i => !keep i)).length := by
  rw [List.range'_succ, List.filter_cons]
  by_cases h : keep lo = true
  · simp [h]
  · simp [h]; omega

/-- Playing `k` callbacks from a run state: all calls return true, the
cursor advances by `k`, and the lost counter grows by the number of omitted
packets among those played. -/
theorem RunState_playN (s0 : AudioPlayer) (a sid : Nat) (pk : Nat → AudioPacket)
    (keep : Nat → Bool) (n : Nat) (hr : RunSetup s0 a sid pk n) (hn1 : 1 ≤ n)
    (hlast : keep (n - 1) = true) (k : Nat) :
    ∀ (lo : Nat) (t : AudioPlayer), lo + k ≤ n →
      RunState s0 a sid pk keep lo (n - lo) t →
      (playN k t).1 = List.replicate k true ∧
      RunState s0 a sid pk keep (lo + k) (n - (lo + k)) (playN k t).2 ∧
      (playN k t).2.m_audiopacket_lost =
        t.m_audiopacket_lost + ((List.range' lo k).filter (fun i => !keep i)).length ∧
      (playN k t).2.m_audiopackets_recv = t.m_audiopackets_recv := by
  induction k with
  | zero =>
    intro lo t _ ht
    exact ⟨rfl, ht, rfl, rfl⟩
  | succ k ih =>
    intro lo t hle ht
    have hlen : n - lo = (n - lo - 1) + 1 := by omega
    rw [hlen] at ht
    have hl2 : keep (lo + (n - lo - 1)) = true := by
      have : lo + (n - lo - 1) = n - 1 := by omega
      rw [this]; exact hlast
    obtain ⟨h1, h2, h3, h4⟩ := RunState_play s0 a sid pk keep n lo (n - lo - 1) t hr ht hl2
      (by omega)
    have h2b : RunState s0 a sid pk keep (lo + 1) (n - (lo + 1)) (PlayBuffer t).2 := by
      have : n - (lo + 1) = n - lo - 1 := by omega
      rw [this]; exact h2
    obtain ⟨g1, g2, g3, g4⟩ := ih (lo + 1) (PlayBuffer t).2 (by omega) h2b
    rw [playN_succ]
    refine ⟨?_, ?_, ?_, ?_⟩
    · show (PlayBuffer t).1 :: (playN k (PlayBuffer t).2).1 = _
      rw [h1, g1]; rfl
    · have : lo + (k + 1) = lo + 1 + k := by omega
      rw [this]; exact g2
    · show (playN k (PlayBuffer t).2).2.m_audiopacket_lost = _
      rw [g3, h3, omitted_succ]; omega
    · show (playN k (PlayBuffer t).2).2.m_audiopackets_recv = _
      rw [g4, h4]

theorem AddPacket_recv (s : AudioPlayer) (p : AudioPacket) (enc : List Nat)
    (henc : p.enc = some enc) (h0 : enc.length ≠ 0) :
    (AddPacket s p).m_audiopackets_recv = s.m_audiopackets_recv + 1 := by
  by_cases hz : p.GetStreamID = 0
  · rw [AddPacket_zero_stream s p enc henc h0 hz]
  by_cases hl : s.m_stream_id ≠ 0 ∧ W16_LT p.GetPacketNumber s.m_play_pkt_no = true
  · rw [AddPacket_late s p enc henc h0 hl.1 hl.2]
  cases hm : sizesOK p enc with
  | false => rw [AddPacket_mismatch s p enc henc h0 hz hl hm]
  | true =>
    rw [AddPacket_admitted s p enc ⟨henc, h0, hz, hl, hm⟩]
    obtain ⟨b, q, h⟩ := AddPacket_evict_frame (AddPacket_stored s p enc).m_buffer.length
      (AddPacket_stored s p enc)
    rw [h]
    split_ifs <;> rfl

theorem pushAll_runPushes_succ (s : AudioPlayer) (pk : Nat → AudioPacket) (keep : Nat → Bool)
    (m : Nat) :
    pushAll s (runPushes pk keep (m + 1)) =
      if keep m = true then AddPacket (pushAll s (runPushes pk keep m)) (pk m)
      else pushAll s (runPushes pk keep m) := by
  unfold pushAll runPushes
  rw [List.range_succ, List.filter_append, List.map_append, List.foldl_append]
  by_cases h : keep m = true
  · simp [h]
  · simp [h]

theorem runPushes_length_succ (pk : Nat → AudioPacket) (keep : Nat → Bool) (m : Nat) :
    (runPushes pk keep (m + 1)).length =
      (runPushes pk keep m).length + (if keep m = true then 1 else 0) := by
  unfold runPushes
  rw [List.range_succ, List.filter_append, List.map_append, List.length_append]
  by_cases h : keep m = true
  · simp [h]
  · simp [h]

/-- Pushing the kept packets of the first `m` indices of a run into an idle
player: the buffer holds exactly those packets, the cursor is on the first
number, the received counter counts the pushes, nothing is lost. -/
theorem RunState_pushes (s0 : AudioPlayer) (a sid : Nat) (pk : Nat → AudioPacket)
    (keep : Nat → Bool) (n : Nat) (hr : RunSetup s0 a sid pk n)
    (hidle : s0.m_stream_id = 0) (hempty : s0.m_buffer = []) (hfirst : keep 0 = true)
    (m : Nat) (hm : m + 1 ≤ n) :
    RunState s0 a sid pk keep 0 (m + 1) (pushAll s0 (runPushes pk keep (m + 1))) ∧
    (pushAll s0 (runPushes pk keep (m + 1))).m_audiopackets_recv =
      s0.m_audiopackets_recv + (runPushes pk keep (m + 1)).length ∧
    (pushAll s0 (runPushes pk keep (m + 1))).m_audiopacket_lost = s0.m_audiopacket_lost := by
  induction m with
  | zero =>
    have hp := hr.pkts 0 (by omega)
    obtain ⟨henc, hlen, hsz⟩ := RunPacket_enc a sid pk 0 hp
    have ha : Admitted s0 (pk 0) ((pk 0).enc.getD []) :=
      ⟨henc, hlen, by rw [hp.2.1]; exact hr.sid_ne, fun h => h.1 hidle, hsz⟩
    have hpush : pushAll s0 (runPushes pk keep (0 + 1)) = AddPacket s0 (pk 0) := by
      rw [pushAll_runPushes_succ, if_pos hfirst]; rfl
    have hlen1 : (runPushes pk keep (0 + 1)).length = 1 := by
      rw [runPushes_length_succ, if_pos hfirst]; rfl
    rw [hpush, hlen1]
    refine ⟨?_, AddPacket_recv s0 (pk 0) _ henc hlen, AddPacket_lost s0 (pk 0)⟩
    rw [AddPacket_idle s0 (pk 0) _ ha hidle hempty hr.budget_ok]
    refine ⟨?_, hp.1, hp.2.1, rfl, rfl, rfl⟩
    show _ = runEntries s0.m_codec pk keep 0 (0 + 1)
    rw [runEntries_succ_first, if_pos hfirst]
    rfl
  | succ m ih =>
    obtain ⟨h1, h2, h3⟩ := ih (by omega)
    rw [pushAll_runPushes_succ, runPushes_length_succ pk keep (m + 1)]
    by_cases hk : keep (m + 1) = true
    · rw [if_pos hk, if_pos hk]
      have hp := hr.pkts (m + 1) (by omega)
      obtain ⟨henc, hlen, _⟩ := RunPacket_enc a sid pk (m + 1) hp
      refine ⟨RunState_push s0 a sid pk keep n (m + 1) _ hr h1 (by omega) hk, ?_, ?_⟩
      · rw [AddPacket_recv _ _ _ henc hlen, h2]; omega
      · rw [AddPacket_lost, h3]
    · rw [if_neg hk, if_neg hk]
      refine ⟨?_, by rw [h2]; rfl, h3⟩
      refine ⟨?_, h1.play, h1.stream, h1.codec, h1.budget, h1.stype⟩
      rw [h1.buf, runEntries_succ_last s0.m_codec pk keep 0 (m + 1), if_neg (by simpa using hk)]
      simp

theorem playN_succ_last (k : Nat) (t : AudioPlayer) :
    (playN (k + 1) t).2 = (PlayBuffer (playN k t).2).2 ∧
    (playN (k + 1) t).1 = (playN k t).1 ++ [(PlayBuffer (playN k t).2).1] := by
  induction k generalizing t with
  | zero => exact ⟨rfl, rfl⟩
  | succ k ih =>
    obtain ⟨h1, h2⟩ := ih (PlayBuffer t).2
    rw [playN_succ (k + 1) t]
    refine ⟨h1, ?_⟩
    show (PlayBuffer t).1 :: (playN (k + 1) (PlayBuffer t).2).1 = _
    rw [h2]; rfl

theorem RunPacket_exPacket (a sid i : Nat) :
    RunPacket a sid (fun j => exPacket (a + j) sid) i :=
  ⟨rfl, rfl, [1, 2, 3], rfl, by decide, rfl⟩

/-- A run of `2^15 + 1` packets: the last packet is wrap-aware older than the
cursor and is dropped as late, so the last of `2^15 + 1` calls of `PlayBuffer`
finds the buffer empty. -/
theorem run_over_long (s0 : AudioPlayer) (a sid : Nat) (pk : Nat → AudioPacket)
    (keep : Nat → Bool) (n : Nat) (hr : RunSetup s0 a sid pk n)
    (hidle : s0.m_stream_id = 0) (hempty : s0.m_buffer = []) (hn : n = 32768)
    (hfirst : keep 0 = true) (hlast : keep (n - 1) = true) (hkn : keep n = true)
    (hnext : RunPacket a sid pk n) :
    (playN (n + 1) (pushAll s0 (runPushes pk keep (n + 1)))).2.m_play_pkt_no =
      (a + n) % 65536 ∧
    (playN (n + 1) (pushAll s0 (runPushes pk keep (n + 1)))).1 =
      List.replicate n true ++ [false] := by
  obtain ⟨m, hm⟩ : ∃ m, n = m + 1 := ⟨n - 1, by omega⟩
  obtain ⟨h1, _, _⟩ := RunState_pushes s0 a sid pk keep n hr hidle hempty hfirst m (by omega)
  rw [← hm] at h1
  obtain ⟨henc, hlen, _⟩ := RunPacket_enc a sid pk n hnext
  have hlate : pushAll s0 (runPushes pk keep (n + 1)) =
      AddPacket (pushAll s0 (runPushes pk keep n)) (pk n) := by
    rw [pushAll_runPushes_succ, if_pos hkn]
  have hlate2 := AddPacket_late (pushAll s0 (runPushes pk keep n)) (pk n) _ henc hlen
    (by rw [h1.stream]; exact hr.sid_ne)
    (by
      rw [h1.play, hnext.1]
      unfold W16_LT toInt16
      rw [decide_eq_true_iff]
      split_ifs <;> omega)
  have h2 : RunState s0 a sid pk keep 0 (n - 0) (pushAll s0 (runPushes pk keep (n + 1))) := by
    rw [hlate, hlate2]
    exact ⟨h1.buf, h1.play, h1.stream, h1.codec, h1.budget, h1.stype⟩
  obtain ⟨g1, g2, _, _⟩ := RunState_playN s0 a sid pk keep n hr (by omega) hlast n 0 _
    (by omega) h2
  have hempty2 : (playN n (pushAll s0 (runPushes pk keep (n + 1)))).2.m_buffer = [] := by
    rw [g2.buf]
    have : n - (0 + n) = 0 := by omega
    rw [this]; rfl
  obtain ⟨k1, k2⟩ := playN_succ_last n (pushAll s0 (runPushes pk keep (n + 1)))
  rw [PlayBuffer_of_empty _ hempty2] at k1 k2
  constructor
  · rw [k1]
    obtain ⟨mx, hmx⟩ := PlayBuffer_mux_frame false
      (playN n (pushAll s0 (runPushes pk keep (n + 1)))).2
    rw [hmx]
    show (playN n (pushAll s0 (runPushes pk keep (n + 1)))).2.m_play_pkt_no = _
    rw [g2.play, Nat.zero_add]
  · rw [k2, g1]

theorem RunSetup_exHuge : RunSetup exHuge 0 7 (fun j => exPacket (0 + j) 7) 32768 :=
  ⟨fun i _ => RunPacket_exPacket 0 7 i, le_refl _, by decide, by decide, by decide⟩

/-- C2 (as stated) fails for runs longer than `2^15` packets: with a budget
of 2000 seconds the pull-side limit admits a run of 32769 packets of 20 ms
starting at number 0, none omitted; packet 32768 is wrap-aware older than the
cursor 0 and is dropped as late, so the last of the 32769 `PlayBuffer` calls
finds an empty buffer and returns false, and the cursor ends at 32768, not at
32769. -/
theorem C2_counterexample :
    Reachable exHuge ∧ exHuge.m_stream_id = 0 ∧
    ((32768 + 1 : Nat) : Int) * GetAudioCodecCbMillis exHuge.m_codec ≤ maxbuf_msec exHuge ∧
    (∀ i, i < 32768 + 1 → RunPacket 0 7 (fun j => exPacket (0 + j) 7) i) ∧
    (playN (32768 + 1) (pushAll exHuge
      (runPushes (fun j => exPacket (0 + j) 7) (fun _ => true) (32768 + 1)))).2.m_play_pkt_no =
        (0 + 32768) % 65536 ∧
    (playN (32768 + 1) (pushAll exHuge
      (runPushes (fun j => exPacket (0 + j) 7) (fun _ => true) (32768 + 1)))).1 =
        List.replicate 32768 true ++ [false] ∧
    (0 + 32768) % 65536 ≠ (0 + (32768 + 1)) % 65536 :=
  ⟨⟨0, 1, StreamType.STREAMTYPE_VOICE, exCodec, 500, _, rfl⟩, rfl, by decide,
    fun i _ => RunPacket_exPacket 0 7 i,
    (run_over_long exHuge 0 7 (fun j => exPacket (0 + j) 7) (fun _ => true) 32768
      RunSetup_exHuge rfl rfl rfl rfl rfl rfl (RunPacket_exPacket 0 7 32768)).1,
    (run_over_long exHuge 0 7 (fun j => exPacket (0 + j) 7) (fun _ => true) 32768
      RunSetup_exHuge rfl rfl rfl rfl rfl rfl (RunPacket_exPacket 0 7 32768)).2,
    by decide⟩

/-- C2 (amended): for every start number `a` (runs across the 16-bit boundary
included), every length `1 <= n <= 2^15` with `n * callback_millis` at most the
pull-side limit, and every set of omitted interior numbers, pushing the kept
packets of `a .. a+n-1` (same nonzero stream id, valid payload) in ascending
order into an idle reachable player and then calling `PlayBuffer` `n` times
gives: every call returns true, the lost counter grows by the number of omitted
packets, the received counter grows by the number of pushed packets, and
`m_play_pkt_no` ends at `(a + n) mod 2^16`. Scenarios E1 (100..109: lost 0,
cursor 110) and E2 (104 omitted: lost 1, received 9). -/
theorem C2_run_with_losses :
    (∀ (s : AudioPlayer) (a n sid : Nat) (pk : Nat → AudioPacket) (keep : Nat → Bool),
      Reachable s → s.m_stream_id = 0 → 1 ≤ n → n ≤ 32768 →
      (n : Int) * GetAudioCodecCbMillis s.m_codec ≤ maxbuf_msec s →
      sid ≠ 0 → (∀ i, i < n → RunPacket a sid pk i) →
      keep 0 = true → keep (n - 1) = true →
      (playN n (pushAll s (runPushes pk keep n))).1 = List.replicate n true ∧
      (playN n (pushAll s (runPushes pk keep n))).2.m_audiopacket_lost =
        s.m_audiopacket_lost + ((List.range n).filter (fun i => !keep i)).length ∧
      (playN n (pushAll s (runPushes pk keep n))).2.m_audiopackets_recv =
        s.m_audiopackets_recv + (runPushes pk keep n).length ∧
      (playN n (pushAll s (runPushes pk keep n))).2.m_play_pkt_no = (a + n) % 65536) ∧
    ((playN 10 exE1).1 = List.replicate 10 true ∧
      (playN 10 exE1).2.m_audiopacket_lost = 0 ∧
      (playN 10 exE1).2.m_play_pkt_no = 110) ∧
    ((playN 10 exE2).1 = List.replicate 10 true ∧
      (playN 10 exE2).2.m_audiopacket_lost = 1 ∧
      (playN 10 exE2).2.m_audiopackets_recv = 9) := by
  refine ⟨?_, ⟨by decide, by decide, by decide⟩, ⟨by decide, by decide, by decide⟩⟩
  intro s a n sid pk keep hs hidle hn1 hn hfits hsid hpk hfirst hlast
  have hinv := Inv_of_Reachable s hs
  have hr : RunSetup s a sid pk n := ⟨hpk, hn, hsid, hfits, hinv.budget⟩
  obtain ⟨m, hm⟩ : ∃ m, n = m + 1 := ⟨n - 1, by omega⟩
  obtain ⟨h1, h2, h3⟩ := RunState_pushes s a sid pk keep n hr hidle (hinv.idle hidle) hfirst m
    (by omega)
  rw [← hm] at h1 h2 h3
  have h1b : RunState s a sid pk keep 0 (n - 0) (pushAll s (runPushes pk keep n)) := h1
  obtain ⟨g1, g2, g3, g4⟩ := RunState_playN s a sid pk keep n hr hn1 hlast n 0 _
    (by omega) h1b
  refine ⟨g1, ?_, ?_, ?_⟩
  · rw [g3, h3, List.range_eq_range']
  · rw [g4, h2]
  · rw [g2.play, Nat.zero_add]

/-- C2 (amended), instance: the run 65530..65535, 0..4 across the 16-bit
boundary with packets 65534 and 1 omitted, pushed into a fresh player. -/
theorem C2_run_with_losses_witness :
    (playN 11 (pushAll exPlayer (runPushes (fun j => exPacket (65530 + j) 7)
      (fun i => decide (i ≠ 4 ∧ i ≠ 7)) 11))).1 = List.replicate 11 true ∧
    (playN 11 (pushAll exPlayer (runPushes (fun j => exPacket (65530 + j) 7)
      (fun i => decide (i ≠ 4 ∧ i ≠ 7)) 11))).2.m_audiopacket_lost = 0 + 2 ∧
    (playN 11 (pushAll exPlayer (runPushes (fun j => exPacket (65530 + j) 7)
      (fun i => decide (i ≠ 4 ∧ i ≠ 7)) 11))).2.m_play_pkt_no = 5 :=
  have h := C2_run_with_losses.1 exPlayer 65530 11 7 (fun j => exPacket (65530 + j) 7)
    (fun i => decide (i ≠ 4 ∧ i ≠ 7))
    ⟨0, 1, StreamType.STREAMTYPE_VOICE, exCodec, 500, [], rfl⟩ rfl (by decide) (by decide)
    (by decide) (by decide) (fun i _ => RunPacket_exPacket 65530 7 i) rfl rfl
  ⟨h.1, h.2.1, h.2.2.2⟩

/-- A duplicate of buffered packet 100 without frame sizes, pushed into a
player whose codec has one frame per packet, leaves the key set unchanged and
stores the payload, timestamp and stream id of the packet, but line 371
(`push_back`) appends the payload length to the frame sizes already in the
slot: the slot holds sizes `[3, 3]`, where a fresh slot holds `[3]`. -/
theorem AddPacket_duplicate_appends_frame_size :
    mapKeys exSingle.m_buffer = [100] ∧
    mapKeys exDuplicate.m_buffer = [100] ∧
    mapFind 100 exSingle.m_buffer =
      some { enc_frames := [1, 2, 3], enc_frame_sizes := [3], stream_id := 7,
             timestamp := 1100 } ∧
    mapFind 100 exDuplicate.m_buffer =
      some { enc_frames := [1, 2, 3], enc_frame_sizes := [3, 3], stream_id := 7,
             timestamp := 1100 } ∧
    exDuplicate = AddPacket exSingle (exPacket 100 7) ∧
    Admitted exSingle (exPacket 100 7) [1, 2, 3] := by
  refine ⟨by decide, by decide, by decide, by decide, rfl, by decide⟩

theorem AddPacket_evict_subset (n : Nat) (s : AudioPlayer) :
    ∀ e ∈ (AddPacket_evict n s).m_buffer, e ∈ s.m_buffer := by
  induction n generalizing s with
  | zero => intro e he; exact he
  | succ n ih =>
    intro e he
    simp only [AddPacket_evict] at he
    split_ifs at he with h
    · have h1 := ih (eraseBegin s) e he
      rw [eraseBegin_eq] at h1
      exact List.mem_of_mem_tail h1
    · exact he

theorem AddPacket_admitted_subset (s : AudioPlayer) (p : AudioPacket) (enc : List Nat)
    (ha : Admitted s p enc) :
    ∀ e ∈ (AddPacket s p).m_buffer, e ∈ (AddPacket_stored s p enc).m_buffer := by
  intro e he
  rw [AddPacket_admitted s p enc ha] at he
  split_ifs at he
  · exact AddPacket_evict_subset _ _ e he
  · exact AddPacket_evict_subset _ _ e he

/-- The slots with the key of the pushed packet, in the state in which
`AddPacket` enters its budget loop. -/
theorem mem_AddPacket_stored (s : AudioPlayer) (p : AudioPacket) (enc : List Nat)
    (f : encframe) (hf : (p.GetPacketNumber, f) ∈ (AddPacket_stored s p enc).m_buffer) :
    ∃ v, f = storedSlot s.m_codec p enc v ∧
      (mapFind p.GetPacketNumber s.m_buffer = none → v = encframe.empty) := by
  unfold AddPacket_stored mapUpdate at hf
  simp only at hf
  rcases mem_mapModify _ _ _ _ hf with ⟨v, hv, heq⟩ | ⟨_, hne⟩
  · refine ⟨v, (Prod.mk.inj heq).2, ?_⟩
    intro hnone
    rcases mem_mapIndex _ _ _ _ hv with h | h
    · exact (Prod.mk.inj h).2
    · exfalso
      exact (mapFind_none_iff _ _).1 hnone (List.mem_map_of_mem Prod.fst h)
  · exact absurd rfl hne

/-- C12 (as stated) fails: a codec with two frames of 10 bytes per packet and
a packet without frame sizes whose payload has 3 bytes: the derived sizes
`[10, 10]` are stored without any check against the payload length. -/
theorem C12_counterexample :
    Reachable exPlayerTwoFrames ∧
    Admitted exPlayerTwoFrames (exPacket 100 7) [1, 2, 3] ∧
    mapFind 100 (AddPacket exPlayerTwoFrames (exPacket 100 7)).m_buffer =
      some { enc_frames := [1, 2, 3], enc_frame_sizes := [10, 10], stream_id := 7,
             timestamp := 1100 } ∧
    SumFrameSizes [10, 10] ≠ [1, 2, 3].length :=
  ⟨⟨0, 1, StreamType.STREAMTYPE_VOICE, exCodecTwoFrames, 500, [], rfl⟩,
    by decide, by decide, by decide⟩

/-- C12 (amended): for every state and every packet that `AddPacket` admits,
a slot held under the packet's number when `AddPacket` returns holds the
packet's payload, and `sum(enc_frame_sizes) == length(enc_frames)` holds for
it when the packet supplied its per-frame sizes, and when a single size was
derived for a number that was not buffered before; when the sizes are derived
as `frames_per_packet` copies of `encoded_frame_size` they are stored as such,
so the sum equals the payload length exactly when the payload has
`frames_per_packet * encoded_frame_size` bytes. -/
theorem C12_frame_sizes_of_stored_slot (s : AudioPlayer) (p : AudioPacket) (enc : List Nat)
    (ha : Admitted s p enc) (f : encframe)
    (hf : (p.GetPacketNumber, f) ∈ (AddPacket s p).m_buffer) :
    f.enc_frames = enc ∧
    (p.frame_sizes ≠ none → SumFrameSizes f.enc_frame_sizes = f.enc_frames.length) ∧
    (p.frame_sizes = none → ¬ s.m_codec.frames_per_packet > 1 →
      mapFind p.GetPacketNumber s.m_buffer = none →
      f.enc_frame_sizes = [enc.length] ∧
      SumFrameSizes f.enc_frame_sizes = f.enc_frames.length) ∧
    (p.frame_sizes = none → s.m_codec.frames_per_packet > 1 →
      f.enc_frame_sizes =
        List.replicate s.m_codec.frames_per_packet s.m_codec.enc_frame_size ∧
      (SumFrameSizes f.enc_frame_sizes = f.enc_frames.length ↔
        s.m_codec.frames_per_packet * s.m_codec.enc_frame_size = enc.length)) := by
  obtain ⟨v, hv, hfresh⟩ := mem_AddPacket_stored s p enc f
    (AddPacket_admitted_subset s p enc ha _ hf)
  subst hv
  refine ⟨rfl, ?_, ?_, ?_⟩
  · intro hsome
    cases hfs : p.frame_sizes with
    | none => exact absurd hfs hsome
    | some sizes =>
      have hok := ha.2.2.2.2
      unfold sizesOK at hok
      rw [hfs] at hok
      simp only [decide_eq_true_eq] at hok
      simp only [storedSlot, hfs]
      exact hok
  · intro hnone hfpp hfind
    rw [hfresh hfind]
    simp only [storedSlot, hnone, if_neg hfpp, encframe.empty, List.nil_append,
      SumFrameSizes, List.sum_singleton, and_self]
  · intro hnone hfpp
    simp only [storedSlot, hnone, if_pos hfpp, SumFrameSizes, List.sum_replicate,
      smul_eq_mul, true_and]

/-- C12 (amended), instance: packet 100 pushed into a fresh player with one
frame per packet: the slot holds the single size 3 for its 3-byte payload. -/
theorem C12_frame_sizes_of_stored_slot_witness :
    Admitted exPlayer (exPacket 100 7) [1, 2, 3] ∧
    ((100, { enc_frames := [1, 2, 3], enc_frame_sizes := [3], stream_id := 7,
             timestamp := 1100 }) : Nat × encframe) ∈
      (AddPacket exPlayer (exPacket 100 7)).m_buffer ∧
    SumFrameSizes [3] = [1, 2, 3].length :=
  ⟨by decide, by decide,
    ((C12_frame_sizes_of_stored_slot exPlayer (exPacket 100 7) [1, 2, 3] (by decide)
      { enc_frames := [1, 2, 3], enc_frame_sizes := [3], stream_id := 7, timestamp := 1100 }
      (by decide)).2.2.1 rfl (by decide) (by decide)).2⟩

/-- C16: for every state `AudioPlayer::Reset` empties the jitter buffer and
the fragment store and sets `m_play_pkt_no` and `m_stream_id` to 0, and leaves
`m_last_playback`, `m_played_packet_time`, the talking flag, `m_buffer_msec`,
`m_samples_played` and the received, lost and audio-block counters
unchanged. -/
theorem C16_reset_frame (s : AudioPlayer) :
    (Reset s).m_buffer = [] ∧ (Reset s).m_audfragments = [] ∧
    (Reset s).m_play_pkt_no = 0 ∧ (Reset s).m_stream_id = 0 ∧
    (Reset s).m_last_playback = s.m_last_playback ∧
    (Reset s).m_played_packet_time = s.m_played_packet_time ∧
    (Reset s).m_talking = s.m_talking ∧
    (Reset s).m_buffer_msec = s.m_buffer_msec ∧
    (Reset s).m_samples_played = s.m_samples_played ∧
    (Reset s).m_audiopackets_recv = s.m_audiopackets_recv ∧
    (Reset s).m_audiopacket_lost = s.m_audiopacket_lost ∧
    (Reset s).m_new_audio_blocks = s.m_new_audio_blocks :=
  ⟨rfl, rfl, rfl, rfl, rfl, rfl, rfl, rfl, rfl, rfl, rfl, rfl⟩

theorem QueuePacket_fragment_eq (s : AudioPlayer) (f : AudioPacket) (i : Nat)
    (hf : f.has_fragments = true) (hi : f.fragno = some i) :
    QueuePacket s f =
      match ReassembleAudioPacket
          ((mapFind f.GetPacketNumber (QueuePacket_frags s f i)).getD []) s.m_codec with
      | none => (none, { s with m_audfragments := QueuePacket_frags s f i })
      | some q => (some q, AddPacket
          { s with m_audfragments := mapErase f.GetPacketNumber (QueuePacket_frags s f i) } q) := by
  unfold QueuePacket QueuePacket_frags QueuePacket_old_packet_no
  rw [if_neg (by simp [hf]), hi]
  simp only
  split_ifs <;> rfl

theorem AddPacket_audfragments (s : AudioPlayer) (p : AudioPacket) :
    (AddPacket s p).m_audfragments = s.m_audfragments := by
  cases henc : p.enc with
  | none => rw [AddPacket_null s p henc]
  | some enc =>
    by_cases h0 : enc.length = 0
    · rw [AddPacket_empty s p enc henc h0]
    by_cases hz : p.GetStreamID = 0
    · rw [AddPacket_zero_stream s p enc henc h0 hz]
    by_cases hl : s.m_stream_id ≠ 0 ∧ W16_LT p.GetPacketNumber s.m_play_pkt_no = true
    · rw [AddPacket_late s p enc henc h0 hl.1 hl.2]
    cases hm : sizesOK p enc with
    | false => rw [AddPacket_mismatch s p enc henc h0 hz hl hm]
    | true =>
      rw [AddPacket_admitted s p enc ⟨henc, h0, hz, hl, hm⟩]
      obtain ⟨b, q, h⟩ := AddPacket_evict_frame (AddPacket_stored s p enc).m_buffer.length
        (AddPacket_stored s p enc)
      rw [h]
      split_ifs <;> rfl

theorem mem_fragSet (i : Nat) (f : AudioPacket) (l : List (Nat × AudioPacket))
    (x : Nat × AudioPacket) (hx : x ∈ fragSet i f l) : x = (i, f) ∨ x ∈ l := by
  induction l with
  | nil => simp [fragSet] at hx; exact Or.inl hx
  | cons e t ih =>
    obtain ⟨n, q⟩ := e
    simp only [fragSet] at hx
    split_ifs at hx with h1 h2
    · rcases List.mem_cons.1 hx with h | h
      · exact Or.inl h
      · exact Or.inr (List.mem_cons_of_mem _ h)
    · rcases List.mem_cons.1 hx with h | h
      · exact Or.inl h
      · exact Or.inr h
    · rcases List.mem_cons.1 hx with h | h
      · exact Or.inr (h ▸ List.mem_cons_self _ _)
      · rcases ih h with h3 | h3
        · exact Or.inl h3
        · exact Or.inr (List.mem_cons_of_mem _ h3)

theorem fragSet_ne_nil (i : Nat) (f : AudioPacket) (l : List (Nat × AudioPacket)) :
    fragSet i f l ≠ [] := by
  cases l with
  | nil => simp [fragSet]
  | cons e t =>
    obtain ⟨n, q⟩ := e
    simp only [fragSet]
    split_ifs <;> simp

theorem fragSet_idem (i : Nat) (f : AudioPacket) (l : List (Nat × AudioPacket)) :
    fragSet i f (fragSet i f l) = fragSet i f l := by
  induction l with
  | nil => simp [fragSet]
  | cons e t ih =>
    obtain ⟨n, q⟩ := e
    simp only [fragSet]
    split_ifs with h1 h2
    · simp [fragSet]
    · simp [fragSet]
    · simp only [fragSet, if_neg h1, if_neg h2, ih]

theorem QueuePacket_frags_find (s : AudioPlayer) (f : AudioPacket) (i : Nat) :
    ∃ l0, mapFind f.GetPacketNumber (QueuePacket_frags s f i) = some (fragSet i f l0) ∧
      (l0 = [] ∨ (f.GetPacketNumber, l0) ∈ s.m_audfragments) := by
  unfold QueuePacket_frags
  rw [mapFind_mapUpdate]
  generalize hb : (if QueuePacket_old_packet_no s f ≠ 0 then
      (CleanUpAudioFragments s (QueuePacket_old_packet_no s f)).m_audfragments
    else s.m_audfragments) = b
  have hsub : ∀ e ∈ b, e ∈ s.m_audfragments := by
    intro e he
    rw [← hb] at he
    split_ifs at he
    · exact List.mem_of_mem_filter he
    · exact he
  cases hfind : mapFind f.GetPacketNumber b with
  | none => exact ⟨[], rfl, Or.inl rfl⟩
  | some l0 => exact ⟨l0, rfl, Or.inr (hsub _ (mapFind_some_mem _ _ _ hfind))⟩

theorem QueuePacket_frags_mem (s : AudioPlayer) (f : AudioPacket) (i : Nat)
    (e : Nat × List (Nat × AudioPacket)) (he : e ∈ QueuePacket_frags s f i) :
    (∃ l0, e = (f.GetPacketNumber, fragSet i f l0) ∧
      (l0 = [] ∨ (f.GetPacketNumber, l0) ∈ s.m_audfragments)) ∨
    (e ∈ s.m_audfragments ∧ e.1 ≠ f.GetPacketNumber) := by
  unfold QueuePacket_frags at he
  generalize hb : (if QueuePacket_old_packet_no s f ≠ 0 then
      (CleanUpAudioFragments s (QueuePacket_old_packet_no s f)).m_audfragments
    else s.m_audfragments) = b at he
  have hsub : ∀ e ∈ b, e ∈ s.m_audfragments := by
    intro e he
    rw [← hb] at he
    split_ifs at he
    · exact List.mem_of_mem_filter he
    · exact he
  rcases mem_mapModify _ _ _ _ he with ⟨v, hv, heq⟩ | ⟨h1, h2⟩
  · left
    refine ⟨v, heq, ?_⟩
    rcases mem_mapIndex _ _ _ _ hv with h | h
    · exact Or.inl (Prod.mk.inj h).2
    · exact Or.inr (hsub _ h)
  · right
    rcases mem_mapIndex _ _ _ _ h1 with h | h
    · exact absurd (by rw [h]) h2
    · exact ⟨hsub _ h, h2⟩

theorem ReassembleAudioPacket_none_of_missing (l : List (Nat × AudioPacket)) (c : AudioCodec)
    (N m : Nat) (hm : m < N) (hl : ∀ x ∈ l, x.1 ≠ m ∧ x.2.frag_cnt = N) :
    ReassembleAudioPacket l c = none := by
  unfold ReassembleAudioPacket
  cases l with
  | nil => rfl
  | cons e t =>
    obtain ⟨n, first⟩ := e
    simp only
    rw [if_neg]
    intro h
    have hcnt : first.frag_cnt = N := (hl (n, first) (List.mem_cons_self _ _)).2
    have hmem : m ∈ List.map Prod.fst ((n, first) :: t) := by
      rw [h.2, hcnt]; exact List.mem_range.2 hm
    obtain ⟨x, hx, hxm⟩ := List.mem_map.1 hmem
    exact (hl x hx).1 hxm

/-- A fragment of packet `k` whose number differs from a missing fragment
number `m` does not complete the packet. -/
theorem QueuePacket_incomplete (s : AudioPlayer) (k N m : Nat) (f : AudioPacket) (i : Nat)
    (hs : FragsAvoid k N m s.m_audfragments) (hm : m < N)
    (hf : f.has_fragments = true) (hk : f.GetPacketNumber = k) (hN : f.frag_cnt = N)
    (hi : f.fragno = some i) (him : i ≠ m) :
    (QueuePacket s f).1 = none ∧ FragsAvoid k N m (QueuePacket s f).2.m_audfragments := by
  have hset : ∀ l0, (l0 = [] ∨ (f.GetPacketNumber, l0) ∈ s.m_audfragments) →
      ∀ x ∈ fragSet i f l0, x.1 ≠ m ∧ x.2.frag_cnt = N := by
    intro l0 hl0 x hx
    rcases mem_fragSet _ _ _ _ hx with h | h
    · rw [h]; exact ⟨him, hN⟩
    · rcases hl0 with h0 | h0
      · rw [h0] at h; simp at h
      · exact hs _ h0 hk x h
  obtain ⟨l0, hfind, hl0⟩ := QueuePacket_frags_find s f i
  have hnone : ReassembleAudioPacket
      ((mapFind f.GetPacketNumber (QueuePacket_frags s f i)).getD []) s.m_codec = none := by
    rw [hfind]
    exact ReassembleAudioPacket_none_of_missing _ _ N m hm (hset l0 hl0)
  rw [QueuePacket_fragment_eq s f i hf hi, hnone]
  refine ⟨rfl, ?_⟩
  intro e he hek x hx
  rcases QueuePacket_frags_mem s f i e he with ⟨l1, heq, hl1⟩ | ⟨h1, _⟩
  · rw [heq] at hx
    exact hset l1 hl1 x hx
  · exact hs e h1 hek x hx

theorem QueuePacket_complete_erases (s : AudioPlayer) (f : AudioPacket) (i : Nat)
    (q : AudioPacket) (hf : f.has_fragments = true) (hi : f.fragno = some i)
    (hq : (QueuePacket s f).1 = some q) :
    ∀ e ∈ (QueuePacket s f).2.m_audfragments, e.1 ≠ f.GetPacketNumber := by
  rw [QueuePacket_fragment_eq s f i hf hi] at hq ⊢
  cases hr : ReassembleAudioPacket
      ((mapFind f.GetPacketNumber (QueuePacket_frags s f i)).getD []) s.m_codec with
  | none => rw [hr] at hq; simp at hq
  | some q1 =>
    simp only
    rw [AddPacket_audfragments]
    intro e he
    have := (List.mem_filter.1 he).2
    simpa using this

theorem queueAll_cons (s : AudioPlayer) (f : AudioPacket) (rest : List AudioPacket) :
    queueAll s (f :: rest) =
      ((QueuePacket s f).1 :: (queueAll (QueuePacket s f).2 rest).1,
        (queueAll (QueuePacket s f).2 rest).2) := rfl

theorem queueAll_all_none (k N m : Nat) (hm : m < N) (fs : List AudioPacket) :
    ∀ s : AudioPlayer, FragsAvoid k N m s.m_audfragments →
      (∀ f ∈ fs, IsFragment k N f ∧ f.fragno ≠ some m) →
      ∀ r ∈ (queueAll s fs).1, r = none := by
  induction fs with
  | nil => intro s _ _ r hr; simp [queueAll] at hr
  | cons f rest ih =>
    intro s hs hfs r hr
    obtain ⟨⟨hf, hk, hN, i, hi, _⟩, hne⟩ := hfs f (List.mem_cons_self _ _)
    have him : i ≠ m := fun h => hne (h ▸ hi)
    obtain ⟨h1, h2⟩ := QueuePacket_incomplete s k N m f i hs hm hf hk hN hi him
    rw [queueAll_cons] at hr
    rcases List.mem_cons.1 hr with h | h
    · rw [h, h1]
    · exact ih _ h2 (fun g hg => hfs g (List.mem_cons_of_mem _ hg)) r h

theorem queueAll_at_most_once (k N : Nat) (fs : List AudioPacket) :
    ∀ s : AudioPlayer, (∀ f ∈ fs, IsFragment k N f) → (fs.map (fun f => f.fragno)).Nodup →
      ((queueAll s fs).1.filter Option.isSome).length ≤ 1 := by
  induction fs with
  | nil => intro s _ _; simp [queueAll]
  | cons f rest ih =>
    intro s hfs hnd
    rw [List.map_cons, List.nodup_cons] at hnd
    have hrest : ∀ g ∈ rest, IsFragment k N g := fun g hg => hfs g (List.mem_cons_of_mem _ hg)
    rw [queueAll_cons]
    cases hq : (QueuePacket s f).1 with
    | none =>
      simp only [List.filter_cons, Option.isSome_none, Bool.false_eq_true, if_false]
      exact ih _ hrest hnd.2
    | some q =>
      obtain ⟨hf, hk, hN, i, hi, hiN⟩ := hfs f (List.mem_cons_self _ _)
      have herased := QueuePacket_complete_erases s f i q hf hi hq
      have havoid : FragsAvoid k N i (QueuePacket s f).2.m_audfragments := by
        intro e he hek
        exact absurd (hek.trans hk.symm) (herased e he)
      have hall := queueAll_all_none k N i hiN rest _ havoid (fun g hg =>
        ⟨hrest g hg, fun h => hnd.1 (List.mem_map.2 ⟨g, hg, by rw [h, hi]⟩)⟩)
      have hnil : (queueAll (QueuePacket s f).2 rest).1.filter Option.isSome = [] := by
        rw [List.filter_eq_nil_iff]
        intro r hr
        rw [hall r hr]; simp
      simp only [List.filter_cons, Option.isSome_some, if_true, hnil, List.length_singleton,
        le_refl]

/-- C13: for every state and every fragment with a valid fragment number
whose packet is still incomplete after the push (`ReassembleAudioPacket`
yields no packet), `QueuePacket` returns a null packet and leaves the jitter
buffer, `m_play_pkt_no`, `m_stream_id` and the received counter unchanged;
across consecutive pushes of fragments of one packet with pairwise different
fragment numbers, in any order, at most one push reassembles a packet and so
invokes `AddPacket`. -/
theorem C13_incomplete_reassembly_admits_nothing :
    (∀ (s : AudioPlayer) (f : AudioPacket) (i : Nat),
      f.has_fragments = true → f.fragno = some i →
      ReassembleAudioPacket
        ((mapFind f.GetPacketNumber (QueuePacket_frags s f i)).getD []) s.m_codec = none →
      (QueuePacket s f).1 = none ∧
      (QueuePacket s f).2.m_buffer = s.m_buffer ∧
      (QueuePacket s f).2.m_play_pkt_no = s.m_play_pkt_no ∧
      (QueuePacket s f).2.m_stream_id = s.m_stream_id ∧
      (QueuePacket s f).2.m_audiopackets_recv = s.m_audiopackets_recv) ∧
    (∀ (s : AudioPlayer) (k N : Nat) (fs : List AudioPacket),
      (∀ f ∈ fs, IsFragment k N f) → (fs.map (fun f => f.fragno)).Nodup →
      ((queueAll s fs).1.filter Option.isSome).length ≤ 1) := by
  refine ⟨?_, fun s k N fs h1 h2 => queueAll_at_most_once k N fs s h1 h2⟩
  intro s f i hf hi hnone
  rw [QueuePacket_fragment_eq s f i hf hi, hnone]
  exact ⟨rfl, rfl, rfl, rfl, rfl⟩

/-- C13, instance: the scenario E3 with the fragments in reverse order.
Fragment 1 of 2 of packet 42 alone admits nothing; pushing fragment 1 and
then fragment 0 reassembles exactly once, on the second push. -/
theorem C13_incomplete_reassembly_admits_nothing_witness :
    (QueuePacket exPlayer (exFragment 42 1 2)).1 = none ∧
    (QueuePacket exPlayer (exFragment 42 1 2)).2.m_buffer = exPlayer.m_buffer ∧
    ((queueAll exPlayer [exFragment 42 1 2, exFragment 42 0 2]).1.map Option.isSome) =
      [false, true] ∧
    ((queueAll exPlayer [exFragment 42 1 2, exFragment 42 0 2]).1.filter
      Option.isSome).length ≤ 1 :=
  have h := C13_incomplete_reassembly_admits_nothing.1 exPlayer (exFragment 42 1 2) 1 rfl rfl
    (by decide)
  ⟨h.1, h.2.1, by decide,
    C13_incomplete_reassembly_admits_nothing.2 exPlayer 42 2
      [exFragment 42 1 2, exFragment 42 0 2]
      (by
        intro f hf
        simp only [List.mem_cons, List.mem_singleton, List.not_mem_nil, or_false] at hf
        rcases hf with rfl | rfl
        · exact ⟨rfl, rfl, rfl, 1, rfl, by decide⟩
        · exact ⟨rfl, rfl, rfl, 0, rfl, by decide⟩)
      (by decide)⟩

theorem mapUpdate_of_not_mem {β : Type} (d : β) (k : Nat) (g : β → β) (b : List (Nat × β))
    (hn : k ∉ mapKeys b) : mapUpdate d k g b = mapInsert k (g d) b := by
  unfold mapUpdate mapIndex
  rw [(mapFind_none_iff k b).2 hn]
  simp only
  induction b with
  | nil => simp [mapInsert, mapModify]
  | cons e t ih =>
    obtain ⟨k1, v1⟩ := e
    have hne : k1 ≠ k := by
      intro h; apply hn; simp [mapKeys_cons, h]
    have hnt : k ∉ mapKeys t := by
      intro h; apply hn; simp [mapKeys_cons, h]
    simp only [mapInsert]
    split_ifs with h
    · show mapModify k g ((k, d) :: (k1, v1) :: t) = _
      have h2 := mapModify_of_not_mem k g ((k1, v1) :: t) hn
      unfold mapModify at h2 ⊢
      rw [List.map_cons, h2]
      simp
    · show mapModify k g ((k1, v1) :: mapInsert k d t) = _
      have h2 := ih hnt
      unfold mapModify at h2 ⊢
      rw [List.map_cons, h2]
      simp [hne]

theorem filter_mapInsert_rejected {β : Type} (P : Nat → Bool) (k : Nat) (v : β)
    (b : List (Nat × β)) (hk : P k = false) :
    (mapInsert k v b).filter (fun e => P e.1) = b.filter (fun e => P e.1) := by
  induction b with
  | nil => simp [mapInsert, hk]
  | cons e t ih =>
    obtain ⟨k1, v1⟩ := e
    simp only [mapInsert]
    split_ifs with h
    · rw [List.filter_cons]
      simp [hk]
    · rw [List.filter_cons, ih, List.filter_cons]

/-- Storing a fragment a second time into the store that already holds it,
after the same clean-up, gives the same store. -/
theorem store_fragment_twice (P : Nat → Bool) (k : Nat)
    (g : List (Nat × AudioPacket) → List (Nat × AudioPacket)) (hg : ∀ l, g (g l) = g l)
    (b : FragmentStore) (hb : ∀ e ∈ b, P e.1 = true) :
    mapUpdate [] k g ((mapUpdate [] k g b).filter (fun e => P e.1)) = mapUpdate [] k g b := by
  have hgg : g ∘ g = g := funext hg
  cases hk : P k with
  | false =>
    have hn : k ∉ mapKeys b := by
      intro h
      obtain ⟨e, he, hek⟩ := List.mem_map.1 h
      have := hb e he
      rw [hek, hk] at this
      exact Bool.false_ne_true this
    rw [mapUpdate_of_not_mem [] k g b hn, filter_mapInsert_rejected P k _ b hk,
      List.filter_eq_self.2 (fun e he => hb e he)]
    exact mapUpdate_of_not_mem [] k g b hn
  | true =>
    have hall : ∀ e ∈ mapUpdate [] k g b, P e.1 = true := by
      intro e he
      rcases mem_mapUpdate _ _ _ _ e he with ⟨v, hv⟩ | ⟨h1, _⟩
      · rw [hv]; exact hk
      · exact hb e h1
    rw [List.filter_eq_self.2 hall, mapUpdate_mapUpdate, hgg]

theorem QueuePacket_frags_again (s : AudioPlayer) (f : AudioPacket) (i : Nat)
    (X : FragmentStore) (hX : X = QueuePacket_frags s f i)
    (hside : s.m_audfragments.length ≥ 10 ↔ X.length ≥ 10) :
    QueuePacket_frags { s with m_audfragments := X } f i = X := by
  have hold : QueuePacket_old_packet_no { s with m_audfragments := X } f =
      QueuePacket_old_packet_no s f := by
    unfold QueuePacket_old_packet_no
    simp only
    by_cases h10 : s.m_audfragments.length ≥ 10
    · rw [if_pos h10, if_pos (hside.1 h10)]
    · rw [if_neg h10, if_neg (fun h => h10 (hside.2 h))]
  unfold QueuePacket_frags
  rw [hold]
  by_cases h0 : QueuePacket_old_packet_no s f ≠ 0
  · rw [if_pos h0]
    have hX2 : X = mapUpdate [] f.GetPacketNumber (fragSet i f)
        (s.m_audfragments.filter
          (fun e => !(W16_GEQ (QueuePacket_old_packet_no s f) e.1))) := by
      rw [hX]
      unfold QueuePacket_frags
      rw [if_pos h0]; rfl
    show mapUpdate [] f.GetPacketNumber (fragSet i f)
      (X.filter (fun e => !(W16_GEQ (QueuePacket_old_packet_no s f) e.1))) = X
    rw [hX2]
    exact store_fragment_twice (fun x => !(W16_GEQ (QueuePacket_old_packet_no s f) x))
      f.GetPacketNumber (fragSet i f) (fragSet_idem i f) _
      (fun e he => (List.mem_filter.1 he).2)
  · rw [if_neg h0]
    have hX2 : X = mapUpdate [] f.GetPacketNumber (fragSet i f) s.m_audfragments := by
      rw [hX]
      unfold QueuePacket_frags
      rw [if_neg h0]
    show mapUpdate [] f.GetPacketNumber (fragSet i f) X = X
    rw [hX2, mapUpdate_mapUpdate]
    congr 1
    exact funext (fragSet_idem i f)

/-- The second of two consecutive pushes of a fragment whose packet stays
incomplete, when both pushes compute the same expiry threshold. -/
theorem QueuePacket_twice (s : AudioPlayer) (f : AudioPacket) (i : Nat)
    (hf : f.has_fragments = true) (hi : f.fragno = some i)
    (hnone : (QueuePacket s f).1 = none)
    (hside : s.m_audfragments.length ≥ 10 ↔ (QueuePacket s f).2.m_audfragments.length ≥ 10) :
    QueuePacket (QueuePacket s f).2 f = (none, (QueuePacket s f).2) := by
  have heq := QueuePacket_fragment_eq s f i hf hi
  cases hr : ReassembleAudioPacket
      ((mapFind f.GetPacketNumber (QueuePacket_frags s f i)).getD []) s.m_codec with
  | some q => rw [heq, hr] at hnone; simp at hnone
  | none =>
    rw [hr] at heq
    simp only at heq
    rw [heq] at hside ⊢
    simp only at hside ⊢
    have hfrags := QueuePacket_frags_again s f i _ rfl hside
    rw [QueuePacket_fragment_eq _ f i hf hi, hfrags]
    simp only
    rw [hr]

/-- C14 (as stated) fails: nine packets are pending reassembly and fragment 0
of 2 of packet 100 is pushed twice. The first push sees fewer than 10 entries
and uses the cursor (0, so nothing expires); it leaves 10 entries. The second
push sees 10 entries, uses the threshold `100 - 10`, and evicts the entries
of packets 1..9. -/
theorem C14_counterexample :
    Reachable exNinePending ∧
    (QueuePacket exNinePending (exFragment 100 0 2)).1 = none ∧
    mapKeys (QueuePacket exNinePending (exFragment 100 0 2)).2.m_audfragments =
      [1, 2, 3, 4, 5, 6, 7, 8, 9, 100] ∧
    (QueuePacket (QueuePacket exNinePending (exFragment 100 0 2)).2
      (exFragment 100 0 2)).1 = none ∧
    mapKeys (QueuePacket (QueuePacket exNinePending (exFragment 100 0 2)).2
      (exFragment 100 0 2)).2.m_audfragments = [100] :=
  ⟨⟨0, 1, StreamType.STREAMTYPE_VOICE, exCodec, 500, _, rfl⟩,
    by decide, by decide, by decide, by decide⟩

/-- C14 (amended): for every state and every fragment `f` with a valid
fragment number whose packet stays incomplete, pushing `f` twice in a row
through `QueuePacket` leaves the same player state as pushing it once,
provided the fragment store is on the same side of the 10-entry limit before
both pushes, so that both compute the same expiry threshold. -/
theorem C14_duplicate_fragment_idempotent (s : AudioPlayer) (f : AudioPacket) (i : Nat)
    (hf : f.has_fragments = true) (hi : f.fragno = some i)
    (hnone : (QueuePacket s f).1 = none)
    (hside : s.m_audfragments.length ≥ 10 ↔ (QueuePacket s f).2.m_audfragments.length ≥ 10) :
    (QueuePacket (QueuePacket s f).2 f).2 = (QueuePacket s f).2 ∧
    (QueuePacket (QueuePacket s f).2 f).1 = none := by
  rw [QueuePacket_twice s f i hf hi hnone hside]
  exact ⟨rfl, rfl⟩

/-- C14 (amended), instance: fragment 0 of 2 of packet 42 pushed twice into
a fresh player. -/
theorem C14_duplicate_fragment_idempotent_witness :
    (QueuePacket exPlayer (exFragment 42 0 2)).1 = none ∧
    mapKeys (QueuePacket exPlayer (exFragment 42 0 2)).2.m_audfragments = [42] ∧
    (QueuePacket (QueuePacket exPlayer (exFragment 42 0 2)).2 (exFragment 42 0 2)).2 =
      (QueuePacket exPlayer (exFragment 42 0 2)).2 :=
  ⟨by decide, by decide,
    (C14_duplicate_fragment_idempotent exPlayer (exFragment 42 0 2) 0 rfl rfl (by decide)
      (by decide)).1⟩

/-- The talkspurt-end branch of `StreamPlayerCb`, lines 226-238, for every
state: when nothing is played, the talking flag is set and the stop delay has
passed, the call clears the flag, resets the player and queues two messages
to the muxer, the one of `PlayBuffer` and the one of this branch, both with a
null PCM pointer and with the stream-ended argument `false`. -/
theorem StreamPlayerCb_talkspurt_end (s : AudioPlayer) (now ch : Nat) (acc : Bool)
    (pcm : PcmBuffer) (hb : s.m_buffer = []) (ht : s.m_talking = true)
    (hd : W32_GEQ now ((s.m_last_playback + s.m_play_stopped_delay) % 4294967296) = true) :
    (StreamPlayerCb s now ch acc pcm).2.2.m_talking = false ∧
    (StreamPlayerCb s now ch acc pcm).2.2.m_stream_id = 0 ∧
    (StreamPlayerCb s now ch acc pcm).2.2.m_buffer = [] ∧
    (StreamPlayerCb s now ch acc pcm).2.2.m_audiomuxer =
      s.m_audiomuxer ++
        [{ userid := s.m_userid, has_pcm := false, samples_played := s.m_samples_played,
           final := false },
         { userid := s.m_userid, has_pcm := false,
           samples_played := s.m_samples_played + s.m_codec.cb_samples, final := false }] := by
  have hp : PlayBuffer s = (false, { s with m_audiomuxer := s.m_audiomuxer ++
      [{ userid := s.m_userid, has_pcm := false, samples_played := s.m_samples_played,
         final := false }] }) := by
    rw [PlayBuffer_of_empty s hb]
    unfold PlayBuffer_mux
    simp
  unfold StreamPlayerCb
  simp only [hp, ht, hd, Reset, Bool.false_eq_true, if_false, and_self, if_true,
    List.append_assoc, List.singleton_append]

/-- C15 (code defect): a callback at time 1500 on a talking player with an
empty buffer whose last playback was at time 1000 and whose stop delay is 500:
nothing is played, the talking flag is cleared and the player is reset
(`m_stream_id` is 0), but the message queued to the muxer at lines 234-235 has
the stream-ended argument `false`, not `true`; no message of the call is
final. -/
theorem C15_talkspurt_end_not_final :
    exTalking.m_talking = true ∧ exTalking.m_last_playback = 1000 ∧
    exTalking.m_play_stopped_delay = 500 ∧
    (PlayBuffer exTalking).1 = false ∧
    (StreamPlayerCb exTalking 1500 1 true (fun _ => 0)).2.2.m_talking = false ∧
    (StreamPlayerCb exTalking 1500 1 true (fun _ => 0)).2.2.m_stream_id = 0 ∧
    (StreamPlayerCb exTalking 1500 1 true (fun _ => 0)).2.2.m_audiomuxer =
      exTalking.m_audiomuxer ++
        [{ userid := 1, has_pcm := false, samples_played := 960, final := false },
         { userid := 1, has_pcm := false, samples_played := 1920, final := false }] ∧
    (∀ m ∈ (StreamPlayerCb exTalking 1500 1 true (fun _ => 0)).2.2.m_audiomuxer,
      m.final = false) ∧
    (∀ m ∈ (StreamPlayerCbEnded exTalking).m_audiomuxer.drop exTalking.m_audiomuxer.length,
      m.final = true) := by
  refine ⟨by decide, by decide, by decide, by decide, by decide, by decide, by decide,
    by decide, by decide⟩

theorem maskLeftLoop_apply (n : Nat) (buf : PcmBuffer) (j : Nat) :
    maskLeftLoop n buf j = if j % 2 = 1 ∧ j < 2 * n then 0 else buf j := by
  induction n generalizing buf with
  | zero => simp [maskLeftLoop]
  | succ k ih =>
    simp only [maskLeftLoop, ih, Function.update_apply]
    split_ifs <;> first | rfl | omega

theorem maskRightLoop_apply (n : Nat) (buf : PcmBuffer) (j : Nat) :
    maskRightLoop n buf j = if j % 2 = 0 ∧ j < 2 * n then 0 else buf j := by
  induction n generalizing buf with
  | zero => simp [maskRightLoop]
  | succ k ih =>
    simp only [maskRightLoop, ih, Function.update_apply]
    split_ifs <;> first | rfl | omega

theorem maskNoneLoop_apply (n : Nat) (buf : PcmBuffer) (j : Nat) :
    maskNoneLoop n buf j = if j < 2 * n then 0 else buf j := by
  induction n generalizing buf with
  | zero => simp [maskNoneLoop]
  | succ k ih =>
    simp only [maskNoneLoop, ih, Function.update_apply]
    split_ifs <;> first | rfl | omega

/-- The mask step for a two-channel interleaved buffer of `n` samples per
lane, for every `k < n`: with `STEREO_BOTH` the buffer is unchanged; with
`STEREO_LEFT` sample `2k+1` is zero and sample `2k` unchanged; with
`STEREO_RIGHT` sample `2k` is zero and sample `2k+1` unchanged; with
`STEREO_NONE` samples `2k` and `2k+1` are zero; no sample at an index of `2n`
or above is changed. -/
theorem StreamPlayerCb_mask_apply (n : Nat) (buf : PcmBuffer) :
    StreamPlayerCb_mask StereoMask.STEREO_BOTH n buf = buf ∧
    (∀ k, k < n →
      StreamPlayerCb_mask StereoMask.STEREO_LEFT n buf (2 * k + 1) = 0 ∧
      StreamPlayerCb_mask StereoMask.STEREO_LEFT n buf (2 * k) = buf (2 * k) ∧
      StreamPlayerCb_mask StereoMask.STEREO_RIGHT n buf (2 * k) = 0 ∧
      StreamPlayerCb_mask StereoMask.STEREO_RIGHT n buf (2 * k + 1) = buf (2 * k + 1) ∧
      StreamPlayerCb_mask StereoMask.STEREO_NONE n buf (2 * k) = 0 ∧
      StreamPlayerCb_mask StereoMask.STEREO_NONE n buf (2 * k + 1) = 0) ∧
    (∀ (m : StereoMask) (j : Nat), 2 * n ≤ j → StreamPlayerCb_mask m n buf j = buf j) := by
  refine ⟨rfl, ?_, ?_⟩
  · intro k hk
    simp only [StreamPlayerCb_mask, maskLeftLoop_apply, maskRightLoop_apply,
      maskNoneLoop_apply]
    refine ⟨?_, ?_, ?_, ?_, ?_, ?_⟩
    · rw [if_pos]; omega
    · rw [if_neg]; omega
    · rw [if_pos]; omega
    · rw [if_neg]; omega
    · rw [if_pos]; omega
    · rw [if_pos]; omega
  · intro m j hj
    cases m with
    | STEREO_BOTH => rfl
    | STEREO_LEFT =>
      simp only [StreamPlayerCb_mask, maskLeftLoop_apply]
      rw [if_neg]; omega
    | STEREO_RIGHT =>
      simp only [StreamPlayerCb_mask, maskRightLoop_apply]
      rw [if_neg]; omega
    | STEREO_NONE =>
      simp only [StreamPlayerCb_mask, maskNoneLoop_apply]
      rw [if_neg]; omega

/-- The buffer after `j` iterations of the stereo simulation: the pairs of
the last `j` mono samples are written, everything else is as before. -/
theorem simulateStereoSteps_apply (n : Nat) (buf : PcmBuffer) (j : Nat) (hj : j ≤ n) (x : Nat) :
    simulateStereoSteps n j buf x =
      if 2 * (n - j) ≤ x ∧ x < 2 * n then buf (x / 2) else buf x := by
  induction j generalizing x with
  | zero => rw [if_neg (by omega)]; rfl
  | succ j ih =>
    have ihx := fun y => ih (by omega) y
    have hdiv : 2 * (n - 1 - j) / 2 = n - 1 - j := by omega
    simp only [simulateStereoSteps, hdiv, Function.update_apply, ihx]
    split_ifs <;> first | rfl | (congr 1; omega)

/-- The in-place loop of the stereo simulation, run from the highest index
down over `n` mono samples, ends with `out[2k] = out[2k+1] = m[k]` for every
`k < n`, where `m` is the content before the loop, and changes nothing at
index `2n` or above; the sample `n - 1 - j` that iteration `j + 1` reads still
has its value from before the loop. -/
theorem simulateStereoSteps_pairs (n : Nat) (buf : PcmBuffer) :
    (∀ k, k < n →
      simulateStereoSteps n n buf (2 * k) = buf k ∧
      simulateStereoSteps n n buf (2 * k + 1) = buf k) ∧
    (∀ x, 2 * n ≤ x → simulateStereoSteps n n buf x = buf x) ∧
    (∀ j, j < n → simulateStereoSteps n j buf (n - 1 - j) = buf (n - 1 - j)) := by
  refine ⟨?_, ?_, ?_⟩
  · intro k hk
    rw [simulateStereoSteps_apply n buf n (le_refl _), simulateStereoSteps_apply n buf n (le_refl _),
      if_pos (by omega), if_pos (by omega)]
    have h1 : 2 * k / 2 = k := by omega
    have h2 : (2 * k + 1) / 2 = k := by omega
    rw [h1, h2]
    exact ⟨rfl, rfl⟩
  · intro x hx
    rw [simulateStereoSteps_apply n buf n (le_refl _), if_neg (by omega)]
  · intro j hj
    rw [simulateStereoSteps_apply n buf j (by omega), if_neg (by omega)]

/-! ## The video player: sizes of the two stores -/

theorem length_mapInsert32 {β : Type} (k : Nat) (v : β) (b : List (Nat × β)) :
    (mapInsert32 k v b).length = b.length + 1 := by
  induction b with
  | nil => rfl
  | cons e t ih =>
    obtain ⟨k1, v1⟩ := e
    unfold mapInsert32
    split_ifs
    · rfl
    · simp [ih]

theorem length_mapModify {β : Type} (k : Nat) (f : β → β) (b : List (Nat × β)) :
    (mapModify k f b).length = b.length := by
  unfold mapModify
  rw [List.length_map]

theorem length_mapUpdate32_le {β : Type} (d : β) (k : Nat) (f : β → β) (b : List (Nat × β)) :
    (mapUpdate32 d k f b).length ≤ b.length + 1 := by
  unfold mapUpdate32
  rw [length_mapModify]
  unfold mapIndex32
  cases mapFind k b with
  | none => simp only []; rw [length_mapInsert32]
  | some v => simp only []; omega

theorem length_mapErase_le {β : Type} (k : Nat) (b : List (Nat × β)) :
    (mapErase k b).length ≤ b.length := by
  unfold mapErase
  exact List.length_filter_le _ _

theorem RemoveObsoletePackets_fragments_frames (fuel : Nat) (s : WebMPlayer) :
    (RemoveObsoletePackets_fragments fuel s).m_video_frames = s.m_video_frames ∧
    (RemoveObsoletePackets_fragments fuel s).m_packet_no = s.m_packet_no ∧
    (RemoveObsoletePackets_fragments fuel s).m_video_fragments.length
      ≤ s.m_video_fragments.length := by
  induction fuel generalizing s with
  | zero => exact ⟨rfl, rfl, le_refl _⟩
  | succ n ih =>
    unfold RemoveObsoletePackets_fragments
    split
    · exact ⟨rfl, rfl, le_refl _⟩
    · rename_i k v t hb
      split_ifs
      · obtain ⟨h1, h2, h3⟩ := ih { s with
              m_videoframes_lost :=
                s.m_videoframes_lost + toUInt32 ((s.m_packet_no : Int) - (k : Int))
              m_video_fragments := mapErase k s.m_video_fragments }
        exact ⟨h1, h2, le_trans h3 (length_mapErase_le _ _)⟩
      · exact ⟨rfl, rfl, le_refl _⟩

theorem RemoveObsoletePackets_frames_suffix (fuel : Nat) (s : WebMPlayer) :
    (RemoveObsoletePackets_frames fuel s).m_video_fragments = s.m_video_fragments ∧
    (RemoveObsoletePackets_frames fuel s).m_packet_no = s.m_packet_no ∧
    (RemoveObsoletePackets_frames fuel s).m_video_frames <:+ s.m_video_frames := by
  induction fuel generalizing s with
  | zero => exact ⟨rfl, rfl, List.suffix_refl _⟩
  | succ n ih =>
    unfold RemoveObsoletePackets_frames
    split
    · exact ⟨rfl, rfl, List.suffix_refl _⟩
    · rename_i k f t hb
      split_ifs
      · obtain ⟨h1, h2, h3⟩ := ih { s with m_video_frames := t }
        refine ⟨h1, h2, ?_⟩
        rw [hb]
        exact List.IsSuffix.trans h3 (List.suffix_cons _ _)
      · exact ⟨rfl, rfl, List.suffix_refl _⟩

theorem RemoveObsoletePackets_frame (s : WebMPlayer) :
    (RemoveObsoletePackets s).m_video_frames <:+ s.m_video_frames ∧
    (RemoveObsoletePackets s).m_video_fragments.length ≤ s.m_video_fragments.length ∧
    (RemoveObsoletePackets s).m_packet_no = s.m_packet_no := by
  unfold RemoveObsoletePackets
  simp only []
  obtain ⟨a1, a2, a3⟩ := RemoveObsoletePackets_fragments_frames s.m_video_fragments.length s
  obtain ⟨b1, b2, b3⟩ := RemoveObsoletePackets_frames_suffix
    (RemoveObsoletePackets_fragments s.m_video_fragments.length s).m_video_frames.length
    (RemoveObsoletePackets_fragments s.m_video_fragments.length s)
  refine ⟨?_, ?_, ?_⟩
  · exact List.IsSuffix.trans b3 (by rw [a1])
  · rw [b1]; exact a3
  · rw [b2, a2]

theorem ProcessVideoPacket_store_sizes (s s1 : WebMPlayer) (packet : VideoPacket)
    (h : ProcessVideoPacket_store s packet = some s1)
    (hc : s.m_video_fragments.length ≤ VPX_MAX_FRAG_PACKETS) :
    s1.m_video_fragments.length ≤ VPX_MAX_FRAG_PACKETS ∧
    s1.m_video_frames.length ≤ s.m_video_frames.length + 1 := by
  unfold ProcessVideoPacket_store at h
  simp only [] at h
  cases hf : packet.GetFragmentNo with
  | none =>
    rw [hf] at h
    simp only [] at h
    cases hd : packet.data with
    | none => rw [hd] at h; simp at h
    | some data =>
      rw [hd] at h
      simp only [Option.some.injEq] at h
      subst h
      exact ⟨hc, length_mapUpdate32_le (⟨[], 0⟩ : enc_frame) packet.GetTime
        (fun _ => ({ enc_data := data, packet_no := packet.GetPacketNo } : enc_frame))
        s.m_video_frames⟩
  | some fragno =>
    rw [hf] at h
    simp only [] at h
    cases hm : mapFind packet.GetPacketNo s.m_video_fragments with
    | none =>
      rw [hm] at h
      simp only [if_true] at h
      have hl := length_mapUpdate32_le ([] : List (Nat × VideoPacket)) packet.GetPacketNo
        (vfragSet fragno packet) s.m_video_fragments
      split_ifs at h with h1
      · simp only [Option.some.injEq] at h
        subst h
        simp only [List.length_tail]
        exact ⟨by omega, by omega⟩
      · simp only [Option.some.injEq] at h
        subst h
        exact ⟨by simp only []; omega, by simp only []; omega⟩
    | some frags =>
      rw [hm] at h
      simp only [] at h
      cases hr : ReassembleVideoPackets frags packet with
      | none =>
        rw [hr] at h
        simp only [if_true] at h
        have hl := length_mapUpdate32_le ([] : List (Nat × VideoPacket)) packet.GetPacketNo
          (vfragSet fragno packet) s.m_video_fragments
        split_ifs at h with h1
        · simp only [Option.some.injEq] at h
          subst h
          simp only [List.length_tail]
          exact ⟨by omega, by omega⟩
        · simp only [Option.some.injEq] at h
          subst h
          exact ⟨by simp only []; omega, by simp only []; omega⟩
      | some data =>
        rw [hr] at h
        simp only [Bool.false_eq_true, if_false] at h
        have hl := length_mapErase_le packet.GetPacketNo s.m_video_fragments
        have hl2 := length_mapUpdate32_le (⟨[], 0⟩ : enc_frame) packet.GetTime
          (fun _ => ({ enc_data := data, packet_no := packet.GetPacketNo } : enc_frame))
          s.m_video_frames
        split_ifs at h with h1
        · simp only [Option.some.injEq] at h
          subst h
          simp only [List.length_tail]
          exact ⟨by omega, hl2⟩
        · simp only [Option.some.injEq] at h
          subst h
          exact ⟨by simp only []; omega, hl2⟩

theorem ProcessVideoPacket_age_frame (s : WebMPlayer) :
    (ProcessVideoPacket_age s).m_video_frames = s.m_video_frames ∧
    (ProcessVideoPacket_age s).m_video_fragments = s.m_video_fragments := by
  unfold ProcessVideoPacket_age
  split_ifs
  · exact ⟨rfl, rfl⟩
  · exact ⟨rfl, rfl⟩

theorem VideoCaps_ProcessVideoPacket (s : WebMPlayer) (packet : VideoPacket)
    (h : VideoCaps s) : VideoCaps (ProcessVideoPacket s packet) := by
  unfold ProcessVideoPacket
  split_ifs with hl
  · exact h
  · cases hs : ProcessVideoPacket_store s packet with
    | none => exact h
    | some s1 =>
      simp only []
      obtain ⟨h1, h2⟩ := ProcessVideoPacket_store_sizes s s1 packet hs h.1
      have h3 := h.2
      by_cases hc : s1.m_video_frames.length > VPX_MAX_PACKETS
      · rw [if_pos hc]
        obtain ⟨r1, r2, _⟩ := RemoveObsoletePackets_frame (ProcessVideoPacket_age
          { s1 with m_video_frames := s1.m_video_frames.tail })
        obtain ⟨a1, a2⟩ := ProcessVideoPacket_age_frame
          { s1 with m_video_frames := s1.m_video_frames.tail }
        rw [a1] at r1
        rw [a2] at r2
        have r3 := List.IsSuffix.length_le r1
        simp only [List.length_tail] at r3
        simp only [] at r2
        exact ⟨by omega, by omega⟩
      · rw [if_neg hc]
        obtain ⟨r1, r2, _⟩ := RemoveObsoletePackets_frame (ProcessVideoPacket_age s1)
        obtain ⟨a1, a2⟩ := ProcessVideoPacket_age_frame s1
        rw [a1] at r1
        rw [a2] at r2
        have r3 := List.IsSuffix.length_le r1
        exact ⟨by omega, by omega⟩

theorem VideoCaps_AddPacket (s : WebMPlayer) (packet : VideoPacket) (now : Nat)
    (open_ok : Bool) (h : VideoCaps s) :
    VideoCaps (WebMPlayer.AddPacket s packet now open_ok).2 := by
  unfold WebMPlayer.AddPacket WebMPlayer.AddPacket_process
  simp only []
  split_ifs
  · exact h
  · exact h
  · exact VideoCaps_ProcessVideoPacket _ _ h
  · exact VideoCaps_ProcessVideoPacket _ _ h

theorem VideoCaps_GetNextFrame (s : WebMPlayer) (timestamp : Option Nat)
    (ret : DecoderResult) (h : VideoCaps s) :
    VideoCaps (GetNextFrame s timestamp ret).2 := by
  unfold GetNextFrame
  cases hb : s.m_video_frames with
  | nil => exact h
  | cons e t =>
    obtain ⟨k, f⟩ := e
    simp only []
    have ht : t.length ≤ VPX_MAX_PACKETS := by
      have := h.2
      rw [hb] at this
      simp only [List.length_cons] at this
      omega
    split_ifs
    · exact h
    · cases ret with
      | VPX_CODEC_OK =>
        simp only []
        obtain ⟨r1, r2, _⟩ := RemoveObsoletePackets_frame
          { s with m_packet_no := f.packet_no, m_video_frames := t }
        have r3 := List.IsSuffix.length_le r1
        exact ⟨le_trans r2 h.1, le_trans r3 ht⟩
      | VPX_CODEC_UNSUP_BITSTREAM => exact ⟨h.1, ht⟩
      | VPX_CODEC_OTHER_ERROR => exact ⟨h.1, ht⟩

theorem VideoCaps_runVideoCalls (calls : List VideoCall) (s : WebMPlayer) (h : VideoCaps s) :
    VideoCaps (runVideoCalls s calls) := by
  induction calls generalizing s with
  | nil => exact h
  | cons c t ih =>
    unfold runVideoCalls
    rw [List.foldl_cons]
    apply ih
    cases c with
    | addPacket p now ok => exact VideoCaps_AddPacket s p now ok h
    | getNextFrame ts ret => exact VideoCaps_GetNextFrame s ts ret h

theorem VideoCaps_of_VideoReachable (s : WebMPlayer) (h : VideoReachable s) : VideoCaps s := by
  obtain ⟨u, sid, now, calls, rfl⟩ := h
  apply VideoCaps_runVideoCalls
  exact ⟨Nat.zero_le _, Nat.zero_le _⟩

/-- C20 (video store caps): in every state reachable from a new `WebMPlayer`
by `AddPacket` and `GetNextFrame` calls, after a further `AddPacket` the
fragment store holds at most 3000 packet entries and the frame store at most
3000 frames. -/
theorem C20_video_store_caps (s : WebMPlayer) (h : VideoReachable s) (packet : VideoPacket)
    (now : Nat) (open_ok : Bool) :
    (WebMPlayer.AddPacket s packet now open_ok).2.m_video_fragments.length ≤ 3000 ∧
    (WebMPlayer.AddPacket s packet now open_ok).2.m_video_frames.length ≤ 3000 :=
  VideoCaps_AddPacket s packet now open_ok (VideoCaps_of_VideoReachable s h)

/-- C20 at the state with two buffered frames and a further fragment. -/
theorem C20_video_store_caps_witness :
    VideoReachable exVideoDone ∧
    (WebMPlayer.AddPacket exVideoDone (exVideoFragment 13 540 0 2) 30 true).2.m_video_fragments
      = [(13, [(0, exVideoFragment 13 540 0 2)])] ∧
    (WebMPlayer.AddPacket exVideoDone (exVideoFragment 13 540 0 2) 30
      true).2.m_video_fragments.length ≤ 3000 ∧
    (WebMPlayer.AddPacket exVideoDone (exVideoFragment 13 540 0 2) 30
      true).2.m_video_frames.length ≤ 3000 :=
  ⟨⟨1, 3, 0, _, rfl⟩, by decide,
    C20_video_store_caps exVideoDone ⟨1, 3, 0, _, rfl⟩ (exVideoFragment 13 540 0 2) 30 true⟩

/-! ## The video player: the result of a push -/

theorem mapFind_isSome_iff {β : Type} (k : Nat) (b : List (Nat × β)) :
    (mapFind k b).isSome = true ↔ ∃ v, (k, v) ∈ b := by
  constructor
  · intro h
    cases hf : mapFind k b with
    | none => rw [hf] at h; simp at h
    | some v => exact ⟨v, mapFind_some_mem k v b hf⟩
  · rintro ⟨v, hv⟩
    cases hf : mapFind k b with
    | none =>
      rw [mapFind_none_iff] at hf
      exact absurd (List.mem_map_of_mem Prod.fst hv) hf
    | some w => rfl

theorem mem_mapUpdate32_const {β : Type} (d x : β) (k : Nat) (b : List (Nat × β)) (v : β)
    (h : (k, v) ∈ mapUpdate32 d k (fun _ => x) b) : v = x := by
  unfold mapUpdate32 at h
  rcases mem_mapModify k (fun _ => x) _ (k, v) h with ⟨v0, _, hv⟩ | ⟨_, h2⟩
  · exact (Prod.mk.inj hv).2
  · exact absurd rfl h2

theorem ProcessVideoPacket_suffix (s s1 : WebMPlayer) (packet : VideoPacket)
    (hl : W32_LT packet.GetPacketNo s.m_packet_no = false)
    (hs : ProcessVideoPacket_store s packet = some s1) :
    (ProcessVideoPacket s packet).m_video_frames <:+ s1.m_video_frames := by
  unfold ProcessVideoPacket
  rw [hl, hs]
  simp only [Bool.false_eq_true, if_false]
  by_cases hc : s1.m_video_frames.length > VPX_MAX_PACKETS
  · rw [if_pos hc]
    obtain ⟨r1, _, _⟩ := RemoveObsoletePackets_frame (ProcessVideoPacket_age
      { s1 with m_video_frames := s1.m_video_frames.tail })
    rw [(ProcessVideoPacket_age_frame _).1] at r1
    exact List.IsSuffix.trans r1 (List.tail_suffix _)
  · rw [if_neg hc]
    obtain ⟨r1, _, _⟩ := RemoveObsoletePackets_frame (ProcessVideoPacket_age s1)
    rw [(ProcessVideoPacket_age_frame _).1] at r1
    exact r1

theorem ProcessVideoPacket_late (s : WebMPlayer) (packet : VideoPacket)
    (hl : W32_LT packet.GetPacketNo s.m_packet_no = true) :
    ProcessVideoPacket s packet = s := by
  unfold ProcessVideoPacket
  rw [if_pos hl]

theorem ProcessVideoPacket_store_not_completing (s s1 : WebMPlayer) (packet : VideoPacket)
    (hl : W32_LT packet.GetPacketNo s.m_packet_no = false)
    (hc : ProcessVideoPacket_completes s packet = false)
    (hs : ProcessVideoPacket_store s packet = some s1) :
    s1.m_video_frames = s.m_video_frames := by
  unfold ProcessVideoPacket_completes at hc
  rw [hl] at hc
  simp only [Bool.false_eq_true, if_false] at hc
  unfold ProcessVideoPacket_store at hs
  simp only [] at hs
  cases hf : packet.GetFragmentNo with
  | none =>
    rw [hf] at hc hs
    simp only [] at hc hs
    cases hd : packet.data with
    | none => rw [hd] at hs; simp at hs
    | some data => rw [hd] at hc; simp at hc
  | some fragno =>
    rw [hf] at hc hs
    simp only [] at hc hs
    cases hm : mapFind packet.GetPacketNo s.m_video_fragments with
    | none =>
      rw [hm] at hs
      simp only [if_true] at hs
      split_ifs at hs
      · simp only [Option.some.injEq] at hs; subst hs; rfl
      · simp only [Option.some.injEq] at hs; subst hs; rfl
    | some frags =>
      rw [hm] at hc hs
      simp only [] at hc hs
      cases hr : ReassembleVideoPackets frags packet with
      | none =>
        rw [hr] at hs
        simp only [if_true] at hs
        split_ifs at hs
        · simp only [Option.some.injEq] at hs; subst hs; rfl
        · simp only [Option.some.injEq] at hs; subst hs; rfl
      | some data => rw [hr] at hc; simp at hc

theorem ProcessVideoPacket_store_completing (s : WebMPlayer) (packet : VideoPacket)
    (hc : ProcessVideoPacket_completes s packet = true) :
    W32_LT packet.GetPacketNo s.m_packet_no = false ∧
    ∃ s1 data, ProcessVideoPacket_store s packet = some s1 ∧
      s1.m_video_frames = mapUpdate32 ⟨[], 0⟩ packet.GetTime
        (fun _ => { enc_data := data, packet_no := packet.GetPacketNo }) s.m_video_frames := by
  unfold ProcessVideoPacket_completes at hc
  cases hl : W32_LT packet.GetPacketNo s.m_packet_no with
  | true => rw [hl] at hc; simp at hc
  | false =>
    refine ⟨rfl, ?_⟩
    rw [hl] at hc
    simp only [Bool.false_eq_true, if_false] at hc
    unfold ProcessVideoPacket_store
    simp only []
    cases hf : packet.GetFragmentNo with
    | none =>
      rw [hf] at hc
      simp only [] at hc ⊢
      cases hd : packet.data with
      | none => rw [hd] at hc; simp at hc
      | some data => exact ⟨_, data, rfl, rfl⟩
    | some fragno =>
      rw [hf] at hc
      simp only [] at hc ⊢
      cases hm : mapFind packet.GetPacketNo s.m_video_fragments with
      | none => rw [hm] at hc; simp at hc
      | some frags =>
        rw [hm] at hc
        simp only [] at hc ⊢
        cases hr : ReassembleVideoPackets frags packet with
        | none => rw [hr] at hc; simp at hc
        | some data =>
          simp only [Bool.false_eq_true, if_false]
          split_ifs
          · exact ⟨_, data, rfl, rfl⟩
          · exact ⟨_, data, rfl, rfl⟩

theorem ProcessVideoPacket_not_completing (s : WebMPlayer) (packet : VideoPacket)
    (hc : ProcessVideoPacket_completes s packet = false) :
    (ProcessVideoPacket s packet).m_video_frames <:+ s.m_video_frames := by
  cases hl : W32_LT packet.GetPacketNo s.m_packet_no with
  | true => rw [ProcessVideoPacket_late s packet hl]
  | false =>
    cases hs : ProcessVideoPacket_store s packet with
    | none =>
      unfold ProcessVideoPacket
      rw [hl, hs]
      exact List.suffix_refl _
    | some s1 =>
      have h := ProcessVideoPacket_suffix s s1 packet hl hs
      rw [ProcessVideoPacket_store_not_completing s s1 packet hl hc hs] at h
      exact h

theorem ProcessVideoPacket_completing (s : WebMPlayer) (packet : VideoPacket)
    (hc : ProcessVideoPacket_completes s packet = true) (f : enc_frame)
    (hf : mapFind packet.GetTime (ProcessVideoPacket s packet).m_video_frames = some f) :
    f.packet_no = packet.GetPacketNo := by
  obtain ⟨hl, s1, data, hs, hfr⟩ := ProcessVideoPacket_store_completing s packet hc
  have h := ProcessVideoPacket_suffix s s1 packet hl hs
  have hm := List.IsSuffix.subset h (mapFind_some_mem _ _ _ hf)
  rw [hfr] at hm
  rw [mem_mapUpdate32_const _ _ _ _ _ hm]

theorem AddPacket_ready (s : WebMPlayer) (packet : VideoPacket) (now : Nat) (open_ok : Bool)
    (hready : s.m_decoder_ready = true) :
    WebMPlayer.AddPacket s packet now open_ok =
      WebMPlayer.AddPacket_process
        { s with m_local_timestamp := now, m_video_pkts_recv := s.m_video_pkts_recv + 1 }
        packet := by
  unfold WebMPlayer.AddPacket
  simp only [hready, Bool.true_eq_false, if_false]

/-- C19, counterexample: `AddPacket` returns true for packets that complete no
frame. With the cursor at 12 and the frame of packet 13 buffered at time 540,
packet 11 with presentation time 540 is rejected as too late and the result is
true. After both fragments of packet 12 completed its frame at time 500, a
repeated fragment 0 is not late and completes nothing (it is stored as the only
fragment of a new set) and the result is true. -/
theorem C19_counterexample :
    (exVideoPulled.m_decoder_ready = true ∧
      exVideoPulled.m_packet_no = 12 ∧
      exVideoPulled.m_video_frames = [(540, ⟨[13, 13], 13⟩)] ∧
      W32_LT (exVideoPacket 11 540).GetPacketNo exVideoPulled.m_packet_no = true ∧
      ProcessVideoPacket_completes exVideoPulled (exVideoPacket 11 540) = false ∧
      (WebMPlayer.AddPacket exVideoPulled (exVideoPacket 11 540) 30 true).1 = true ∧
      (WebMPlayer.AddPacket exVideoPulled (exVideoPacket 11 540) 30 true).2.m_video_frames
        = exVideoPulled.m_video_frames) ∧
    (exVideoDone.m_decoder_ready = true ∧
      exVideoDone.m_video_fragments = [] ∧
      exVideoDone.m_packet_no = 11 ∧
      exVideoDone.m_video_frames = [(460, ⟨[11, 11], 11⟩), (500, ⟨[0, 1], 12⟩)] ∧
      W32_LT (exVideoFragment 12 500 0 2).GetPacketNo exVideoDone.m_packet_no = false ∧
      ProcessVideoPacket_completes exVideoDone (exVideoFragment 12 500 0 2) = false ∧
      (WebMPlayer.AddPacket exVideoDone (exVideoFragment 12 500 0 2) 30 true).1 = true ∧
      (WebMPlayer.AddPacket exVideoDone (exVideoFragment 12 500 0 2) 30 true).2.m_video_frames
        = exVideoDone.m_video_frames ∧
      (WebMPlayer.AddPacket exVideoDone (exVideoFragment 12 500 0 2) 30
        true).2.m_video_fragments = [(12, [(0, exVideoFragment 12 500 0 2)])]) := by
  decide

/-- C19, amended: with an opened decoder `AddPacket` returns true if and only
if the frame store holds a frame at the presentation time of the packet after
the call. A packet rejected as too late leaves both stores and the cursor as
they were. When the packet completes no frame (it is late, a fragment that does
not complete its set, or without data), a true result means that a frame was
already buffered at that time before the call. When the packet completes a
frame and the result is true, the frame at that time carries the number of the
packet. -/
theorem C19_push_result (s : WebMPlayer) (packet : VideoPacket) (now : Nat) (open_ok : Bool)
    (hready : s.m_decoder_ready = true) :
    ((WebMPlayer.AddPacket s packet now open_ok).1 = true ↔
      ∃ f, (packet.GetTime, f) ∈ (WebMPlayer.AddPacket s packet now open_ok).2.m_video_frames) ∧
    (W32_LT packet.GetPacketNo s.m_packet_no = true →
      (WebMPlayer.AddPacket s packet now open_ok).2.m_video_frames = s.m_video_frames ∧
      (WebMPlayer.AddPacket s packet now open_ok).2.m_video_fragments = s.m_video_fragments ∧
      (WebMPlayer.AddPacket s packet now open_ok).2.m_packet_no = s.m_packet_no) ∧
    (ProcessVideoPacket_completes s packet = false →
      (WebMPlayer.AddPacket s packet now open_ok).1 = true →
      ∃ f, (packet.GetTime, f) ∈ s.m_video_frames) ∧
    (ProcessVideoPacket_completes s packet = true →
      (WebMPlayer.AddPacket s packet now open_ok).1 = true →
      ∃ f, mapFind packet.GetTime (WebMPlayer.AddPacket s packet now open_ok).2.m_video_frames
          = some f ∧ f.packet_no = packet.GetPacketNo) := by
  rw [AddPacket_ready s packet now open_ok hready]
  unfold WebMPlayer.AddPacket_process
  simp only []
  refine ⟨mapFind_isSome_iff _ _, ?_, ?_, ?_⟩
  · intro hl
    rw [ProcessVideoPacket_late
      { s with m_local_timestamp := now, m_video_pkts_recv := s.m_video_pkts_recv + 1 }
      packet hl]
    exact ⟨rfl, rfl, rfl⟩
  · intro hc hr
    obtain ⟨f, hf⟩ := (mapFind_isSome_iff _ _).1 hr
    exact ⟨f, List.IsSuffix.subset (ProcessVideoPacket_not_completing
      { s with m_local_timestamp := now, m_video_pkts_recv := s.m_video_pkts_recv + 1 }
      packet hc) hf⟩
  · intro hc hr
    cases hf : mapFind packet.GetTime (ProcessVideoPacket
      { s with m_local_timestamp := now, m_video_pkts_recv := s.m_video_pkts_recv + 1 }
      packet).m_video_frames with
    | none => rw [hf] at hr; simp at hr
    | some f =>
      exact ⟨f, rfl, ProcessVideoPacket_completing
        { s with m_local_timestamp := now, m_video_pkts_recv := s.m_video_pkts_recv + 1 }
        packet hc f hf⟩

/-- C19, amended, at the second fragment of packet 13 pushed after its first:
the frame is completed and the result is true. -/
theorem C19_push_result_witness :
    (WebMPlayer.AddPacket exVideoDone (exVideoFragment 13 540 0 2) 30 true).2.m_decoder_ready
      = true ∧
    ProcessVideoPacket_completes
      (WebMPlayer.AddPacket exVideoDone (exVideoFragment 13 540 0 2) 30 true).2
      (exVideoFragment 13 540 1 2) = true ∧
    (WebMPlayer.AddPacket
      (WebMPlayer.AddPacket exVideoDone (exVideoFragment 13 540 0 2) 30 true).2
      (exVideoFragment 13 540 1 2) 40 true).1 = true ∧
    ∃ f, mapFind (exVideoFragment 13 540 1 2).GetTime (WebMPlayer.AddPacket
      (WebMPlayer.AddPacket exVideoDone (exVideoFragment 13 540 0 2) 30 true).2
      (exVideoFragment 13 540 1 2) 40 true).2.m_video_frames = some f ∧
      f.packet_no = (exVideoFragment 13 540 1 2).GetPacketNo :=
  ⟨by decide, by decide, by decide,
    (C19_push_result
      (WebMPlayer.AddPacket exVideoDone (exVideoFragment 13 540 0 2) 30 true).2
      (exVideoFragment 13 540 1 2) 40 true (by decide)).2.2.2 (by decide) (by decide)⟩

theorem mapIndex_of_mem {β : Type} (d : β) (k : Nat) (b : List (Nat × β))
    (h : k ∈ mapKeys b) : mapIndex d k b = b := by
  unfold mapIndex
  cases hf : mapFind k b with
  | none => exact absurd h ((mapFind_none_iff k b).1 hf)
  | some v => rfl

theorem mapRBegin_eq_keys {β : Type} (b : List (Nat × β)) :
    mapRBegin b = (mapKeys b).getLast? := by
  unfold mapRBegin mapKeys
  rw [List.getLast?_map]

theorem storedSlot_fresh (c : AudioCodec) (p : AudioPacket) (enc : List Nat) (old : encframe)
    (hpath : p.frame_sizes.isSome = true ∨ 1 < c.frames_per_packet) :
    storedSlot c p enc old = storedSlot c p enc encframe.empty := by
  unfold storedSlot
  rcases hpath with h | h
  · cases hs : p.frame_sizes with
    | none => rw [hs] at h; simp at h
    | some sizes => rfl
  · cases hs : p.frame_sizes with
    | none => simp only [gt_iff_lt, h, if_true]
    | some sizes => rfl

/-- C11, counterexample: packets 1, 2, 3 are buffered and the budget has been
lowered to 20 ms; a second push of packet 2, with its frame size supplied,
runs the budget loop, which evicts slots 1 and 2: the key set changes and no
slot is left at number 2. -/
theorem C11_counterexample :
    exShrunk.m_stream_id = 7 ∧
    mapKeys exShrunk.m_buffer = [1, 2, 3] ∧
    Admitted exShrunk (exPacketSized 2) [1, 2, 3] ∧
    mapKeys (AddPacket exShrunk (exPacketSized 2)).m_buffer = [3] ∧
    mapFind 2 (AddPacket exShrunk (exPacketSized 2)).m_buffer = none := by
  decide

/-- C11, amended: in an active state that holds a slot at the number of an
admitted packet and whose buffered estimate is within the budget, `AddPacket`
of a packet that supplies its frame sizes, or under a codec with more than one
frame per packet, changes the buffer only at that slot, which becomes the slot
a fresh push stores: the key set, the cursor and the stream id are unchanged
and the slot holds the payload, the frame sizes (supplied or derived), the
time and the stream id of the packet. -/
theorem C11_duplicate_overwrites (s : AudioPlayer) (p : AudioPacket) (enc : List Nat)
    (hactive : s.m_stream_id ≠ 0) (hadm : Admitted s p enc)
    (hold : p.GetPacketNumber ∈ mapKeys s.m_buffer)
    (hpath : p.frame_sizes.isSome = true ∨ 1 < s.m_codec.frames_per_packet)
    (hbudget : GetBufferedAudioMSec s ≤ s.m_buffer_msec) :
    (AddPacket s p).m_buffer =
      mapModify p.GetPacketNumber (fun _ => storedSlot s.m_codec p enc encframe.empty)
        s.m_buffer ∧
    mapKeys (AddPacket s p).m_buffer = mapKeys s.m_buffer ∧
    mapFind p.GetPacketNumber (AddPacket s p).m_buffer =
      some (storedSlot s.m_codec p enc encframe.empty) ∧
    (storedSlot s.m_codec p enc encframe.empty).enc_frames = enc ∧
    (storedSlot s.m_codec p enc encframe.empty).enc_frame_sizes =
      (match p.frame_sizes with
        | some sizes => sizes
        | none => List.replicate s.m_codec.frames_per_packet s.m_codec.enc_frame_size) ∧
    (storedSlot s.m_codec p enc encframe.empty).timestamp = p.GetTime ∧
    (storedSlot s.m_codec p enc encframe.empty).stream_id = p.GetStreamID ∧
    (AddPacket s p).m_play_pkt_no = s.m_play_pkt_no ∧
    (AddPacket s p).m_stream_id = s.m_stream_id := by
  have hfun : storedSlot s.m_codec p enc =
      fun _ => storedSlot s.m_codec p enc encframe.empty := by
    funext old
    exact storedSlot_fresh s.m_codec p enc old hpath
  have hbuf : (AddPacket_stored s p enc).m_buffer =
      mapModify p.GetPacketNumber (fun _ => storedSlot s.m_codec p enc encframe.empty)
        s.m_buffer := by
    show mapUpdate encframe.empty p.GetPacketNumber (storedSlot s.m_codec p enc) s.m_buffer = _
    unfold mapUpdate
    rw [mapIndex_of_mem _ _ _ hold, hfun]
  have hkeys : mapKeys (AddPacket_stored s p enc).m_buffer = mapKeys s.m_buffer := by
    rw [hbuf, mapKeys_mapModify]
  have hest : GetBufferedAudioMSec (AddPacket_stored s p enc) = GetBufferedAudioMSec s := by
    unfold GetBufferedAudioMSec
    rw [mapRBegin_eq_keys, mapRBegin_eq_keys, hkeys]
    have hlen : (AddPacket_stored s p enc).m_buffer.length = s.m_buffer.length := by
      rw [hbuf, length_mapModify]
    rw [hlen]
    rfl
  have hstop : AddPacket_evict (AddPacket_stored s p enc).m_buffer.length
      (AddPacket_stored s p enc) = AddPacket_stored s p enc := by
    apply AddPacket_evict_stop
    rintro ⟨h1, _⟩
    rw [hest] at h1
    have h2 : (AddPacket_stored s p enc).m_buffer_msec = s.m_buffer_msec := rfl
    rw [h2] at h1
    omega
  have hadd : AddPacket s p = AddPacket_stored s p enc := by
    rw [AddPacket_admitted s p enc hadm, hstop]
    have h3 : (AddPacket_stored s p enc).m_stream_id = s.m_stream_id := rfl
    rw [if_neg (by rw [h3]; exact hactive)]
  rw [hadd]
  refine ⟨hbuf, hkeys, ?_, rfl, ?_, rfl, rfl, rfl, rfl⟩
  · rw [hbuf, mapFind_mapModify]
    cases hf : mapFind p.GetPacketNumber s.m_buffer with
    | none => exact absurd hold ((mapFind_none_iff _ _).1 hf)
    | some v => rfl
  · unfold storedSlot
    simp only []
    rcases hpath with h | h
    · cases hs : p.frame_sizes with
      | none => rw [hs] at h; simp at h
      | some sizes => rfl
    · cases hs : p.frame_sizes with
      | none => simp only [gt_iff_lt, h, if_true]
      | some sizes => rfl

/-- C11, amended, at a second push of packet 2 with its frame size supplied
while packets 1, 2, 3 are buffered within the budget. -/
theorem C11_duplicate_overwrites_witness :
    exThree.m_stream_id ≠ 0 ∧ Admitted exThree (exPacketSized 2) [1, 2, 3] ∧
    mapKeys (AddPacket exThree (exPacketSized 2)).m_buffer = mapKeys exThree.m_buffer ∧
    mapFind (exPacketSized 2).GetPacketNumber (AddPacket exThree (exPacketSized 2)).m_buffer =
      some (storedSlot exThree.m_codec (exPacketSized 2) [1, 2, 3] encframe.empty) :=
  ⟨by decide, by decide,
    (C11_duplicate_overwrites exThree (exPacketSized 2) [1, 2, 3] (by decide) (by decide)
      (by decide) (by decide) (by decide)).2.1,
    (C11_duplicate_overwrites exThree (exPacketSized 2) [1, 2, 3] (by decide) (by decide)
      (by decide) (by decide) (by decide)).2.2.1⟩

/-! ## Sliding expiry of audio fragments -/

theorem QueuePacket_frags_eq_cleaned (s : AudioPlayer) (f : AudioPacket) (i : Nat) :
    QueuePacket_frags s f i =
      mapUpdate [] f.GetPacketNumber (fragSet i f) (QueuePacket_cleaned s f) := rfl

/-- C24, counterexample: fragment 0 of packet 0 is pending and the cursor is
0. A fragment of packet 5 is pushed: the store holds fewer than 10 entries, so
the threshold is the cursor, 0; the entry with key 0 is wrap-aware at or below
it, but the call does not run the clean-up for the threshold 0 and the entry
is kept. -/
theorem C24_counterexample :
    Reachable exZeroPending ∧
    mapKeys exZeroPending.m_audfragments = [0] ∧
    exZeroPending.m_play_pkt_no = 0 ∧
    QueuePacket_old_packet_no exZeroPending (exFragment 5 0 2) = 0 ∧
    W16_GEQ (QueuePacket_old_packet_no exZeroPending (exFragment 5 0 2)) 0 = true ∧
    QueuePacket_cleaned exZeroPending (exFragment 5 0 2) = exZeroPending.m_audfragments ∧
    mapKeys (QueuePacket exZeroPending (exFragment 5 0 2)).2.m_audfragments = [0, 5] :=
  ⟨⟨0, 1, StreamType.STREAMTYPE_VOICE, exCodec, 500, _, rfl⟩,
    by decide, by decide, by decide, by decide, by decide, by decide⟩

/-- C24, amended: for every state and every pushed fragment with a valid
fragment number, the threshold is `packet_no - 10` (mod 2^16) when the fragment
store holds at least 10 packet entries and `m_play_pkt_no` otherwise. When the
threshold is not 0, `QueuePacket` evicts, before the fragment is stored, every
entry whose key is wrap-aware at or below the threshold and keeps every other
entry unchanged and in place; when the threshold is 0 it evicts nothing. The
fragment is then stored into the store so cleaned. -/
theorem C24_fragment_sliding_expiry (s : AudioPlayer) (f : AudioPacket) (i : Nat)
    (hf : f.has_fragments = true) (hi : f.fragno = some i) :
    (QueuePacket_old_packet_no s f =
      if s.m_audfragments.length ≥ 10 then (f.GetPacketNumber + 65536 - 10) % 65536
      else s.m_play_pkt_no) ∧
    (QueuePacket_old_packet_no s f ≠ 0 →
      QueuePacket_cleaned s f =
        s.m_audfragments.filter
          (fun e => !(W16_GEQ (QueuePacket_old_packet_no s f) e.1)) ∧
      (∀ e ∈ s.m_audfragments, W16_GEQ (QueuePacket_old_packet_no s f) e.1 = true →
        e ∉ QueuePacket_cleaned s f) ∧
      (∀ e ∈ s.m_audfragments, W16_GEQ (QueuePacket_old_packet_no s f) e.1 = false →
        e ∈ QueuePacket_cleaned s f)) ∧
    (QueuePacket_old_packet_no s f = 0 → QueuePacket_cleaned s f = s.m_audfragments) ∧
    (QueuePacket s f =
      match ReassembleAudioPacket
          ((mapFind f.GetPacketNumber
            (mapUpdate [] f.GetPacketNumber (fragSet i f) (QueuePacket_cleaned s f))).getD [])
          s.m_codec with
      | none => (none, { s with m_audfragments :=
          (mapUpdate [] f.GetPacketNumber (fragSet i f) (QueuePacket_cleaned s f)) })
      | some q => (some q, AddPacket
          { s with m_audfragments := (mapErase f.GetPacketNumber
              (mapUpdate [] f.GetPacketNumber (fragSet i f) (QueuePacket_cleaned s f))) } q)) := by
  refine ⟨?_, ?_, ?_, ?_⟩
  · unfold QueuePacket_old_packet_no toUInt16
    have hlt : f.GetPacketNumber < 65536 := GetPacketNumber_lt f
    split_ifs
    · omega
    · rfl
  · intro hth
    have hc : QueuePacket_cleaned s f =
        s.m_audfragments.filter
          (fun e => !(W16_GEQ (QueuePacket_old_packet_no s f) e.1)) := by
      unfold QueuePacket_cleaned CleanUpAudioFragments
      rw [if_pos hth]
    refine ⟨hc, ?_, ?_⟩
    · intro e _ hge hmem
      rw [hc, List.mem_filter] at hmem
      rw [hge] at hmem
      simp at hmem
    · intro e he hge
      rw [hc, List.mem_filter]
      exact ⟨he, by rw [hge]; rfl⟩
  · intro hth
    unfold QueuePacket_cleaned
    rw [if_neg (by rw [hth]; simp)]
  · rw [← QueuePacket_frags_eq_cleaned]
    exact QueuePacket_fragment_eq s f i hf hi

/-- C24, amended, at the push of a fragment of packet 100 while fragments of
packets 1..9 are pending and the cursor is 0, and at a push of a fragment of
packet 30 into the ten entries that this leaves: the threshold is then 20 and
the entries of packets 1..9 are evicted. -/
theorem C24_fragment_sliding_expiry_witness :
    QueuePacket_old_packet_no exNinePending (exFragment 100 0 2) = 0 ∧
    QueuePacket_cleaned exNinePending (exFragment 100 0 2) = exNinePending.m_audfragments ∧
    QueuePacket_old_packet_no (QueuePacket exNinePending (exFragment 100 0 2)).2
      (exFragment 30 0 2) = 20 ∧
    mapKeys (QueuePacket_cleaned (QueuePacket exNinePending (exFragment 100 0 2)).2
      (exFragment 30 0 2)) = [100] ∧
    QueuePacket_cleaned (QueuePacket exNinePending (exFragment 100 0 2)).2
        (exFragment 30 0 2) =
      (QueuePacket exNinePending (exFragment 100 0 2)).2.m_audfragments.filter
        (fun e => !(W16_GEQ (QueuePacket_old_packet_no
          (QueuePacket exNinePending (exFragment 100 0 2)).2 (exFragment 30 0 2)) e.1)) :=
  ⟨by decide,
    (C24_fragment_sliding_expiry exNinePending (exFragment 100 0 2) 0 rfl rfl).2.2.1 (by decide),
    by decide, by decide,
    ((C24_fragment_sliding_expiry (QueuePacket exNinePending (exFragment 100 0 2)).2
      (exFragment 30 0 2) 0 rfl rfl).2.1 (by decide)).1⟩

/-! ## Rejected packets and the buffered estimate -/

/-- C26 (code defect): packet 100 is buffered; a second packet 100 whose
supplied frame size (2) does not sum to its payload length (3) is rejected, and
the rejection at line 360 erases slot 100: the jitter buffer is empty
afterwards. The cursor and the stream id are unchanged. -/
theorem C26_mismatched_duplicate_erases_slot :
    Reachable exSingle ∧
    exSingle.m_buffer =
      [(100, { enc_frames := [1, 2, 3], enc_frame_sizes := [3], stream_id := 7,
               timestamp := 1100 })] ∧
    exMismatch.GetPacketNumber = 100 ∧ exMismatch.enc = some [1, 2, 3] ∧
    exMismatch.frame_sizes = some [2] ∧
    sizesOK exMismatch [1, 2, 3] = false ∧
    ¬ Admitted exSingle exMismatch [1, 2, 3] ∧
    (AddPacket exSingle exMismatch).m_buffer = [] ∧
    (AddPacket exSingle exMismatch).m_play_pkt_no = exSingle.m_play_pkt_no ∧
    (AddPacket exSingle exMismatch).m_stream_id = exSingle.m_stream_id :=
  ⟨⟨0, 1, StreamType.STREAMTYPE_VOICE, exCodec, 500, _, rfl⟩,
    by decide, by decide, by decide, by decide, by decide, by decide, by decide, by decide,
    by decide⟩

/-- In a state that satisfies the invariant, with an active stream, a nonzero
callback duration and a highest buffered key `l` at most 32766 sequence steps
ahead of the cursor, the estimate is the callback duration times the number of
steps plus one. -/
theorem GetBufferedAudioMSec_of_steps (s : AudioPlayer) (hs : Inv s) (ha : s.m_stream_id ≠ 0)
    (l : Nat) (hl : mapRBegin s.m_buffer = some l)
    (hd : seqOff s.m_play_pkt_no l ≤ 32766) :
    GetBufferedAudioMSec s =
      GetAudioCodecCbMillis s.m_codec * ((seqOff s.m_play_pkt_no l : Int) + 1) := by
  have hne : s.m_buffer.length ≠ 0 := by
    intro h
    rw [List.length_eq_zero] at h
    rw [h] at hl
    simp [mapRBegin] at hl
  have hmem : l ∈ mapKeys s.m_buffer := by
    unfold mapRBegin at hl
    rw [Option.map_eq_some'] at hl
    obtain ⟨e, he, rfl⟩ := hl
    exact List.mem_map_of_mem Prod.fst (List.mem_of_getLast?_eq_some he)
  have hl16 := (hs.keys.1 l hmem).1
  have hcast := toInt16_sub s.m_play_pkt_no l hs.play_lt hl16
  rw [if_pos (by omega)] at hcast
  unfold GetBufferedAudioMSec
  simp only [hl, Option.getD_some]
  by_cases hc : GetAudioCodecCbMillis s.m_codec = 0
  · rw [if_neg (by simp [hc]), hc]
    simp
  · have hinc : toInt16 ((seqOff s.m_play_pkt_no l : Int) + 1) =
        (seqOff s.m_play_pkt_no l : Int) + 1 := by
      unfold toInt16
      split_ifs <;> omega
    rw [if_pos ⟨ha, hne, hc⟩, hcast, hinc]

/-- C27 (code defect): packets 0 and 32767 of one stream are pushed into a new
player. The stream is active, the cursor is 0 and the highest buffered key is
32767 steps ahead of it, and with the 20 ms callback the estimate is
`20 * (-32768)`: the pre-increment of the `int16_t` count at line 314 wraps. -/
theorem C27_estimate_negative_at_half_window :
    Reachable exEdge ∧
    exEdge.m_stream_id = 7 ∧ exEdge.m_play_pkt_no = 0 ∧
    mapKeys exEdge.m_buffer = [0, 32767] ∧
    mapRBegin exEdge.m_buffer = some 32767 ∧
    seqOff exEdge.m_play_pkt_no 32767 = 32767 ∧
    GetAudioCodecCbMillis exEdge.m_codec = 20 ∧
    GetBufferedAudioMSec exEdge = -655360 ∧
    GetBufferedAudioMSec exEdge < 0 :=
  ⟨⟨0, 1, StreamType.STREAMTYPE_VOICE, exCodec, 500, _, rfl⟩,
    by decide, by decide, by decide, by decide, by decide, by decide, by decide, by decide⟩

/-! ## The video player: the remove-obsolete pass and the pull -/

theorem length_mapErase_cons_self {β : Type} (k : Nat) (v : β) (t : List (Nat × β)) :
    (mapErase k ((k, v) :: t)).length ≤ t.length := by
  unfold mapErase
  rw [List.filter_cons_of_neg (by simp)]
  exact List.length_filter_le _ _

theorem RemoveObsoletePackets_fragments_exit (fuel : Nat) (s : WebMPlayer)
    (h : s.m_video_fragments.length ≤ fuel) (k : Nat) (v : List (Nat × VideoPacket))
    (rest : List (Nat × List (Nat × VideoPacket)))
    (hr : (RemoveObsoletePackets_fragments fuel s).m_video_fragments = (k, v) :: rest) :
    W32_LEQ k s.m_packet_no = false := by
  induction fuel generalizing s with
  | zero =>
    have h0 : s.m_video_fragments = [] := List.length_eq_zero.1 (Nat.le_zero.1 h)
    have h1 : (RemoveObsoletePackets_fragments 0 s).m_video_fragments = [] := h0
    rw [h1] at hr
    exact absurd hr (by simp)
  | succ n ih =>
    unfold RemoveObsoletePackets_fragments at hr
    split at hr
    · rename_i hb
      rw [hb] at hr
      exact absurd hr (by simp)
    · rename_i k1 v1 t hb
      split_ifs at hr with hc
      · refine ih { s with
              m_videoframes_lost :=
                s.m_videoframes_lost + toUInt32 ((s.m_packet_no : Int) - (k1 : Int))
              m_video_fragments := mapErase k1 s.m_video_fragments } ?_ hr
        show (mapErase k1 s.m_video_fragments).length ≤ n
        rw [hb] at h ⊢
        have := length_mapErase_cons_self k1 v1 t
        simp only [List.length_cons] at h
        omega
      · rw [hb] at hr
        obtain ⟨h1, _⟩ := List.cons.inj hr
        have h2 : k1 = k := (Prod.mk.inj h1).1
        rw [← h2]
        exact Bool.eq_false_iff.2 hc

theorem RemoveObsoletePackets_fragments_evicted (fuel : Nat) (s : WebMPlayer) :
    (∀ k ∈ RemoveObsoletePackets_evicted fuel s,
      W32_LEQ k s.m_packet_no = true ∧ k ∈ mapKeys s.m_video_fragments) ∧
    (RemoveObsoletePackets_fragments fuel s).m_video_fragments =
      s.m_video_fragments.filter
        (fun e => decide (e.1 ∉ RemoveObsoletePackets_evicted fuel s)) ∧
    (RemoveObsoletePackets_fragments fuel s).m_videoframes_lost =
      s.m_videoframes_lost +
        ((RemoveObsoletePackets_evicted fuel s).map
          (fun k => toUInt32 ((s.m_packet_no : Int) - (k : Int)))).sum := by
  induction fuel generalizing s with
  | zero =>
    refine ⟨?_, ?_, ?_⟩
    · intro k hk
      exact absurd hk (List.not_mem_nil k)
    · show s.m_video_fragments = _
      unfold RemoveObsoletePackets_evicted
      simp
    · show s.m_videoframes_lost = _
      unfold RemoveObsoletePackets_evicted
      simp
  | succ n ih =>
    unfold RemoveObsoletePackets_fragments RemoveObsoletePackets_evicted
    split
    · rename_i hb
      refine ⟨?_, ?_, ?_⟩
      · intro k hk
        exact absurd hk (List.not_mem_nil k)
      · simp
      · simp
    · rename_i k1 v1 t hb
      split_ifs with hc
      · obtain ⟨i1, i2, i3⟩ := ih { s with
              m_videoframes_lost :=
                s.m_videoframes_lost + toUInt32 ((s.m_packet_no : Int) - (k1 : Int))
              m_video_fragments := mapErase k1 s.m_video_fragments }
        refine ⟨?_, ?_, ?_⟩
        · intro k hk
          rcases List.mem_cons.1 hk with rfl | hk
          · refine ⟨hc, ?_⟩
            rw [hb]
            simp [mapKeys]
          · obtain ⟨j1, j2⟩ := i1 k hk
            refine ⟨j1, ?_⟩
            have j3 : k ∈ mapKeys (mapErase k1 s.m_video_fragments) := j2
            rw [mapKeys_mapErase] at j3
            exact (List.mem_filter.1 j3).1
        · rw [i2]
          show (mapErase k1 s.m_video_fragments).filter _ = _
          unfold mapErase
          rw [List.filter_filter]
          apply List.filter_congr
          intro e _
          simp only [List.mem_cons, not_or, ne_eq, decide_not, Bool.and_eq_true,
            Bool.not_eq_eq_eq_not, Bool.not_true, decide_eq_false_iff_not, decide_eq_true_eq,
            Bool.decide_and]
          by_cases h1 : e.1 = k1 <;> simp [h1]
        · rw [i3]
          simp only [List.map_cons, List.sum_cons]
          exact Nat.add_assoc _ _ _
      · refine ⟨?_, ?_, ?_⟩
        · intro k hk
          exact absurd hk (List.not_mem_nil k)
        · simp
        · simp

theorem RemoveObsoletePackets_fragments_rest (fuel : Nat) (s : WebMPlayer) :
    RemoveObsoletePackets_fragments fuel s =
      { s with
        m_video_fragments := (RemoveObsoletePackets_fragments fuel s).m_video_fragments
        m_videoframes_lost := (RemoveObsoletePackets_fragments fuel s).m_videoframes_lost } := by
  induction fuel generalizing s with
  | zero => rfl
  | succ n ih =>
    unfold RemoveObsoletePackets_fragments
    split
    · rfl
    · split_ifs
      · rw [ih]
      · rfl

theorem RemoveObsoletePackets_frames_rest (fuel : Nat) (s : WebMPlayer) :
    RemoveObsoletePackets_frames fuel s =
      { s with m_video_frames := (RemoveObsoletePackets_frames fuel s).m_video_frames } := by
  induction fuel generalizing s with
  | zero => rfl
  | succ n ih =>
    unfold RemoveObsoletePackets_frames
    split
    · rfl
    · split_ifs
      · rw [ih]
      · rfl

theorem RemoveObsoletePackets_frames_exit (fuel : Nat) (s : WebMPlayer)
    (h : s.m_video_frames.length ≤ fuel) :
    (∀ t f rest, (RemoveObsoletePackets_frames fuel s).m_video_frames = (t, f) :: rest →
      W32_LT f.packet_no s.m_packet_no = false) ∧
    ∃ pre, s.m_video_frames = pre ++ (RemoveObsoletePackets_frames fuel s).m_video_frames ∧
      ∀ e ∈ pre, W32_LT e.2.packet_no s.m_packet_no = true := by
  induction fuel generalizing s with
  | zero =>
    have h0 : s.m_video_frames = [] := List.length_eq_zero.1 (Nat.le_zero.1 h)
    have h1 : (RemoveObsoletePackets_frames 0 s).m_video_frames = [] := h0
    refine ⟨?_, [], ?_, ?_⟩
    · intro t f rest hr
      rw [h1] at hr
      exact absurd hr (by simp)
    · rw [h1, h0]; rfl
    · intro e he
      exact absurd he (List.not_mem_nil e)
  | succ n ih =>
    unfold RemoveObsoletePackets_frames
    split
    · rename_i hb
      refine ⟨?_, [], ?_, ?_⟩
      · intro t f rest hr
        rw [hb] at hr
        exact absurd hr (by simp)
      · rfl
      · intro e he
        exact absurd he (List.not_mem_nil e)
    · rename_i t1 f1 r1 hb
      split_ifs with hc
      · obtain ⟨i1, pre, i2, i3⟩ := ih { s with m_video_frames := r1 } (by
          show r1.length ≤ n
          rw [hb] at h
          simp only [List.length_cons] at h
          omega)
        refine ⟨i1, (t1, f1) :: pre, ?_, ?_⟩
        · rw [hb, List.cons_append]
          congr 1
        · intro e he
          rcases List.mem_cons.1 he with rfl | he
          · exact hc
          · exact i3 e he
      · refine ⟨?_, [], rfl, ?_⟩
        · intro t f rest hr
          rw [hb] at hr
          obtain ⟨h1, _⟩ := List.cons.inj hr
          have h2 : f1 = f := (Prod.mk.inj h1).2
          rw [← h2]
          exact Bool.eq_false_iff.2 hc
        · intro e he
          exact absurd he (List.not_mem_nil e)

theorem RemoveObsoletePackets_frames_stop (fuel : Nat) (s : WebMPlayer)
    (h : ∀ t f rest, s.m_video_frames = (t, f) :: rest →
      W32_LT f.packet_no s.m_packet_no = false) :
    RemoveObsoletePackets_frames fuel s = s := by
  cases fuel with
  | zero => rfl
  | succ n =>
    unfold RemoveObsoletePackets_frames
    split
    · rfl
    · rename_i t1 f1 r1 hb
      rw [if_neg (by rw [h t1 f1 r1 hb]; simp)]

theorem RemoveObsoletePackets_eq (s : WebMPlayer) :
    RemoveObsoletePackets s =
      RemoveObsoletePackets_frames s.m_video_frames.length
        (RemoveObsoletePackets_fragments s.m_video_fragments.length s) := by
  unfold RemoveObsoletePackets
  simp only []
  rw [(RemoveObsoletePackets_fragments_frames _ s).1]

/-- C25, counterexample: in the state reached by pushing packets 3, 5 and 9
at the presentation times 600, 500 and 550 and pulling once, the cursor is 5
and the frames of packets 9 and 3 are buffered in this order. The
remove-obsolete pass, which the pull ran and which is run here once more,
stops at the first frame (packet 9) and leaves the frame of packet 3, whose
packet number is wrap-aware below the cursor. -/
theorem C25_counterexample :
    VideoReachable exVideoBehind ∧
    RemoveObsoletePackets exVideoBehind = exVideoBehind ∧
    (RemoveObsoletePackets exVideoBehind).m_packet_no = 5 ∧
    (RemoveObsoletePackets exVideoBehind).m_video_frames =
      [(550, ⟨[9, 9], 9⟩), (600, ⟨[3, 3], 3⟩)] ∧
    W32_LT 3 (RemoveObsoletePackets exVideoBehind).m_packet_no = true :=
  ⟨⟨1, 3, 0, _, rfl⟩, by decide, by decide, by decide, by decide⟩

/-- C25, amended: for every state, `RemoveObsoletePackets` leaves the cursor
`m_packet_no` unchanged and removes leading entries only. It erases the first
fragment set while its key is wrap-aware at or below the cursor, so that
afterwards the first entry of the fragment map, if any, has a key above the
cursor; the erased keys are those listed by `RemoveObsoletePackets_evicted`,
all other entries are kept, and the lost-frames counter grows by the sum of
`m_packet_no - key` (mod 2^32) over the erased keys. It erases the first frame
while its packet number is wrap-aware below the cursor, so that afterwards the
first frame, if any, has a packet number not below the cursor; the erased
frames are a prefix of the frame map and each has a packet number below the
cursor. -/
theorem C25_remove_obsolete (s : WebMPlayer) :
    (RemoveObsoletePackets s).m_packet_no = s.m_packet_no ∧
    (∀ k v rest, (RemoveObsoletePackets s).m_video_fragments = (k, v) :: rest →
      W32_LEQ k s.m_packet_no = false) ∧
    (∀ t f rest, (RemoveObsoletePackets s).m_video_frames = (t, f) :: rest →
      W32_LT f.packet_no s.m_packet_no = false) ∧
    (∃ pre, s.m_video_frames = pre ++ (RemoveObsoletePackets s).m_video_frames ∧
      ∀ e ∈ pre, W32_LT e.2.packet_no s.m_packet_no = true) ∧
    (∀ k ∈ RemoveObsoletePackets_evicted s.m_video_fragments.length s,
      W32_LEQ k s.m_packet_no = true ∧ k ∈ mapKeys s.m_video_fragments) ∧
    (RemoveObsoletePackets s).m_video_fragments =
      s.m_video_fragments.filter
        (fun e => decide (e.1 ∉ RemoveObsoletePackets_evicted s.m_video_fragments.length s)) ∧
    (RemoveObsoletePackets s).m_videoframes_lost =
      s.m_videoframes_lost +
        ((RemoveObsoletePackets_evicted s.m_video_fragments.length s).map
          (fun k => toUInt32 ((s.m_packet_no : Int) - (k : Int)))).sum := by
  obtain ⟨a1, a2, _⟩ := RemoveObsoletePackets_fragments_frames s.m_video_fragments.length s
  obtain ⟨e1, e2, e3⟩ := RemoveObsoletePackets_fragments_evicted s.m_video_fragments.length s
  have hx := RemoveObsoletePackets_fragments_exit s.m_video_fragments.length s (le_refl _)
  obtain ⟨b1, b2, _⟩ := RemoveObsoletePackets_frames_suffix s.m_video_frames.length
    (RemoveObsoletePackets_fragments s.m_video_fragments.length s)
  obtain ⟨c1, pre, c2, c3⟩ := RemoveObsoletePackets_frames_exit s.m_video_frames.length
    (RemoveObsoletePackets_fragments s.m_video_fragments.length s) (by rw [a1])
  have hlost : (RemoveObsoletePackets_frames s.m_video_frames.length
      (RemoveObsoletePackets_fragments s.m_video_fragments.length s)).m_videoframes_lost =
      (RemoveObsoletePackets_fragments s.m_video_fragments.length s).m_videoframes_lost := by
    rw [RemoveObsoletePackets_frames_rest]
  rw [RemoveObsoletePackets_eq]
  rw [a2] at c1 c3
  rw [a1] at c2
  refine ⟨by rw [b2, a2], ?_, c1, ⟨pre, c2, c3⟩, e1, ?_, ?_⟩
  · intro k v rest hr
    rw [b1] at hr
    exact hx k v rest hr
  · rw [b1, e2]
  · rw [hlost, e3]

/-- C25, amended, at the state in which the fragment set of packet 12 is
pending and the cursor is 13: the pass erases the set and the lost-frames
counter grows by 1. -/
theorem C25_remove_obsolete_witness :
    mapKeys exVideoStale.m_video_fragments = [12] ∧
    exVideoStale.m_packet_no = 13 ∧
    RemoveObsoletePackets_evicted exVideoStale.m_video_fragments.length exVideoStale = [12] ∧
    (RemoveObsoletePackets exVideoStale).m_video_fragments = [] ∧
    (RemoveObsoletePackets exVideoStale).m_videoframes_lost =
      exVideoStale.m_videoframes_lost +
        ((RemoveObsoletePackets_evicted exVideoStale.m_video_fragments.length
            exVideoStale).map
          (fun k => toUInt32 ((exVideoStale.m_packet_no : Int) - (k : Int)))).sum ∧
    (RemoveObsoletePackets exVideoStale).m_videoframes_lost = 1 :=
  ⟨by decide, by decide, by decide, by decide,
    (C25_remove_obsolete exVideoStale).2.2.2.2.2.2, by decide⟩

/-- C22, counterexample: packet 3, presented at time 600, and packet 5,
presented at time 500, are buffered, so the frame of packet 5 is the first of
the frame map. A pull that the decoder accepts removes it, sets the cursor to
5, and the remove-obsolete pass then erases the frame of packet 3 as well: the
frame map is empty, where the removal of exactly the first frame leaves the
frame of packet 3. -/
theorem C22_counterexample :
    VideoReachable exVideoSwapped ∧
    exVideoSwapped.m_decoder_ready = true ∧
    exVideoSwapped.m_video_frames = [(500, ⟨[5, 5], 5⟩), (600, ⟨[3, 3], 3⟩)] ∧
    (GetNextFrame exVideoSwapped none DecoderResult.VPX_CODEC_OK).1.isSome = true ∧
    (GetNextFrame exVideoSwapped none DecoderResult.VPX_CODEC_OK).2.m_packet_no = 5 ∧
    (GetNextFrame exVideoSwapped none DecoderResult.VPX_CODEC_OK).2.m_video_frames = [] ∧
    (GetNextFrame exVideoSwapped none DecoderResult.VPX_CODEC_OK).2.m_video_frames ≠
      exVideoSwapped.m_video_frames.tail :=
  ⟨⟨1, 3, 0, _, rfl⟩, by decide, by decide, by decide, by decide, by decide, by decide⟩

/-- C22, amended: for every state, `GetNextFrame` returns null and changes
nothing when the decoder is not ready, the frame map is empty, or a horizon is
supplied and the presentation time of the first frame is wrap-aware strictly
greater than the horizon. Otherwise it sets `m_packet_no` to the packet number
of the first frame and removes that frame; when the decoder result is not OK
it returns null and changes nothing else; when the result is OK it returns a
frame and then runs the remove-obsolete pass, which may erase further leading
frames (and fragment sets): the frame map afterwards is a suffix of the
remaining frames, and is exactly the remaining frames when the next frame has
a packet number that is not wrap-aware below the pulled one. -/
theorem C22_video_pull (s : WebMPlayer) (timestamp : Option Nat) (ret : DecoderResult) :
    ((s.m_decoder_ready = false ∨ s.m_video_frames = [] ∨
        ∃ t f rest h, s.m_video_frames = (t, f) :: rest ∧ timestamp = some h ∧
          W32_GT t h = true) →
      GetNextFrame s timestamp ret = (none, s)) ∧
    (∀ t f rest, s.m_decoder_ready = true → s.m_video_frames = (t, f) :: rest →
      (∀ h, timestamp = some h → W32_GT t h = false) →
      (ret ≠ DecoderResult.VPX_CODEC_OK →
        GetNextFrame s timestamp ret =
          (none, { s with m_packet_no := f.packet_no, m_video_frames := rest })) ∧
      (ret = DecoderResult.VPX_CODEC_OK →
        (GetNextFrame s timestamp ret).1.isSome = true ∧
        (GetNextFrame s timestamp ret).2 =
          RemoveObsoletePackets { s with m_packet_no := f.packet_no, m_video_frames := rest } ∧
        (GetNextFrame s timestamp ret).2.m_packet_no = f.packet_no ∧
        (GetNextFrame s timestamp ret).2.m_video_frames <:+ rest ∧
        ((∀ t2 f2 rest2, rest = (t2, f2) :: rest2 →
            W32_LT f2.packet_no f.packet_no = false) →
          (GetNextFrame s timestamp ret).2.m_video_frames = rest))) := by
  constructor
  · intro h
    unfold GetNextFrame
    split
    · rfl
    · rename_i t f rest hb
      rcases h with h | h | ⟨t1, f1, r1, hz, h1, h2, h3⟩
      · rw [if_pos (by simp [h])]
      · rw [hb] at h
        exact absurd h (by simp)
      · rw [hb] at h1
        obtain ⟨h4, _⟩ := List.cons.inj h1
        have h5 : t = t1 := (Prod.mk.inj h4).1
        subst h2
        rw [if_pos (by simp [h5, h3])]
  · intro t f rest hready hb hh
    have hstep : GetNextFrame s timestamp ret =
        match ret with
        | DecoderResult.VPX_CODEC_OK =>
          (some { width := (RemoveObsoletePackets
                    { s with m_packet_no := f.packet_no, m_video_frames := rest }).decoder_w,
                  height := (RemoveObsoletePackets
                    { s with m_packet_no := f.packet_no, m_video_frames := rest }).decoder_h,
                  frame_length := (RemoveObsoletePackets
                    { s with m_packet_no := f.packet_no, m_video_frames := rest }).decoder_w *
                    (RemoveObsoletePackets
                    { s with m_packet_no := f.packet_no, m_video_frames := rest }).decoder_h * 4,
                  stream_id := (RemoveObsoletePackets
                    { s with m_packet_no := f.packet_no,
                             m_video_frames := rest }).m_videostream_id },
            RemoveObsoletePackets { s with m_packet_no := f.packet_no, m_video_frames := rest })
        | _ => (none, { s with m_packet_no := f.packet_no, m_video_frames := rest }) := by
      unfold GetNextFrame
      rw [hb]
      cases timestamp with
      | none =>
        simp only []
        rw [if_neg (by rw [hready]; simp)]
      | some ts =>
        simp only []
        rw [if_neg (by rw [hready]; simp [hh ts rfl])]
    constructor
    · intro hne
      rw [hstep]
      cases ret with
      | VPX_CODEC_OK => exact absurd rfl hne
      | VPX_CODEC_UNSUP_BITSTREAM => rfl
      | VPX_CODEC_OTHER_ERROR => rfl
    · intro heq
      subst heq
      rw [hstep]
      simp only []
      obtain ⟨r1, _, r3⟩ := RemoveObsoletePackets_frame
        { s with m_packet_no := f.packet_no, m_video_frames := rest }
      refine ⟨rfl, trivial, r3, r1, ?_⟩
      intro hnext
      rw [RemoveObsoletePackets_eq]
      rw [RemoveObsoletePackets_frames_stop]
      · exact (RemoveObsoletePackets_fragments_frames _ _).1
      · intro t2 f2 rest2 h2
        rw [(RemoveObsoletePackets_fragments_frames _ _).1] at h2
        rw [(RemoveObsoletePackets_fragments_frames _ _).2.1]
        exact hnext t2 f2 rest2 h2

/-- C22, amended, at the state with the frame of packet 13 buffered at time
540: a pull with the horizon 539 returns null and changes nothing, and a pull
that meets a decoder error removes the frame and moves the cursor to 13. -/
theorem C22_video_pull_witness :
    exVideoPulled.m_decoder_ready = true ∧
    exVideoPulled.m_video_frames = [(540, ⟨[13, 13], 13⟩)] ∧
    W32_GT 540 539 = true ∧
    GetNextFrame exVideoPulled (some 539) DecoderResult.VPX_CODEC_OK = (none, exVideoPulled) ∧
    GetNextFrame exVideoPulled (some 540) DecoderResult.VPX_CODEC_OTHER_ERROR =
      (none, { exVideoPulled with m_packet_no := 13, m_video_frames := [] }) :=
  ⟨by decide, by decide, by decide,
    (C22_video_pull exVideoPulled (some 539) DecoderResult.VPX_CODEC_OK).1
      (Or.inr (Or.inr ⟨540, ⟨[13, 13], 13⟩, [], 539, by decide, rfl, by decide⟩)),
    ((C22_video_pull exVideoPulled (some 540) DecoderResult.VPX_CODEC_OTHER_ERROR).2
      540 ⟨[13, 13], 13⟩ [] (by decide) (by decide)
      (by intro h hh; cases hh; decide)).1 (by decide)⟩

/-! ## The video player: the cursor -/

theorem mem_mapInsert32 {β : Type} (k : Nat) (v : β) (b : List (Nat × β)) (e : Nat × β) :
    e ∈ mapInsert32 k v b ↔ e = (k, v) ∨ e ∈ b := by
  induction b with
  | nil => simp [mapInsert32]
  | cons a t ih =>
    obtain ⟨k1, v1⟩ := a
    unfold mapInsert32
    split_ifs
    · simp
    · simp only [List.mem_cons, ih]
      tauto

theorem mem_mapUpdate32 {β : Type} (d x : β) (k : Nat) (b : List (Nat × β)) (e : Nat × β)
    (he : e ∈ mapUpdate32 d k (fun _ => x) b) : e = (k, x) ∨ e ∈ b := by
  unfold mapUpdate32 at he
  rcases mem_mapModify k (fun _ => x) _ e he with ⟨v, _, hv⟩ | ⟨h1, h2⟩
  · exact Or.inl hv
  · right
    unfold mapIndex32 at h1
    cases hf : mapFind k b with
    | none =>
      rw [hf] at h1
      rcases (mem_mapInsert32 k d b e).1 h1 with h3 | h3
      · rw [h3] at h2
        exact absurd rfl h2
      · exact h3
    | some v =>
      rw [hf] at h1
      exact h1

theorem ageEvict_cases (last_time : Nat) (l : List (Nat × enc_frame)) (c : Nat) :
    ageEvict last_time l c = c ∨ ∃ e ∈ l, ageEvict last_time l c = e.2.packet_no := by
  induction l generalizing c with
  | nil => exact Or.inl rfl
  | cons a t ih =>
    obtain ⟨t1, f1⟩ := a
    unfold ageEvict
    split_ifs
    · rcases ih f1.packet_no with h | ⟨e, he, h⟩
      · exact Or.inr ⟨(t1, f1), List.mem_cons_self _ _, h⟩
      · exact Or.inr ⟨e, List.mem_cons_of_mem _ he, h⟩
    · exact Or.inl rfl

theorem ProcessVideoPacket_store_frames (s s1 : WebMPlayer) (packet : VideoPacket)
    (hs : ProcessVideoPacket_store s packet = some s1) :
    s1.m_packet_no = s.m_packet_no ∧
    ∀ e ∈ s1.m_video_frames, e ∈ s.m_video_frames ∨ e.2.packet_no = packet.GetPacketNo := by
  unfold ProcessVideoPacket_store at hs
  simp only [] at hs
  cases hf : packet.GetFragmentNo with
  | none =>
    rw [hf] at hs
    simp only [] at hs
    cases hd : packet.data with
    | none => rw [hd] at hs; simp at hs
    | some data =>
      rw [hd] at hs
      simp only [Option.some.injEq] at hs
      subst hs
      refine ⟨rfl, ?_⟩
      intro e he
      rcases mem_mapUpdate32 _ _ _ _ e he with h | h
      · right; rw [h]
      · exact Or.inl h
  | some fragno =>
    rw [hf] at hs
    simp only [] at hs
    cases hm : mapFind packet.GetPacketNo s.m_video_fragments with
    | none =>
      rw [hm] at hs
      simp only [if_true] at hs
      split_ifs at hs
      · simp only [Option.some.injEq] at hs; subst hs
        exact ⟨rfl, fun e he => Or.inl he⟩
      · simp only [Option.some.injEq] at hs; subst hs
        exact ⟨rfl, fun e he => Or.inl he⟩
    | some frags =>
      rw [hm] at hs
      simp only [] at hs
      cases hr : ReassembleVideoPackets frags packet with
      | none =>
        rw [hr] at hs
        simp only [if_true] at hs
        split_ifs at hs
        · simp only [Option.some.injEq] at hs; subst hs
          exact ⟨rfl, fun e he => Or.inl he⟩
        · simp only [Option.some.injEq] at hs; subst hs
          exact ⟨rfl, fun e he => Or.inl he⟩
      | some data =>
        rw [hr] at hs
        simp only [Bool.false_eq_true, if_false] at hs
        have hmem : ∀ e ∈ mapUpdate32 (⟨[], 0⟩ : enc_frame) packet.GetTime
            (fun _ => ({ enc_data := data, packet_no := packet.GetPacketNo } : enc_frame))
            s.m_video_frames,
            e ∈ s.m_video_frames ∨ e.2.packet_no = packet.GetPacketNo := by
          intro e he
          rcases mem_mapUpdate32 _ _ _ _ e he with h | h
          · right; rw [h]
          · exact Or.inl h
        split_ifs at hs
        · simp only [Option.some.injEq] at hs; subst hs
          exact ⟨rfl, hmem⟩
        · simp only [Option.some.injEq] at hs; subst hs
          exact ⟨rfl, hmem⟩

theorem W32_GEQ_self (c : Nat) : W32_GEQ c c = true := by
  unfold W32_GEQ toInt32
  simp

theorem W32_GEQ_of_not_LT (a b : Nat) (h : W32_LT a b = false) : W32_GEQ a b = true := by
  unfold W32_LT at h
  unfold W32_GEQ
  rw [decide_eq_false_iff_not] at h
  rw [decide_eq_true_iff]
  omega

theorem ProcessVideoPacket_cursor (s : WebMPlayer) (packet : VideoPacket)
    (hfr : ∀ e ∈ s.m_video_frames, W32_GEQ e.2.packet_no s.m_packet_no = true) :
    W32_GEQ (ProcessVideoPacket s packet).m_packet_no s.m_packet_no = true := by
  cases hl : W32_LT packet.GetPacketNo s.m_packet_no with
  | true =>
    rw [ProcessVideoPacket_late s packet hl]
    exact W32_GEQ_self _
  | false =>
    unfold ProcessVideoPacket
    rw [hl]
    simp only [Bool.false_eq_true, if_false]
    cases hs : ProcessVideoPacket_store s packet with
    | none => exact W32_GEQ_self _
    | some s1 =>
      simp only []
      obtain ⟨hc, hmem⟩ := ProcessVideoPacket_store_frames s s1 packet hs
      have hall : ∀ e ∈ s1.m_video_frames, W32_GEQ e.2.packet_no s.m_packet_no = true := by
        intro e he
        rcases hmem e he with h | h
        · exact hfr e h
        · rw [h]
          exact W32_GEQ_of_not_LT _ _ hl
      have hage : ∀ s2 : WebMPlayer, s2.m_packet_no = s.m_packet_no →
          (∀ e ∈ s2.m_video_frames, e ∈ s1.m_video_frames) →
          W32_GEQ (RemoveObsoletePackets (ProcessVideoPacket_age s2)).m_packet_no
            s.m_packet_no = true := by
        intro s2 h2 hsub
        rw [(RemoveObsoletePackets_frame _).2.2]
        unfold ProcessVideoPacket_age
        split_ifs
        · show W32_GEQ (ageEvict _ _ _) _ = true
          rcases ageEvict_cases ((mapRBegin s2.m_video_frames).getD 0)
            s2.m_video_frames.dropLast s2.m_packet_no with h | ⟨e, he, h⟩
          · rw [h, h2]
            exact W32_GEQ_self _
          · rw [h]
            exact hall e (hsub e (List.dropLast_subset _ he))
        · rw [h2]
          exact W32_GEQ_self _
      split_ifs
      · exact hage _ hc (fun e he => List.mem_of_mem_tail he)
      · exact hage _ hc (fun e he => he)

/-- C23, counterexample: packets 3, 5 and 9 have been pushed at the
presentation times 600, 500 and 550 and the first frame (packet 5) has been
pulled, so the cursor is 5 and the frames of packets 9 and 3 are buffered in
this order. The push of packet 10 at time 7000 makes both frames more than
5000 ms older than the newest; the age rule walks them in map order and leaves
the cursor at 3, wrap-aware below its old value 5. -/
theorem C23_counterexample :
    VideoReachable exVideoBehind ∧
    exVideoBehind.m_decoder_ready = true ∧
    exVideoBehind.m_packet_no = 5 ∧
    exVideoBehind.m_video_frames = [(550, ⟨[9, 9], 9⟩), (600, ⟨[3, 3], 3⟩)] ∧
    (WebMPlayer.AddPacket exVideoBehind (exVideoPacket 10 7000) 40 true).2.m_packet_no = 3 ∧
    W32_GEQ (WebMPlayer.AddPacket exVideoBehind (exVideoPacket 10 7000) 40 true).2.m_packet_no
      exVideoBehind.m_packet_no = false :=
  ⟨⟨1, 3, 0, _, rfl⟩, by decide, by decide, by decide, by decide, by decide⟩

/-- C23, amended: in every state with an opened decoder in which no buffered
frame has a packet number wrap-aware below `m_packet_no`, neither `AddPacket`
nor `GetNextFrame` moves `m_packet_no` backwards: after the call it is
wrap-aware greater than or equal to its value before. -/
theorem C23_cursor_not_backwards (s : WebMPlayer) (hready : s.m_decoder_ready = true)
    (hfr : ∀ e ∈ s.m_video_frames, W32_GEQ e.2.packet_no s.m_packet_no = true) :
    (∀ (packet : VideoPacket) (now : Nat) (open_ok : Bool),
      W32_GEQ (WebMPlayer.AddPacket s packet now open_ok).2.m_packet_no s.m_packet_no = true) ∧
    (∀ (timestamp : Option Nat) (ret : DecoderResult),
      W32_GEQ (GetNextFrame s timestamp ret).2.m_packet_no s.m_packet_no = true) := by
  constructor
  · intro packet now open_ok
    rw [AddPacket_ready s packet now open_ok hready]
    unfold WebMPlayer.AddPacket_process
    simp only []
    exact ProcessVideoPacket_cursor
      { s with m_local_timestamp := now, m_video_pkts_recv := s.m_video_pkts_recv + 1 }
      packet hfr
  · intro timestamp ret
    unfold GetNextFrame
    split
    · exact W32_GEQ_self _
    · rename_i t f rest hb
      have hf : W32_GEQ f.packet_no s.m_packet_no = true :=
        hfr (t, f) (by rw [hb]; exact List.mem_cons_self _ _)
      split_ifs
      · exact W32_GEQ_self _
      · cases ret with
        | VPX_CODEC_OK =>
          simp only []
          rw [(RemoveObsoletePackets_frame _).2.2]
          exact hf
        | VPX_CODEC_UNSUP_BITSTREAM => exact hf
        | VPX_CODEC_OTHER_ERROR => exact hf

/-- C23, amended, at the state with the cursor at 12 and the frame of packet
13 buffered: a push of packet 14 and a pull leave the cursor at or above 12. -/
theorem C23_cursor_not_backwards_witness :
    exVideoPulled.m_decoder_ready = true ∧
    exVideoPulled.m_packet_no = 12 ∧
    (GetNextFrame exVideoPulled none DecoderResult.VPX_CODEC_OK).2.m_packet_no = 13 ∧
    W32_GEQ (WebMPlayer.AddPacket exVideoPulled (exVideoPacket 14 580) 30 true).2.m_packet_no
      exVideoPulled.m_packet_no = true ∧
    W32_GEQ (GetNextFrame exVideoPulled none DecoderResult.VPX_CODEC_OK).2.m_packet_no
      exVideoPulled.m_packet_no = true :=
  ⟨by decide, by decide, by decide,
    (C23_cursor_not_backwards exVideoPulled (by decide) (by decide)).1
      (exVideoPacket 14 580) 30 true,
    (C23_cursor_not_backwards exVideoPulled (by decide) (by decide)).2
      none DecoderResult.VPX_CODEC_OK⟩

/-! ## The video player: the age rule in scenario E6 -/

theorem W32_LT_fwd (x a b : Nat) (hab : a < b) (hb : b < 2147483648 + a) :
    W32_LT ((x + a) % 4294967296) ((x + b) % 4294967296) = true := by
  unfold W32_LT toInt32
  rw [decide_eq_true_iff]
  split_ifs <;> omega

theorem W32_LT_bwd (x a b : Nat) (hab : b ≤ a) (ha : a < 2147483648 + b) :
    W32_LT ((x + a) % 4294967296) ((x + b) % 4294967296) = false := by
  unfold W32_LT toInt32
  rw [decide_eq_false_iff_not]
  split_ifs <;> omega

theorem W32_LEQ_bwd (x a b : Nat) (hab : b < a) (ha : a < 2147483648 + b) :
    W32_LEQ ((x + a) % 4294967296) ((x + b) % 4294967296) = false := by
  unfold W32_LEQ toInt32
  rw [decide_eq_false_iff_not]
  split_ifs <;> omega

theorem age_fwd (x a b : Nat) (hab : a + 5000 < b) (hb : b < 2147483648 + a) :
    W32_LT (((x + a) % 4294967296 + 5000) % 4294967296) ((x + b) % 4294967296) = true := by
  unfold W32_LT toInt32
  rw [decide_eq_true_iff]
  split_ifs <;> omega

theorem age_bwd (x a b : Nat) (hab : b ≤ a + 5000) (ha : a + 5000 < 2147483648 + b) :
    W32_LT (((x + a) % 4294967296 + 5000) % 4294967296) ((x + b) % 4294967296) = false := by
  unfold W32_LT toInt32
  rw [decide_eq_false_iff_not]
  split_ifs <;> omega

theorem key_ne (x a b : Nat) (hab : a ≠ b) (ha : a < 4294967296) (hb : b < 4294967296) :
    ((x + a) % 4294967296 = (x + b) % 4294967296) = False := by
  rw [eq_iff_iff, iff_false]
  omega

theorem W32_LT_irrefl (a : Nat) : W32_LT a a = false := by
  unfold W32_LT toInt32
  rw [decide_eq_false_iff_not]
  simp

theorem push_second (recv now0 now cursor k1 : Nat) (f1 : enc_frame) (p : VideoPacket)
    (d : List Nat) (hf : p.fragno = none) (hd : p.data = some d)
    (hl : W32_LT p.GetPacketNo cursor = false)
    (hk : (k1 = p.GetTime) = False) (hi : W32_LT p.GetTime k1 = false)
    (hc : W32_LT f1.packet_no cursor = false) :
    WebMPlayer.AddPacket (e6State recv now0 cursor [(k1, f1)]) p now true =
      (true, e6State (recv + 1) now cursor
        [(k1, f1), (p.GetTime, { enc_data := d, packet_no := p.GetPacketNo })]) := by
  simp [WebMPlayer.AddPacket, WebMPlayer.AddPacket_process, VideoPacket.GetFragmentNo,
    ProcessVideoPacket, ProcessVideoPacket_store, mapUpdate32,
    mapIndex32, mapFind, mapInsert32, mapModify, ProcessVideoPacket_age, ageEvict, mapRBegin,
    RemoveObsoletePackets, RemoveObsoletePackets_fragments, RemoveObsoletePackets_frames,
    VPX_MAX_PACKETS, e6State, hf, hd, hl, hk, hi, hc]

theorem push_third (recv now0 now cursor k1 k2 : Nat) (f1 f2 : enc_frame) (p : VideoPacket)
    (d : List Nat) (hf : p.fragno = none) (hd : p.data = some d)
    (hl : W32_LT p.GetPacketNo cursor = false)
    (hk1 : (k1 = p.GetTime) = False) (hk2 : (k2 = p.GetTime) = False)
    (hi1 : W32_LT p.GetTime k1 = false) (hi2 : W32_LT p.GetTime k2 = false)
    (ha1 : W32_LT ((k1 + 5000) % 4294967296) p.GetTime = true)
    (ha2 : W32_LT ((k2 + 5000) % 4294967296) p.GetTime = false) :
    WebMPlayer.AddPacket (e6State recv now0 cursor [(k1, f1), (k2, f2)]) p now true =
      (true, e6State (recv + 1) now f1.packet_no
        [(k1, f1), (k2, f2), (p.GetTime, { enc_data := d, packet_no := p.GetPacketNo })]) := by
  simp [WebMPlayer.AddPacket, WebMPlayer.AddPacket_process, VideoPacket.GetFragmentNo,
    ProcessVideoPacket, ProcessVideoPacket_store, mapUpdate32,
    mapIndex32, mapFind, mapInsert32, mapModify, ProcessVideoPacket_age, ageEvict, mapRBegin,
    RemoveObsoletePackets, RemoveObsoletePackets_fragments, RemoveObsoletePackets_frames,
    VPX_MAX_PACKETS, e6State, hf, hd, hl, hk1, hk2, hi1, hi2, ha1, ha2, W32_LT_irrefl]

theorem push_fourth (recv now0 now cursor k1 k2 k3 : Nat) (f1 f2 f3 : enc_frame)
    (p : VideoPacket) (d : List Nat) (hf : p.fragno = none) (hd : p.data = some d)
    (hl : W32_LT p.GetPacketNo cursor = false)
    (hk1 : (k1 = p.GetTime) = False) (hk2 : (k2 = p.GetTime) = False)
    (hk3 : (k3 = p.GetTime) = False)
    (hi1 : W32_LT p.GetTime k1 = false) (hi2 : W32_LT p.GetTime k2 = false)
    (hi3 : W32_LT p.GetTime k3 = false)
    (ha1 : W32_LT ((k1 + 5000) % 4294967296) p.GetTime = true)
    (ha2 : W32_LT ((k2 + 5000) % 4294967296) p.GetTime = true)
    (ha3 : W32_LT ((k3 + 5000) % 4294967296) p.GetTime = false)
    (hc : W32_LT f1.packet_no f2.packet_no = true) :
    WebMPlayer.AddPacket (e6State recv now0 cursor [(k1, f1), (k2, f2), (k3, f3)]) p now
        true =
      (true, e6State (recv + 1) now f2.packet_no
        [(k2, f2), (k3, f3), (p.GetTime, { enc_data := d, packet_no := p.GetPacketNo })]) := by
  simp [WebMPlayer.AddPacket, WebMPlayer.AddPacket_process, VideoPacket.GetFragmentNo,
    ProcessVideoPacket, ProcessVideoPacket_store, mapUpdate32,
    mapIndex32, mapFind, mapInsert32, mapModify, ProcessVideoPacket_age, ageEvict, mapRBegin,
    RemoveObsoletePackets, RemoveObsoletePackets_fragments, RemoveObsoletePackets_frames,
    VPX_MAX_PACKETS, e6State, hf, hd, hl, hk1, hk2, hk3, hi1, hi2, hi3, ha1, ha2, ha3, hc, W32_LT_irrefl]

theorem GetNextFrame_ok_step (s : WebMPlayer) (t : Nat) (f : enc_frame)
    (rest : List (Nat × enc_frame)) (hready : s.m_decoder_ready = true)
    (hb : s.m_video_frames = (t, f) :: rest) :
    (GetNextFrame s none DecoderResult.VPX_CODEC_OK).1.isSome = true ∧
    (GetNextFrame s none DecoderResult.VPX_CODEC_OK).2 =
      RemoveObsoletePackets { s with m_packet_no := f.packet_no, m_video_frames := rest } := by
  unfold GetNextFrame
  rw [hb]
  simp only []
  rw [if_neg (by rw [hready]; simp)]
  exact ⟨rfl, rfl⟩

theorem pull_first (recv now cursor k1 k2 : Nat) (f1 f2 : enc_frame)
    (rest : List (Nat × enc_frame)) (hc : W32_LT f2.packet_no f1.packet_no = false) :
    (GetNextFrame (e6State recv now cursor ((k1, f1) :: (k2, f2) :: rest)) none
        DecoderResult.VPX_CODEC_OK).1.isSome = true ∧
    (GetNextFrame (e6State recv now cursor ((k1, f1) :: (k2, f2) :: rest)) none
        DecoderResult.VPX_CODEC_OK).2 = e6State recv now f1.packet_no ((k2, f2) :: rest) := by
  have hs : RemoveObsoletePackets (e6State recv now f1.packet_no ((k2, f2) :: rest)) =
      e6State recv now f1.packet_no ((k2, f2) :: rest) := by
    rw [RemoveObsoletePackets_eq]
    have h1 : RemoveObsoletePackets_fragments
        (e6State recv now f1.packet_no ((k2, f2) :: rest)).m_video_fragments.length
        (e6State recv now f1.packet_no ((k2, f2) :: rest)) =
        e6State recv now f1.packet_no ((k2, f2) :: rest) := rfl
    rw [h1]
    apply RemoveObsoletePackets_frames_stop
    intro t f r hb
    obtain ⟨h2, _⟩ := List.cons.inj hb
    rw [← (Prod.mk.inj h2).2]
    exact hc
  have h := (GetNextFrame_ok_step (e6State recv now cursor ((k1, f1) :: (k2, f2) :: rest))
    k1 f1 ((k2, f2) :: rest) rfl rfl)
  exact ⟨h.1, h.2.trans hs⟩

theorem e6_step1 (n t : Nat) :
    WebMPlayer.AddPacket (WebMPlayer.new 1 3 0) (exVideoPacket n t) 10 true =
      (true, e6State 1 10 (n % 4294967296) [e6Frame n t]) := by
  have c1 : W32_LT (n % 4294967296) (n % 4294967296) = false := W32_LT_irrefl _
  simp [WebMPlayer.AddPacket, WebMPlayer.AddPacket_process, WebMPlayer.new, exVideoPacket,
    VideoPacket.GetStreamID, VideoPacket.GetPacketNo, VideoPacket.GetTime,
    VideoPacket.GetFragmentNo, ProcessVideoPacket, ProcessVideoPacket_store, mapUpdate32,
    mapIndex32, mapFind, mapInsert32, mapModify, ProcessVideoPacket_age, RemoveObsoletePackets,
    RemoveObsoletePackets_fragments, RemoveObsoletePackets_frames, VPX_MAX_PACKETS, c1,
    e6State, e6Frame]

theorem e6_step2 (n t : Nat) :
    WebMPlayer.AddPacket (e6State 1 10 (n % 4294967296) [e6Frame n t])
        (exVideoPacket (n + 1) (t + 1000)) 20 true =
      (true, e6State 2 20 (n % 4294967296) [e6Frame n t, e6Frame (n + 1) (t + 1000)]) :=
  push_second 1 10 20 (n % 4294967296) (t % 4294967296)
    { enc_data := [n, n], packet_no := n % 4294967296 }
    (exVideoPacket (n + 1) (t + 1000)) [n + 1, n + 1] rfl rfl
    (W32_LT_bwd n 1 0 (by omega) (by omega))
    (key_ne t 0 1000 (by omega) (by omega) (by omega))
    (W32_LT_bwd t 1000 0 (by omega) (by omega))
    (W32_LT_irrefl _)

theorem e6_step3 (n t : Nat) :
    WebMPlayer.AddPacket
        (e6State 2 20 (n % 4294967296) [e6Frame n t, e6Frame (n + 1) (t + 1000)])
        (exVideoPacket (n + 2) (t + 6000)) 30 true =
      (true, e6State 3 30 (n % 4294967296)
        [e6Frame n t, e6Frame (n + 1) (t + 1000), e6Frame (n + 2) (t + 6000)]) :=
  push_third 2 20 30 (n % 4294967296) (t % 4294967296) ((t + 1000) % 4294967296)
    { enc_data := [n, n], packet_no := n % 4294967296 }
    { enc_data := [n + 1, n + 1], packet_no := (n + 1) % 4294967296 }
    (exVideoPacket (n + 2) (t + 6000)) [n + 2, n + 2] rfl rfl
    (W32_LT_bwd n 2 0 (by omega) (by omega))
    (key_ne t 0 6000 (by omega) (by omega) (by omega))
    (key_ne t 1000 6000 (by omega) (by omega) (by omega))
    (W32_LT_bwd t 6000 0 (by omega) (by omega))
    (W32_LT_bwd t 6000 1000 (by omega) (by omega))
    (age_fwd t 0 6000 (by omega) (by omega))
    (age_bwd t 1000 6000 (by omega) (by omega))

theorem e6_step4 (n t : Nat) :
    WebMPlayer.AddPacket
        (e6State 3 30 (n % 4294967296)
          [e6Frame n t, e6Frame (n + 1) (t + 1000), e6Frame (n + 2) (t + 6000)])
        (exVideoPacket (n + 3) (t + 11000)) 40 true =
      (true, e6State 4 40 ((n + 1) % 4294967296)
        [e6Frame (n + 1) (t + 1000), e6Frame (n + 2) (t + 6000),
          e6Frame (n + 3) (t + 11000)]) :=
  push_fourth 3 30 40 (n % 4294967296) (t % 4294967296) ((t + 1000) % 4294967296)
    ((t + 6000) % 4294967296)
    { enc_data := [n, n], packet_no := n % 4294967296 }
    { enc_data := [n + 1, n + 1], packet_no := (n + 1) % 4294967296 }
    { enc_data := [n + 2, n + 2], packet_no := (n + 2) % 4294967296 }
    (exVideoPacket (n + 3) (t + 11000)) [n + 3, n + 3] rfl rfl
    (W32_LT_bwd n 3 0 (by omega) (by omega))
    (key_ne t 0 11000 (by omega) (by omega) (by omega))
    (key_ne t 1000 11000 (by omega) (by omega) (by omega))
    (key_ne t 6000 11000 (by omega) (by omega) (by omega))
    (W32_LT_bwd t 11000 0 (by omega) (by omega))
    (W32_LT_bwd t 11000 1000 (by omega) (by omega))
    (W32_LT_bwd t 11000 6000 (by omega) (by omega))
    (age_fwd t 0 11000 (by omega) (by omega))
    (age_fwd t 1000 11000 (by omega) (by omega))
    (age_bwd t 6000 11000 (by omega) (by omega))
    (W32_LT_fwd n 0 1 (by omega) (by omega))

theorem exE6_eq (n t : Nat) :
    exE6 n t = e6State 3 30 (n % 4294967296)
      [e6Frame n t, e6Frame (n + 1) (t + 1000), e6Frame (n + 2) (t + 6000)] := by
  unfold exE6 e6Pushes runVideoCalls
  simp only [List.foldl_cons, List.foldl_nil, VideoCall.apply]
  rw [e6_step1, e6_step2, e6_step3]

/-- What the code computes in scenario E6, for every base time `t` and every
first packet number `n` (both taken mod 2^32): after the pushes of the
unfragmented packets `n`, `n + 1`, `n + 2` at the presentation times `t`,
`t + 1000`, `t + 6000` into a new player all three frames are in the frame
store, the cursor is `n` and a pull returns the first frame. The push of
packet `n + 3` at the time `t + 11000` moves the cursor to `n + 1` and erases
the first frame only; the frame of packet `n + 1`, which the age test also
found too old, is left in the store. -/
theorem exE6_fourth_push (n t : Nat) :
    (exE6 n t).m_video_frames =
      [e6Frame n t, e6Frame (n + 1) (t + 1000), e6Frame (n + 2) (t + 6000)] ∧
    (exE6 n t).m_packet_no = n % 4294967296 ∧
    (GetNextFrame (exE6 n t) none DecoderResult.VPX_CODEC_OK).1.isSome = true ∧
    (GetNextFrame (exE6 n t) none DecoderResult.VPX_CODEC_OK).2.m_video_frames =
      [e6Frame (n + 1) (t + 1000), e6Frame (n + 2) (t + 6000)] ∧
    (WebMPlayer.AddPacket (exE6 n t) (exVideoPacket (n + 3) (t + 11000)) 40 true).1 = true ∧
    (WebMPlayer.AddPacket (exE6 n t) (exVideoPacket (n + 3) (t + 11000)) 40
        true).2.m_video_frames =
      [e6Frame (n + 1) (t + 1000), e6Frame (n + 2) (t + 6000), e6Frame (n + 3) (t + 11000)] ∧
    (WebMPlayer.AddPacket (exE6 n t) (exVideoPacket (n + 3) (t + 11000)) 40
        true).2.m_packet_no = (n + 1) % 4294967296 ∧
    W32_LT (exE6 n t).m_packet_no ((n + 1) % 4294967296) = true := by
  have hp := pull_first 3 30 (n % 4294967296) (t % 4294967296) ((t + 1000) % 4294967296)
    { enc_data := [n, n], packet_no := n % 4294967296 }
    { enc_data := [n + 1, n + 1], packet_no := (n + 1) % 4294967296 }
    [e6Frame (n + 2) (t + 6000)] (W32_LT_bwd n 1 0 (by omega) (by omega))
  have hp1 : (GetNextFrame (e6State 3 30 (n % 4294967296)
      [e6Frame n t, e6Frame (n + 1) (t + 1000), e6Frame (n + 2) (t + 6000)]) none
      DecoderResult.VPX_CODEC_OK).1.isSome = true := hp.1
  have hp2 : (GetNextFrame (e6State 3 30 (n % 4294967296)
      [e6Frame n t, e6Frame (n + 1) (t + 1000), e6Frame (n + 2) (t + 6000)]) none
      DecoderResult.VPX_CODEC_OK).2 =
      e6State 3 30 (n % 4294967296)
        [e6Frame (n + 1) (t + 1000), e6Frame (n + 2) (t + 6000)] := hp.2
  rw [exE6_eq, e6_step4, hp2]
  exact ⟨rfl, rfl, hp1, rfl, rfl, rfl, rfl, W32_LT_fwd n 0 1 (by omega) (by omega)⟩

/-! ## The working buffer of a callback -/

theorem PlayBuffer_stereo (s : AudioPlayer) :
    (PlayBuffer s).2.m_stereo = s.m_stereo ∧ (PlayBuffer s).2.m_codec = s.m_codec := by
  unfold PlayBuffer
  split_ifs
  · obtain ⟨m, hm⟩ := PlayBuffer_mux_frame true
      (PlayBuffer_decode (PlayBuffer_catchup (maxbuf_msec s) s.m_buffer.length s))
    obtain ⟨b, p, hc⟩ := PlayBuffer_catchup_frame (maxbuf_msec s) s.m_buffer.length s
    simp only []
    rw [hm, PlayBuffer_decode_eq, hc]
    split_ifs <;> exact ⟨rfl, rfl⟩
  · obtain ⟨m, hm⟩ := PlayBuffer_mux_frame false s
    simp only []
    rw [hm]
    exact ⟨rfl, rfl⟩

/-- The working buffer that `StreamPlayerCb` leaves on a played callback with
two input channels is the mask step applied to the content that `PlayBuffer`
left, with the mask `m_stereo` and `GetAudioCodecCbSamples` samples per lane;
on a played callback with another channel count, and when nothing was played,
the buffer is left as it is. -/
theorem StreamPlayerCb_buffer (s : AudioPlayer) (now codec_channels : Nat)
    (container_accepts : Bool) (pcm : PcmBuffer) :
    (StreamPlayerCb s now codec_channels container_accepts pcm).2.1 =
      if (PlayBuffer s).1 = true ∧
          (if s.m_codec.simulate_stereo = true then 2 else codec_channels) = 2 then
        StreamPlayerCb_mask s.m_stereo s.m_codec.cb_samples pcm
      else pcm := by
  unfold StreamPlayerCb
  simp only []
  by_cases hp : (PlayBuffer s).1 = true
  · rw [if_pos hp]
    simp only []
    by_cases hc : (if s.m_codec.simulate_stereo = true then 2 else codec_channels) = 2
    · rw [if_pos hc, if_pos ⟨hp, hc⟩]
      show StreamPlayerCb_mask (PlayBuffer s).2.m_stereo _ _ = _
      rw [(PlayBuffer_stereo s).1]
    · rw [if_neg hc, if_neg (fun h => hc h.2)]
  · have hpf : (PlayBuffer s).1 = false := by simpa using hp
    simp only [hpf, Bool.false_eq_true, false_and, if_false]
    split_ifs <;> rfl

/-- C17: on a played callback with two input channels (the codec has two
channels or asks for simulated stereo) the working buffer that `StreamPlayerCb`
leaves is the interleaved buffer `pcm` of `PlayBuffer`, with `n =
GetAudioCodecCbSamples` samples per lane, after the mask step: for every
`k < n`, with `STEREO_BOTH` the buffer is unchanged; with `STEREO_LEFT` sample
`2k+1` is 0 and sample `2k` is unchanged; with `STEREO_RIGHT` sample `2k` is 0
and sample `2k+1` is unchanged; with `STEREO_NONE` samples `2k` and `2k+1` are
both 0; no sample at an index of `2n` or above is written. -/
theorem C17_stereo_mask (s : AudioPlayer) (now codec_channels : Nat) (container_accepts : Bool)
    (pcm : PcmBuffer) (hplayed : (PlayBuffer s).1 = true)
    (hch : s.m_codec.simulate_stereo = true ∨ codec_channels = 2) :
    (StreamPlayerCb s now codec_channels container_accepts pcm).2.1 =
      StreamPlayerCb_mask s.m_stereo s.m_codec.cb_samples pcm ∧
    (s.m_stereo = StereoMask.STEREO_BOTH →
      (StreamPlayerCb s now codec_channels container_accepts pcm).2.1 = pcm) ∧
    (∀ k, k < s.m_codec.cb_samples →
      (s.m_stereo = StereoMask.STEREO_LEFT →
        (StreamPlayerCb s now codec_channels container_accepts pcm).2.1 (2 * k + 1) = 0 ∧
        (StreamPlayerCb s now codec_channels container_accepts pcm).2.1 (2 * k) =
          pcm (2 * k)) ∧
      (s.m_stereo = StereoMask.STEREO_RIGHT →
        (StreamPlayerCb s now codec_channels container_accepts pcm).2.1 (2 * k) = 0 ∧
        (StreamPlayerCb s now codec_channels container_accepts pcm).2.1 (2 * k + 1) =
          pcm (2 * k + 1)) ∧
      (s.m_stereo = StereoMask.STEREO_NONE →
        (StreamPlayerCb s now codec_channels container_accepts pcm).2.1 (2 * k) = 0 ∧
        (StreamPlayerCb s now codec_channels container_accepts pcm).2.1 (2 * k + 1) = 0)) ∧
    (∀ j, 2 * s.m_codec.cb_samples ≤ j →
      (StreamPlayerCb s now codec_channels container_accepts pcm).2.1 j = pcm j) := by
  have hc : (if s.m_codec.simulate_stereo = true then 2 else codec_channels) = 2 := by
    rcases hch with h | h
    · rw [if_pos h]
    · split_ifs
      · rfl
      · exact h
  have hbuf : (StreamPlayerCb s now codec_channels container_accepts pcm).2.1 =
      StreamPlayerCb_mask s.m_stereo s.m_codec.cb_samples pcm := by
    rw [StreamPlayerCb_buffer, if_pos ⟨hplayed, hc⟩]
  obtain ⟨m1, m2, m3⟩ := StreamPlayerCb_mask_apply s.m_codec.cb_samples pcm
  rw [hbuf]
  refine ⟨rfl, ?_, ?_, ?_⟩
  · intro h
    rw [h]
    exact m1
  · intro k hk
    obtain ⟨a1, a2, a3, a4, a5, a6⟩ := m2 k hk
    refine ⟨?_, ?_, ?_⟩
    · intro h
      rw [h]
      exact ⟨a1, a2⟩
    · intro h
      rw [h]
      exact ⟨a3, a4⟩
    · intro h
      rw [h]
      exact ⟨a5, a6⟩
  · intro j hj
    exact m3 s.m_stereo j hj

/-- C17, instance: packet 100 is played by a two-channel callback of 960
samples per lane under the left mask, with the working buffer `1, 2, 3, ...`:
index 3 is zeroed, index 2 keeps 3 and index 1920 keeps 1921. -/
theorem C17_stereo_mask_witness :
    (PlayBuffer exLeftMasked).1 = true ∧
    exLeftMasked.m_stereo = StereoMask.STEREO_LEFT ∧
    exLeftMasked.m_codec.cb_samples = 960 ∧
    (StreamPlayerCb exLeftMasked 1000 2 true exRamp).2.1 3 = 0 ∧
    (StreamPlayerCb exLeftMasked 1000 2 true exRamp).2.1 2 = exRamp 2 ∧
    (StreamPlayerCb exLeftMasked 1000 2 true exRamp).2.1 1920 = exRamp 1920 :=
  ⟨by decide, by decide, by decide,
    (((C17_stereo_mask exLeftMasked 1000 2 true exRamp (by decide) (Or.inr rfl)).2.2.1 1
      (by decide)).1 (by decide)).1,
    (((C17_stereo_mask exLeftMasked 1000 2 true exRamp (by decide) (Or.inr rfl)).2.2.1 1
      (by decide)).1 (by decide)).2,
    (C17_stereo_mask exLeftMasked 1000 2 true exRamp (by decide) (Or.inr rfl)).2.2.2 1920
      (by decide)⟩

theorem PlayBuffer_pcm_eq (s : AudioPlayer) (n cb_bytes : Nat) (decoded buf : PcmBuffer)
    (hsim : s.m_codec.simulate_stereo = true) :
    PlayBuffer_pcm s n cb_bytes decoded buf =
      simulateStereoSteps n n (PlayBuffer_fill s cb_bytes decoded buf) := by
  unfold PlayBuffer_pcm PlayBuffer_simulate_stereo
  rw [if_pos hsim]

/-- C18: when the codec asks for simulated stereo, the output buffer that
`PlayBuffer` returns is the result of its in-place loop, run from the highest
index down over `n` samples, on the buffer `m` that the decoder (or the
`memset`) filled: `out[2k] = out[2k+1] = m[k]` for every `k < n`, nothing at
index `2n` or above is changed, and no mono sample is overwritten before it is
read: the sample `n - 1 - j` that iteration `j + 1` reads still has its value
from before the loop. On a played call `m` is the decoder's output. -/
theorem C18_simulated_stereo (s : AudioPlayer) (n cb_bytes : Nat) (decoded buf : PcmBuffer)
    (hsim : s.m_codec.simulate_stereo = true) :
    PlayBuffer_pcm s n cb_bytes decoded buf =
      simulateStereoSteps n n (PlayBuffer_fill s cb_bytes decoded buf) ∧
    (∀ k, k < n →
      PlayBuffer_pcm s n cb_bytes decoded buf (2 * k) =
        PlayBuffer_fill s cb_bytes decoded buf k ∧
      PlayBuffer_pcm s n cb_bytes decoded buf (2 * k + 1) =
        PlayBuffer_fill s cb_bytes decoded buf k) ∧
    (∀ x, 2 * n ≤ x →
      PlayBuffer_pcm s n cb_bytes decoded buf x = PlayBuffer_fill s cb_bytes decoded buf x) ∧
    (∀ j, j < n →
      simulateStereoSteps n j (PlayBuffer_fill s cb_bytes decoded buf) (n - 1 - j) =
        PlayBuffer_fill s cb_bytes decoded buf (n - 1 - j)) ∧
    ((PlayBuffer s).1 = true → ∀ k, k < n →
      PlayBuffer_pcm s n cb_bytes decoded buf (2 * k) = decoded k ∧
      PlayBuffer_pcm s n cb_bytes decoded buf (2 * k + 1) = decoded k) := by
  have he := PlayBuffer_pcm_eq s n cb_bytes decoded buf hsim
  obtain ⟨p1, p2, p3⟩ := simulateStereoSteps_pairs n (PlayBuffer_fill s cb_bytes decoded buf)
  rw [he]
  refine ⟨rfl, p1, p2, p3, ?_⟩
  intro hp k hk
  have hne : s.m_buffer.length ≠ 0 := by
    intro h0
    unfold PlayBuffer at hp
    rw [if_neg (by simp [h0])] at hp
    simp at hp
  have hfill : PlayBuffer_fill s cb_bytes decoded buf = decoded := by
    unfold PlayBuffer_fill
    rw [if_pos hne]
  have h := p1 k hk
  rw [hfill] at h ⊢
  exact h

/-- C18, instance: a played call of a player whose codec asks for simulated
stereo, with three mono samples `1, 2, 3` decoded: the output buffer is
`1, 1, 2, 2, 3, 3` and index 6 keeps its value 7. -/
theorem C18_simulated_stereo_witness :
    exPlayerSim.m_codec.simulate_stereo = true ∧
    (PlayBuffer exPlayerSim).1 = true ∧
    PlayBuffer_pcm exPlayerSim 3 6 exRamp (fun _ => 0) 0 = 1 ∧
    PlayBuffer_pcm exPlayerSim 3 6 exRamp (fun _ => 0) 1 = 1 ∧
    PlayBuffer_pcm exPlayerSim 3 6 exRamp (fun _ => 0) 2 = 2 ∧
    PlayBuffer_pcm exPlayerSim 3 6 exRamp (fun _ => 0) 3 = 2 ∧
    PlayBuffer_pcm exPlayerSim 3 6 exRamp (fun _ => 0) 4 = 3 ∧
    PlayBuffer_pcm exPlayerSim 3 6 exRamp (fun _ => 0) 5 = 3 ∧
    PlayBuffer_pcm exPlayerSim 3 6 exRamp (fun _ => 0) 6 = 7 :=
  have h := C18_simulated_stereo exPlayerSim 3 6 exRamp (fun _ => 0) (by decide)
  ⟨by decide, by decide,
    (h.2.2.2.2 (by decide) 0 (by decide)).1, (h.2.2.2.2 (by decide) 0 (by decide)).2,
    (h.2.2.2.2 (by decide) 1 (by decide)).1, (h.2.2.2.2 (by decide) 1 (by decide)).2,
    (h.2.2.2.2 (by decide) 2 (by decide)).1, (h.2.2.2.2 (by decide) 2 (by decide)).2,
    by decide⟩

end teamtalk
